import Mathlib

/-!
# libfabric: wait objects (`prov/util/src/util_wait.c`) and PSM tag-bit
reservation (`prov/psm/src/psmx_init.c`)

A shallow embedding of the two source files.

* The C code runs under `wait->lock`; the embedding is the sequential
  semantics of each call (one call at a time, lock acquire/release elided).
* Everything the source calls but does not define (the readiness multiplexer
  `ofi_epoll_*` / `ofi_pollfds_*`, the signal channel, the poll set, `calloc`,
  `fi_control`, the registered try-callbacks, the clock) lives in an abstract
  external state `S` and is reached through the record `Env S`.
* `World S` pairs the external state with a chronological log of the external
  calls the theorems speak about (callbacks, multiplexer add/del/wait,
  `fi_poll`).
* The reference count of a registry entry is an `ofi_atomic32_t`: an integer
  in the range of `int32_t` whose increment and decrement wrap around
  (`ofi_atomic_inc32`, `ofi_atomic_dec32`). The reference counts of a wait
  object and of the fabric, which the embedded functions only move by one
  between open and close, are integers without a bound. The change counter of
  a descriptor wait object, whose declaration is not in the two files, is a
  natural number that does not wrap.
* A function pointer is a number that the environment resolves
  (`Env.wait_try`); the pointer `wait_try` of a wait object may be `NULL`
  (`none`), and a call through a `NULL` pointer has no result.
* Loops that the source does not bound (`while (1)`, `while (!wait->signal)`)
  take a fuel argument that counts loop iterations; `none` means the fuel ran
  out.
-/

namespace Libfabric

/-! ## Constants of the public headers -/

/-- Modelled from the spec: the error codes of `fi_errno.h` (not under src/),
the spec's `ok`; the values are those of errno.h. -/
def FI_SUCCESS : Int := 0
/-- Modelled from the spec: `NoMemory`. -/
def FI_ENOMEM : Int := 12
/-- Modelled from the spec: the generic not-ready condition. -/
def FI_EAGAIN : Int := 11
/-- Modelled from the spec: `Busy`. -/
def FI_EBUSY : Int := 16
/-- Modelled from the spec: `InvalidArgument`. -/
def FI_EINVAL : Int := 22
/-- Modelled from the spec: the code for an unsupported command. -/
def FI_ENOSYS : Int := 38
/-- Modelled from the spec: `NoData`. -/
def FI_ENODATA : Int := 61
/-- Modelled from the spec: the code for an unsupported operation. -/
def FI_EOPNOTSUPP : Int := 95
/-- Modelled from the spec: `Timeout`. -/
def FI_ETIMEDOUT : Int := 110
/-- Modelled from the spec: `TooSmall`. -/
def FI_ETOOSMALL : Int := 257

/-- The `enum fi_wait_obj` of the public header. -/
inductive fi_wait_obj
  | FI_WAIT_NONE
  | FI_WAIT_UNSPEC
  | FI_WAIT_SET
  | FI_WAIT_FD
  | FI_WAIT_MUTEX_COND
  | FI_WAIT_YIELD
  | FI_WAIT_POLLFD
  deriving DecidableEq, Repr

open fi_wait_obj

/-! ## External world -/

/-- One logged external call, with its arguments and its return value. -/
inductive Event
  | wait_try (func arg : Nat) (ret : Int)
  | epoll_add (fd : Int) (events ctx : Nat) (ret : Int)
  | epoll_del (fd : Int) (ret : Int)
  | epoll_wait (timeout : Int) (ret : Int)
  | pollfds_add (fd : Int) (events ctx : Nat) (ret : Int)
  | pollfds_del (fd : Int) (ret : Int)
  | pollfds_wait (timeout : Int) (ret : Int)
  | fi_poll (ret : Int)
  deriving DecidableEq, Repr

/-- The functions the source calls but does not define, as transitions of an
external state `S`. Pointers (fids, callbacks, callback arguments, contexts)
are natural numbers compared by identity. -/
structure Env (S : Type) where
  /-- Calling the `ofi_wait_try_func` pointer `func` on `arg`. -/
  wait_try : Nat → Nat → S → Int × S
  /-- The call `fi_control(fid, FI_GETWAIT, &fd)`: return code, `fd`, new state. -/
  fi_control_getwait : Nat → S → Int × Int × S
  /-- The field `fid->context`. -/
  fid_context : Nat → Nat
  /-- Whether `calloc` returns a non-NULL pointer. -/
  calloc : S → Bool × S
  ofi_epoll_add : Int → Nat → Nat → S → Int × S
  ofi_epoll_del : Int → S → Int × S
  ofi_epoll_wait : Int → S → Int × S
  ofi_epoll_close : S → S
  ofi_pollfds_add : Int → Nat → Nat → S → Int × S
  ofi_pollfds_del : Int → S → Int × S
  ofi_pollfds_wait : Int → S → Int × S
  /-- The field `wait->pollfds->nfds`. -/
  pollfds_nfds : S → Nat
  /-- The array `wait->pollfds->fds`. -/
  pollfds_fds : S → List Int
  /-- The field `wait->epoll_fd`. -/
  epoll_fd : S → Int
  /-- The descriptor `wait->signal.fd[FI_READ_FD]`. -/
  signal_read_fd : S → Int
  fd_signal_set : S → S
  fd_signal_reset : S → S
  fd_signal_free : S → S
  /-- The call `fi_poll(&wait->pollset->poll_fid, &context, 1)`. -/
  fi_poll : S → Int × S
  /-- The call `fi_close(&wait->pollset->poll_fid.fid)`. -/
  fi_close_pollset : S → Int × S
  /-- The millisecond clock. -/
  ofi_gettime_ms : S → Nat × S
  pthread_yield : S → S

/-- External state together with the log of external calls, oldest first. -/
structure World (S : Type) where
  st : S
  trace : List Event
  deriving DecidableEq

/-- Invocation of a registered try-callback, logged. -/
def call_wait_try {S : Type} (env : Env S) (func arg : Nat) (w : World S) : Int × World S :=
  let r := env.wait_try func arg w.st
  (r.1, { st := r.2, trace := w.trace ++ [Event.wait_try func arg r.1] })

/-- The expression `(wait_obj == FI_WAIT_FD) ? ofi_epoll_add(..) : ofi_pollfds_add(..)`, logged. -/
def mux_add {S : Type} (env : Env S) (wait_obj : fi_wait_obj) (fd : Int) (events ctx : Nat)
    (w : World S) : Int × World S :=
  if wait_obj = FI_WAIT_FD then
    let r := env.ofi_epoll_add fd events ctx w.st
    (r.1, { st := r.2, trace := w.trace ++ [Event.epoll_add fd events ctx r.1] })
  else
    let r := env.ofi_pollfds_add fd events ctx w.st
    (r.1, { st := r.2, trace := w.trace ++ [Event.pollfds_add fd events ctx r.1] })

/-- The expression `(wait_obj == FI_WAIT_FD) ? ofi_epoll_del(..) : ofi_pollfds_del(..)`, logged. -/
def mux_del {S : Type} (env : Env S) (wait_obj : fi_wait_obj) (fd : Int)
    (w : World S) : Int × World S :=
  if wait_obj = FI_WAIT_FD then
    let r := env.ofi_epoll_del fd w.st
    (r.1, { st := r.2, trace := w.trace ++ [Event.epoll_del fd r.1] })
  else
    let r := env.ofi_pollfds_del fd w.st
    (r.1, { st := r.2, trace := w.trace ++ [Event.pollfds_del fd r.1] })

/-- The expression `(wait_obj == FI_WAIT_FD) ? ofi_epoll_wait(..) : ofi_pollfds_wait(..)`, logged. -/
def mux_wait {S : Type} (env : Env S) (wait_obj : fi_wait_obj) (timeout : Int)
    (w : World S) : Int × World S :=
  if wait_obj = FI_WAIT_FD then
    let r := env.ofi_epoll_wait timeout w.st
    (r.1, { st := r.2, trace := w.trace ++ [Event.epoll_wait timeout r.1] })
  else
    let r := env.ofi_pollfds_wait timeout w.st
    (r.1, { st := r.2, trace := w.trace ++ [Event.pollfds_wait timeout r.1] })

/-- The call `fi_poll` on the wait object's internal poll set, logged. -/
def call_fi_poll {S : Type} (env : Env S) (w : World S) : Int × World S :=
  let r := env.fi_poll w.st
  (r.1, { st := r.2, trace := w.trace ++ [Event.fi_poll r.1] })

/-! ## Data model -/

/-- The `struct ofi_wait_fid_entry`. -/
structure ofi_wait_fid_entry where
  fid : Nat
  wait_try : Nat
  events : Nat
  ref : Int
  deriving DecidableEq, Repr

/-- The `struct ofi_wait_fd_entry`. -/
structure ofi_wait_fd_entry where
  fd : Int
  wait_try : Nat
  arg : Nat
  ref : Int
  deriving DecidableEq, Repr

/-- The `struct util_fabric`, reduced to its reference count. -/
structure util_fabric where
  ref : Int
  deriving DecidableEq, Repr

/-- The `struct util_wait`: kind, reference count, fid registry and the function
pointer `wait_try` (`none` is `NULL`). -/
structure util_wait where
  wait_obj : fi_wait_obj
  ref : Int
  fid_list : List ofi_wait_fid_entry
  wait_try : Option Nat
  deriving DecidableEq, Repr

/-- The `struct util_wait_fd`; its multiplexer and signal channel are in the
external state. -/
structure util_wait_fd where
  util_wait : util_wait
  fd_list : List ofi_wait_fd_entry
  change_index : Nat
  deriving DecidableEq, Repr

/-- The `struct util_wait_yield`. -/
structure util_wait_yield where
  util_wait : util_wait
  signal : Int
  deriving DecidableEq, Repr

/-- The `struct fi_wait_pollfd` a caller passes to `FI_GETWAIT`: `nfds` is the
capacity of the buffer `fd` on entry. -/
structure fi_wait_pollfd where
  change_index : Nat
  nfds : Nat
  fd : List Int
  deriving DecidableEq, Repr

/-! ## dlist helpers -/

/-- The `dlist_find_first_match`: the first item satisfying the match function. -/
def dlist_find_first_match {α : Type} (p : α → Bool) (l : List α) : Option α :=
  l.find? p

/-- In-place update of the item `dlist_find_first_match` points to. -/
def update_first_match {α : Type} (p : α → Bool) (f : α → α) : List α → List α
  | [] => []
  | x :: xs => if p x then f x :: xs else x :: update_first_match p f xs

/-- The `dlist_remove` of the item `dlist_find_first_match` points to. -/
def remove_first_match {α : Type} (p : α → Bool) : List α → List α
  | [] => []
  | x :: xs => if p x then xs else x :: remove_first_match p xs

/-- The `memcpy(dst, src, n * sizeof(elem))` on arrays seen as lists. -/
def memcpy {α : Type} (dst src : List α) (n : Nat) : List α :=
  src.take n ++ dst.drop n

/-! ## The 32-bit atomic counter -/

/-- The least value of an `int32_t`. -/
def INT32_MIN : Int := -2147483648

/-- The greatest value of an `int32_t`. -/
def INT32_MAX : Int := 2147483647

/-- The function `ofi_atomic_inc32` on the value of an `ofi_atomic32_t`: the
new value, which the call also returns. The counter is an `int32_t`, and the
increment of `INT32_MAX` wraps around to `INT32_MIN`. -/
def ofi_atomic_inc32 (v : Int) : Int := if v = INT32_MAX then INT32_MIN else v + 1

/-- The function `ofi_atomic_dec32` on the value of an `ofi_atomic32_t`: the
new value, which the call also returns. The decrement of `INT32_MIN` wraps
around to `INT32_MAX`. -/
def ofi_atomic_dec32 (v : Int) : Int := if v = INT32_MIN then INT32_MAX else v - 1

/-! ## Fid registry: `ofi_wait_add_fid`, `ofi_wait_del_fid` -/

/-- The match function `ofi_wait_match_fid`. -/
def ofi_wait_match_fid (arg : Nat) (item : ofi_wait_fid_entry) : Bool :=
  item.fid == arg

/-- The atomic increment `ofi_atomic_inc32(&fid_entry->ref)`. -/
def fid_entry_inc (e : ofi_wait_fid_entry) : ofi_wait_fid_entry :=
  { e with ref := ofi_atomic_inc32 e.ref }

/-- The atomic decrement `ofi_atomic_dec32(&fid_entry->ref)`. -/
def fid_entry_dec (e : ofi_wait_fid_entry) : ofi_wait_fid_entry :=
  { e with ref := ofi_atomic_dec32 e.ref }

/-- The static helper `ofi_wait_add_fds`. -/
def ofi_wait_add_fds {S : Type} (env : Env S) (wait : util_wait) (fid_entry : ofi_wait_fid_entry)
    (w : World S) : Int × World S :=
  let r := env.fi_control_getwait fid_entry.fid w.st
  if r.1 ≠ 0 then (r.1, { w with st := r.2.2 })
  else mux_add env wait.wait_obj r.2.1 fid_entry.events (env.fid_context fid_entry.fid)
    { w with st := r.2.2 }

/-- The static helper `ofi_wait_del_fds`. -/
def ofi_wait_del_fds {S : Type} (env : Env S) (wait : util_wait) (fid_entry : ofi_wait_fid_entry)
    (w : World S) : Int × World S :=
  let r := env.fi_control_getwait fid_entry.fid w.st
  if r.1 ≠ 0 then (r.1, { w with st := r.2.2 })
  else mux_del env wait.wait_obj r.2.1 { w with st := r.2.2 }

/-- The function `ofi_wait_add_fid`: return code, wait object and world after the call. -/
def ofi_wait_add_fid {S : Type} (env : Env S) (wait : util_wait) (fid events wait_try : Nat)
    (w : World S) : Int × util_wait × World S :=
  match dlist_find_first_match (ofi_wait_match_fid fid) wait.fid_list with
  | some _ =>
    (0, { wait with fid_list :=
            update_first_match (ofi_wait_match_fid fid) fid_entry_inc wait.fid_list }, w)
  | none =>
    let a := env.calloc w.st
    let w1 : World S := { w with st := a.2 }
    if a.1 = false then (-FI_ENOMEM, wait, w1)
    else
      let fid_entry : ofi_wait_fid_entry :=
        { fid := fid, wait_try := wait_try, events := events, ref := 1 }
      if wait.wait_obj = FI_WAIT_FD ∨ wait.wait_obj = FI_WAIT_POLLFD then
        let r := ofi_wait_add_fds env wait fid_entry w1
        if r.1 ≠ 0 then (r.1, wait, r.2)
        else (0, { wait with fid_list := wait.fid_list ++ [fid_entry] }, r.2)
      else (0, { wait with fid_list := wait.fid_list ++ [fid_entry] }, w1)

/-- The function `ofi_wait_del_fid`: return code, wait object and world after the call. -/
def ofi_wait_del_fid {S : Type} (env : Env S) (wait : util_wait) (fid : Nat)
    (w : World S) : Int × util_wait × World S :=
  match dlist_find_first_match (ofi_wait_match_fid fid) wait.fid_list with
  | none => (-FI_EINVAL, wait, w)
  | some fid_entry =>
    let dec_list := update_first_match (ofi_wait_match_fid fid) fid_entry_dec wait.fid_list
    if (fid_entry_dec fid_entry).ref ≠ 0 then (0, { wait with fid_list := dec_list }, w)
    else if wait.wait_obj = FI_WAIT_FD ∨ wait.wait_obj = FI_WAIT_POLLFD then
      let r := ofi_wait_del_fds env wait (fid_entry_dec fid_entry) w
      if r.1 ≠ 0 then
        (r.1, { wait with fid_list :=
                  update_first_match (ofi_wait_match_fid fid) fid_entry_inc dec_list }, r.2)
      else (0, { wait with fid_list := remove_first_match (ofi_wait_match_fid fid) dec_list }, r.2)
    else (0, { wait with fid_list := remove_first_match (ofi_wait_match_fid fid) dec_list }, w)

/-! ## Descriptor registry: `ofi_wait_add_fd`, `ofi_wait_del_fd` -/

/-- The match function `ofi_wait_match_fd`. -/
def ofi_wait_match_fd (arg : Int) (item : ofi_wait_fd_entry) : Bool :=
  item.fd == arg

/-- The atomic increment `ofi_atomic_inc32(&fd_entry->ref)`. -/
def fd_entry_inc (e : ofi_wait_fd_entry) : ofi_wait_fd_entry :=
  { e with ref := ofi_atomic_inc32 e.ref }

/-- The atomic decrement `ofi_atomic_dec32(&fd_entry->ref)`. -/
def fd_entry_dec (e : ofi_wait_fd_entry) : ofi_wait_fd_entry :=
  { e with ref := ofi_atomic_dec32 e.ref }

/-- The function `ofi_wait_del_fd`. The return value of the multiplexer's
delete is discarded, as in the source. -/
def ofi_wait_del_fd {S : Type} (env : Env S) (wait : util_wait_fd) (fd : Int)
    (w : World S) : Int × util_wait_fd × World S :=
  match dlist_find_first_match (ofi_wait_match_fd fd) wait.fd_list with
  | none => (-FI_EINVAL, wait, w)
  | some fd_entry =>
    let dec_list := update_first_match (ofi_wait_match_fd fd) fd_entry_dec wait.fd_list
    if (fd_entry_dec fd_entry).ref ≠ 0 then (0, { wait with fd_list := dec_list }, w)
    else
      let r := mux_del env wait.util_wait.wait_obj fd_entry.fd w
      (0, { wait with fd_list := remove_first_match (ofi_wait_match_fd fd) dec_list,
                      change_index := wait.change_index + 1 }, r.2)

/-- The function `ofi_wait_add_fd`. -/
def ofi_wait_add_fd {S : Type} (env : Env S) (wait : util_wait_fd) (fd : Int) (events : Nat)
    (wait_try arg context : Nat) (w : World S) : Int × util_wait_fd × World S :=
  match dlist_find_first_match (ofi_wait_match_fd fd) wait.fd_list with
  | some _ =>
    (0, { wait with fd_list :=
            update_first_match (ofi_wait_match_fd fd) fd_entry_inc wait.fd_list }, w)
  | none =>
    let r := mux_add env wait.util_wait.wait_obj fd events context w
    if r.1 ≠ 0 then (r.1, wait, r.2)
    else
      let a := env.calloc r.2.st
      let w1 : World S := { r.2 with st := a.2 }
      if a.1 = false then
        (-FI_ENOMEM, wait, (mux_del env wait.util_wait.wait_obj fd w1).2)
      else
        let fd_entry : ofi_wait_fd_entry :=
          { fd := fd, wait_try := wait_try, arg := arg, ref := 1 }
        (0, { wait with fd_list := wait.fd_list ++ [fd_entry],
                        change_index := wait.change_index + 1 }, w1)

/-! ## The descriptor wait object: try, run, control, close -/

/-- The loop `dlist_foreach_container(&wait_fd->fd_list, ..)` of `util_wait_fd_try`:
`some ret` when a callback returned `ret != FI_SUCCESS` (the loop returns at
once), `none` when the list was walked to its end. -/
def try_fd_entries {S : Type} (env : Env S) : List ofi_wait_fd_entry → World S →
    Option Int × World S
  | [], w => (none, w)
  | fd_entry :: rest, w =>
    let r := call_wait_try env fd_entry.wait_try fd_entry.arg w
    if r.1 ≠ FI_SUCCESS then (some r.1, r.2) else try_fd_entries env rest r.2

/-- The loop `dlist_foreach_container(&wait->fid_list, ..)` of `util_wait_fd_try`
and of `util_wait_yield_run`: `some ret` when a callback returned a non-zero
`ret`, `none` when the list was walked to its end. -/
def try_fid_entries {S : Type} (env : Env S) : List ofi_wait_fid_entry → World S →
    Option Int × World S
  | [], w => (none, w)
  | fid_entry :: rest, w =>
    let r := call_wait_try env fid_entry.wait_try fid_entry.fid w
    if r.1 ≠ FI_SUCCESS then (some r.1, r.2) else try_fid_entries env rest r.2

/-- The function `util_wait_fd_try`. -/
def util_wait_fd_try {S : Type} (env : Env S) (wait : util_wait_fd) (w : World S) :
    Int × World S :=
  let w0 : World S := { w with st := env.fd_signal_reset w.st }
  match try_fd_entries env wait.fd_list w0 with
  | (some ret, w1) => (ret, w1)
  | (none, w1) =>
    match try_fid_entries env wait.util_wait.fid_list w1 with
    | (some ret, w2) => (ret, w2)
    | (none, w2) =>
      let r := call_fi_poll env w2
      (if r.1 > 0 then -FI_EAGAIN else if r.1 = -FI_EAGAIN then FI_SUCCESS else r.1, r.2)

/-- Modelled from the spec: `ofi_timeout_time` (not under src/), "compute absolute
deadline from timeoutMillis (negative = infinite)". -/
def ofi_timeout_time {S : Type} (env : Env S) (timeout : Int) (w : World S) : Nat × World S :=
  if 0 ≤ timeout then
    let t := env.ofi_gettime_ms w.st
    (t.1 + timeout.toNat, { w with st := t.2 })
  else (0, w)

/-- Modelled from the spec: `ofi_adjust_timeout` (not under src/), "check whether
the deadline has elapsed; if so, fail with Timeout", else leave the remaining
time in `timeout`; a negative timeout never expires. Returns the code, the
updated `timeout` and the world. -/
def ofi_adjust_timeout {S : Type} (env : Env S) (endtime : Nat) (timeout : Int) (w : World S) :
    Int × Int × World S :=
  if 0 ≤ timeout then
    let t := env.ofi_gettime_ms w.st
    if endtime ≤ t.1 then (-FI_ETIMEDOUT, timeout, { w with st := t.2 })
    else (0, ((endtime - t.1 : Nat) : Int), { w with st := t.2 })
  else (0, timeout, w)

/-- The `while (1)` loop of `util_wait_fd_run`; `fuel` bounds the number of
iterations. `wait->util_wait.wait_try` is `util_wait_fd_try`, as
`ofi_wait_fd_open` sets it. -/
def util_wait_fd_run_loop {S : Type} (env : Env S) (wait : util_wait_fd) (endtime : Nat) :
    Nat → Int → World S → Option Int × World S
  | 0, _, w => (none, w)
  | fuel + 1, timeout, w =>
    let r := util_wait_fd_try env wait w
    if r.1 ≠ 0 then (some (if r.1 = -FI_EAGAIN then 0 else r.1), r.2)
    else
      let a := ofi_adjust_timeout env endtime timeout r.2
      if a.1 ≠ 0 then (some (-FI_ETIMEDOUT), a.2.2)
      else
        let m := mux_wait env wait.util_wait.wait_obj a.2.1 a.2.2
        if m.1 > 0 then (some FI_SUCCESS, m.2)
        else if m.1 < 0 then (some m.1, m.2)
        else util_wait_fd_run_loop env wait endtime fuel a.2.1 m.2

/-- The function `util_wait_fd_run`. -/
def util_wait_fd_run {S : Type} (env : Env S) (fuel : Nat) (wait : util_wait_fd) (timeout : Int)
    (w : World S) : Option Int × World S :=
  let e := ofi_timeout_time env timeout w
  util_wait_fd_run_loop env wait e.1 fuel timeout e.2

/-- What the `void *arg` of `util_wait_fd_control` points to. -/
inductive control_arg
  | int_ptr (v : Int)
  | pollfd_ptr (p : fi_wait_pollfd)
  | wait_obj_ptr (o : fi_wait_obj)
  deriving DecidableEq, Repr

/-- The `command` argument of `util_wait_fd_control`. -/
inductive fi_command
  | FI_GETWAIT
  | FI_GETWAITOBJ
  | other (n : Nat)
  deriving DecidableEq, Repr

/-- The function `util_wait_fd_control`, with `have_epoll` standing for the
build flag `HAVE_EPOLL`. The result is the return code, what `arg` points to
after the call, and the wait object and the world after the call; `none` when
`arg` does not point to the type the command casts it to. -/
def util_wait_fd_control {S : Type} (env : Env S) (have_epoll : Bool) (wait : util_wait_fd)
    (command : fi_command) (arg : control_arg) (w : World S) :
    Option (Int × control_arg × util_wait_fd × World S) :=
  match command with
  | fi_command.FI_GETWAIT =>
    if wait.util_wait.wait_obj = FI_WAIT_FD then
      match arg with
      | control_arg.int_ptr _ =>
        if have_epoll then some (0, control_arg.int_ptr (env.epoll_fd w.st), wait, w)
        else some (-FI_ENODATA, arg, wait, w)
      | _ => none
    else
      match arg with
      | control_arg.pollfd_ptr pollfd =>
        let nfds := env.pollfds_nfds w.st
        let r : Int × List Int :=
          if nfds ≤ pollfd.nfds then (0, memcpy pollfd.fd (env.pollfds_fds w.st) nfds)
          else (-FI_ETOOSMALL, pollfd.fd)
        some (r.1, control_arg.pollfd_ptr
                { change_index := wait.change_index, nfds := nfds, fd := r.2 }, wait, w)
      | _ => none
  | fi_command.FI_GETWAITOBJ =>
    match arg with
    | control_arg.wait_obj_ptr _ =>
      some (0, control_arg.wait_obj_ptr wait.util_wait.wait_obj, wait, w)
    | _ => none
  | fi_command.other _ => some (-FI_ENOSYS, arg, wait, w)

/-- The function `fi_wait_cleanup`: return code, the wait object and the fabric
after the call, the world. -/
def fi_wait_cleanup {S : Type} (env : Env S) (wait : util_wait) (fabric : util_fabric)
    (w : World S) : Int × util_wait × util_fabric × World S :=
  if wait.ref ≠ 0 then (-FI_EBUSY, wait, fabric, w)
  else
    let r := env.fi_close_pollset w.st
    if r.1 ≠ 0 then (r.1, wait, fabric, { w with st := r.2 })
    else (0, { wait with fid_list := [] }, { fabric with ref := fabric.ref - 1 },
          { w with st := r.2 })

/-- The first loop of `util_wait_fd_close`: pop every descriptor entry and
delete its descriptor from the multiplexer. -/
def drain_fd_list {S : Type} (env : Env S) (wait_obj : fi_wait_obj) :
    List ofi_wait_fd_entry → World S → World S
  | [], w => w
  | fd_entry :: rest, w => drain_fd_list env wait_obj rest (mux_del env wait_obj fd_entry.fd w).2

/-- The function `util_wait_fd_close`: return code, the wait object (`none` once
it is freed), the fabric and the world after the call. -/
def util_wait_fd_close {S : Type} (env : Env S) (wait : util_wait_fd) (fabric : util_fabric)
    (w : World S) : Int × Option util_wait_fd × util_fabric × World S :=
  let w1 := drain_fd_list env wait.util_wait.wait_obj wait.fd_list w
  let r := fi_wait_cleanup env wait.util_wait fabric w1
  if r.1 ≠ 0 then
    (r.1, some { wait with util_wait := r.2.1, fd_list := [] }, r.2.2.1, r.2.2.2)
  else
    let w2 := r.2.2.2
    let d := env.ofi_epoll_del (env.signal_read_fd w2.st) w2.st
    let w3 : World S :=
      { st := env.ofi_epoll_close (env.fd_signal_free d.2),
        trace := w2.trace ++ [Event.epoll_del (env.signal_read_fd w2.st) d.1] }
    (0, none, r.2.2.1, w3)

/-! ## The yield wait object -/

/-- The function `util_wait_yield_signal`. -/
def util_wait_yield_signal (wait : util_wait_yield) : util_wait_yield :=
  { wait with signal := 1 }

/-- The function `util_wait_yield_run`; `fuel` bounds the number of iterations
of `while (!wait->signal)`. The `timeout` argument is not read, as in the
source. -/
def util_wait_yield_run {S : Type} (env : Env S) (wait : util_wait_yield) (timeout : Int) :
    Nat → World S → Option Int × util_wait_yield × World S
  | fuel, w =>
    if wait.signal ≠ 0 then (some FI_SUCCESS, { wait with signal := 0 }, w)
    else
      match fuel with
      | 0 => (none, wait, w)
      | fuel + 1 =>
        match try_fid_entries env wait.util_wait.fid_list w with
        | (some ret, w1) => (some ret, wait, w1)
        | (none, w1) =>
          util_wait_yield_run env wait timeout fuel { w1 with st := env.pthread_yield w1.st }

/-- The function `util_wait_yield_close`. -/
def util_wait_yield_close {S : Type} (env : Env S) (wait : util_wait_yield)
    (fabric : util_fabric) (w : World S) :
    Int × Option util_wait_yield × util_fabric × World S :=
  let r := fi_wait_cleanup env wait.util_wait fabric w
  if r.1 ≠ 0 then (r.1, some { wait with util_wait := r.2.1 }, r.2.2.1, r.2.2.2)
  else (0, none, r.2.2.1, r.2.2.2)

/-! ## Attribute checks and constructors -/

/-- The `struct fi_wait_attr`. -/
structure fi_wait_attr where
  wait_obj : fi_wait_obj
  flags : Nat
  deriving DecidableEq, Repr

/-- The function `ofi_check_wait_attr` (the provider argument only feeds the
log). -/
def ofi_check_wait_attr (attr : fi_wait_attr) : Int :=
  match attr.wait_obj with
  | FI_WAIT_UNSPEC | FI_WAIT_FD | FI_WAIT_POLLFD | FI_WAIT_MUTEX_COND | FI_WAIT_YIELD =>
    if attr.flags ≠ 0 then -FI_EINVAL else 0
  | _ => -FI_EINVAL

/-- The static function `util_verify_wait_fd_attr`. -/
def util_verify_wait_fd_attr (attr : fi_wait_attr) : Int :=
  let ret := ofi_check_wait_attr attr
  if ret ≠ 0 then ret
  else
    match attr.wait_obj with
    | FI_WAIT_UNSPEC | FI_WAIT_FD | FI_WAIT_POLLFD => 0
    | _ => -FI_EINVAL

/-- The static function `util_verify_wait_yield_attr`. -/
def util_verify_wait_yield_attr (attr : fi_wait_attr) : Int :=
  let ret := ofi_check_wait_attr attr
  if ret ≠ 0 then ret
  else
    match attr.wait_obj with
    | FI_WAIT_UNSPEC | FI_WAIT_YIELD => 0
    | _ => -FI_EINVAL

/-- The further external calls and constants of the constructors. -/
structure OpenEnv (S : Type) where
  /-- The call `fi_poll_create_(fabric->prov, NULL, &poll_attr, &poll_fid)`. -/
  fi_poll_create : S → Int × S
  fd_signal_init : S → Int × S
  ofi_epoll_create : S → Int × S
  ofi_pollfds_create : S → Int × S
  ofi_pollfds_close : S → S
  OFI_EPOLL_IN : Nat
  POLLIN : Nat
  /-- The address `&wait->util_wait.wait_fid.fid` of the object being created. -/
  wait_fid : S → Nat
  /-- The address of the static function `util_wait_fd_try`. -/
  util_wait_fd_try : Nat

/-- The memory `calloc` hands out for a `struct util_wait`: all zero. -/
def zeroed_util_wait : util_wait :=
  { wait_obj := FI_WAIT_NONE, ref := 0, fid_list := [], wait_try := none }

/-- The function `ofi_wait_init`: return code, the wait object, the fabric and
the world after the call. The `default:` case is `assert(0); return
-FI_EINVAL;`, modelled as the return. -/
def ofi_wait_init {S : Type} (oenv : OpenEnv S) (fabric : util_fabric) (attr : fi_wait_attr)
    (wait : util_wait) (w : World S) : Int × util_wait × util_fabric × World S :=
  let wait1 : util_wait := { wait with ref := 0 }
  let kind : Option fi_wait_obj :=
    match attr.wait_obj with
    | FI_WAIT_UNSPEC => some FI_WAIT_FD
    | FI_WAIT_FD | FI_WAIT_POLLFD | FI_WAIT_MUTEX_COND | FI_WAIT_YIELD => some attr.wait_obj
    | _ => none
  match kind with
  | none => (-FI_EINVAL, wait1, fabric, w)
  | some k =>
    let wait2 : util_wait := { wait1 with wait_obj := k }
    let r := oenv.fi_poll_create w.st
    if r.1 ≠ 0 then (r.1, wait2, fabric, { w with st := r.2 })
    else (0, { wait2 with fid_list := [] }, { fabric with ref := fabric.ref + 1 },
          { w with st := r.2 })

/-- The function `ofi_wait_fd_open`: return code, `*waitset` (`none` when the
call fails and frees the object), the fabric and the world after the call.
The assignment `wait->util_wait.wait_try = util_wait_fd_try` follows
`ofi_wait_init`. -/
def ofi_wait_fd_open {S : Type} (env : Env S) (oenv : OpenEnv S) (fabric : util_fabric)
    (attr : fi_wait_attr) (w : World S) : Int × Option util_wait_fd × util_fabric × World S :=
  let ret := util_verify_wait_fd_attr attr
  if ret ≠ 0 then (ret, none, fabric, w)
  else
    let a := env.calloc w.st
    let w1 : World S := { w with st := a.2 }
    if a.1 = false then (-FI_ENOMEM, none, fabric, w1)
    else
      let i := ofi_wait_init oenv fabric attr zeroed_util_wait w1
      -- err1
      if i.1 ≠ 0 then (i.1, none, i.2.2.1, i.2.2.2)
      else
        let wait : util_wait := { i.2.1 with wait_try := some oenv.util_wait_fd_try }
        let w2 := i.2.2.2
        let s := oenv.fd_signal_init w2.st
        -- err2
        if s.1 ≠ 0 then
          let c := fi_wait_cleanup env wait i.2.2.1 { w2 with st := s.2 }
          (s.1, none, c.2.2.1, c.2.2.2)
        else
          let cr := if wait.wait_obj = FI_WAIT_FD then oenv.ofi_epoll_create s.2
                    else oenv.ofi_pollfds_create s.2
          -- err3
          if cr.1 ≠ 0 then
            let c := fi_wait_cleanup env wait i.2.2.1 { w2 with st := env.fd_signal_free cr.2 }
            (cr.1, none, c.2.2.1, c.2.2.2)
          else
            let w3 : World S := { w2 with st := cr.2 }
            let ad := mux_add env wait.wait_obj (env.signal_read_fd w3.st)
              (if wait.wait_obj = FI_WAIT_FD then oenv.OFI_EPOLL_IN else oenv.POLLIN)
              (oenv.wait_fid w3.st) w3
            -- err4
            if ad.1 ≠ 0 then
              let closed := if wait.wait_obj = FI_WAIT_FD then env.ofi_epoll_close ad.2.st
                            else oenv.ofi_pollfds_close ad.2.st
              let c := fi_wait_cleanup env wait i.2.2.1
                { ad.2 with st := env.fd_signal_free closed }
              (ad.1, none, c.2.2.1, c.2.2.2)
            else
              (0, some { util_wait := wait, fd_list := [], change_index := 0 }, i.2.2.1, ad.2)

/-- The function `ofi_wait_yield_open`: return code, `*waitset`, the caller's
`attr` (the function overwrites its `wait_obj`), the fabric and the world
after the call. The function assigns `signal` and the two operation tables and
no other field: `wait_try` keeps the zero of `calloc`. -/
def ofi_wait_yield_open {S : Type} (env : Env S) (oenv : OpenEnv S) (fabric : util_fabric)
    (attr : fi_wait_attr) (w : World S) :
    Int × Option util_wait_yield × fi_wait_attr × util_fabric × World S :=
  let ret := util_verify_wait_yield_attr attr
  if ret ≠ 0 then (ret, none, attr, fabric, w)
  else
    let attr1 : fi_wait_attr := { attr with wait_obj := FI_WAIT_YIELD }
    let a := env.calloc w.st
    let w1 : World S := { w with st := a.2 }
    if a.1 = false then (-FI_ENOMEM, none, attr1, fabric, w1)
    else
      let i := ofi_wait_init oenv fabric attr1 zeroed_util_wait w1
      if i.1 ≠ 0 then (i.1, none, attr1, i.2.2.1, i.2.2.2)
      else (0, some { util_wait := i.2.1, signal := 0 }, attr1, i.2.2.1, i.2.2.2)

/-! ## The fan-out helper `ofi_trywait` -/

/-- The class tag `fid->fclass`; `other` stands for every class the `switch`
sends to `default:`. -/
inductive fi_class
  | FI_CLASS_CQ
  | FI_CLASS_EQ
  | FI_CLASS_CNTR
  | FI_CLASS_WAIT
  | other (n : Nat)
  deriving DecidableEq, Repr

/-- A `struct fid` as `ofi_trywait` reads it: its class tag and its address. -/
structure struct_fid where
  fclass : fi_class
  addr : Nat
  deriving DecidableEq, Repr

/-- The objects that `ofi_trywait` reaches from a fid; every object pointer it
follows is taken to be valid. -/
structure fid_objects where
  /-- The field `wait` of the `util_cq` that contains the fid. -/
  cq_wait : Nat → Nat
  /-- The field `wait` of the `util_eq` that contains the fid. -/
  eq_wait : Nat → Nat
  /-- The field `wait` of the `util_cntr` that contains the fid. -/
  cntr_wait : Nat → Nat
  /-- The `util_wait` that contains the fid. -/
  wait_of_fid : Nat → Nat
  /-- The `struct util_wait` at the address of a wait object. -/
  wait_at : Nat → util_wait

/-- The `switch (fids[i]->fclass)` of `ofi_trywait`: the wait object selected,
`none` for the `default:` case. -/
def ofi_trywait_select (objs : fid_objects) (f : struct_fid) : Option Nat :=
  match f.fclass with
  | fi_class.FI_CLASS_CQ => some (objs.cq_wait f.addr)
  | fi_class.FI_CLASS_EQ => some (objs.eq_wait f.addr)
  | fi_class.FI_CLASS_CNTR => some (objs.cntr_wait f.addr)
  | fi_class.FI_CLASS_WAIT => some (objs.wait_of_fid f.addr)
  | fi_class.other _ => none

/-- The `for` loop of `ofi_trywait` over the fids still to visit: the return
code and the world after the call. The statement `ret = wait->wait_try(wait)`
calls through the function pointer that the wait object holds; the result is
`none` when that pointer is `NULL`, a call the C program does not define. -/
def ofi_trywait_loop {S : Type} (env : Env S) (objs : fid_objects) :
    List struct_fid → World S → Option (Int × World S)
  | [], w => some (0, w)
  | f :: rest, w =>
    match ofi_trywait_select objs f with
    | none => some (-FI_EINVAL, w)
    | some wait =>
      match (objs.wait_at wait).wait_try with
      | none => none
      | some func =>
        let r := call_wait_try env func wait w
        if r.1 ≠ 0 then some (r.1, r.2) else ofi_trywait_loop env objs rest r.2

/-- The function `ofi_trywait`: the loop visits `fids[0 .. count - 1]`. -/
def ofi_trywait {S : Type} (env : Env S) (objs : fid_objects) (fids : List struct_fid)
    (count : Int) (w : World S) : Option (Int × World S) :=
  ofi_trywait_loop env objs (fids.take count.toNat) w

/-! ## PSM provider: `psmx_reserve_tag_bits`, `psmx_getinfo`

C integers are kept as bit patterns: an `int` is a natural number below
`2 ^ 32` (two's complement), a `uint64_t` a natural number below `2 ^ 64`.
Return codes, which are only compared, are integers. -/

/-- Conversion `int` to `uint64_t`: sign extension of the 32-bit pattern. -/
def int_to_u64 (x : Nat) : Nat := if x < 2 ^ 31 then x else x + (2 ^ 64 - 2 ^ 32)

/-- Conversion `uint64_t` to `int`: the low 32 bits. -/
def u64_to_int (x : Nat) : Nat := x % 2 ^ 32

/-- The operator `~` on a `uint64_t`. -/
def not_u64 (x : Nat) : Nat := (2 ^ 64 - 1) ^^^ x

/-- The operator `~` on an `int`. -/
def not_int (x : Nat) : Nat := (2 ^ 32 - 1) ^^^ x

/-- The operator `<<` on an `int`, bits shifted out dropped. -/
def shl_int (x n : Nat) : Nat := (x <<< n) % 2 ^ 32

/-- The constants of `psmx.h` and of the public headers that `psmx_init.c`
uses; none of them is defined under src/. All are `uint64_t` bit sets except
where noted. -/
structure psmx_consts where
  FI_MSG : Nat
  FI_RMA : Nat
  FI_SOURCE : Nat
  PSMX_CAPS : Nat
  PSMX_OP_FLAGS : Nat
  PSMX_MODE : Nat
  PSMX_MSG_BIT : Nat
  PSMX_RMA_BIT : Nat
  PSMX_MAX_MSG_SIZE : Nat
  PSMX_INJECT_SIZE : Nat
  /-- Endpoint types, protocols and other enumerators (plain numbers). -/
  FI_EP_UNSPEC : Nat
  FI_EP_RDM : Nat
  FI_PROTO_UNSPEC : Nat
  FI_PROTO_PSMX : Nat
  FI_ORDER_SAS : Nat
  FI_ORDER_NONE : Nat
  FI_THREAD_COMPLETION : Nat
  FI_PROGRESS_MANUAL : Nat
  FI_ADDR_PSMX : Nat
  /-- The value of `sizeof(psm_epid_t)`. -/
  sizeof_psm_epid_t : Nat

/-- The fields of the global `psmx_env` that `psmx_reserve_tag_bits` reads. -/
structure psmx_env_t where
  am_msg : Int
  tagged_rma : Int

/-- The function `psmx_reserve_tag_bits`: return code, `*caps` and
`*max_tag_value` after the call. `caps`, `ask_caps`, `ret_caps` and
`reserved_bits` are of type `int`; `max_tag_value` and the constants are
`uint64_t`. -/
def psmx_reserve_tag_bits (c : psmx_consts) (psmx_env : psmx_env_t) (caps : Nat)
    (max_tag_value : Nat) : Int × Nat × Nat :=
  let reserved_bits : Nat := 0
  let ask_caps := caps
  let ret_caps := if ask_caps ≠ 0 then ask_caps else u64_to_int c.PSMX_CAPS
  -- first block: `none` stands for `return -1`
  let msg : Option (Nat × Nat) :=
    if (int_to_u64 ret_caps &&& c.FI_MSG) ≠ 0 ∧ psmx_env.am_msg = 0 then
      if max_tag_value < c.PSMX_MSG_BIT then
        some (u64_to_int (int_to_u64 reserved_bits ||| c.PSMX_MSG_BIT), ret_caps)
      else if ask_caps ≠ 0 then none
      else some (reserved_bits, u64_to_int (int_to_u64 ret_caps &&& not_u64 c.FI_MSG))
    else some (reserved_bits, ret_caps)
  match msg with
  | none => (-1, caps, max_tag_value)
  | some (reserved_bits, ret_caps) =>
    let rma : Option (Nat × Nat) :=
      if (int_to_u64 ret_caps &&& c.FI_RMA) ≠ 0 ∧ psmx_env.tagged_rma ≠ 0 then
        if max_tag_value < c.PSMX_RMA_BIT then
          some (u64_to_int (int_to_u64 reserved_bits ||| c.PSMX_RMA_BIT), ret_caps)
        else if ask_caps ≠ 0 then none
        else some (reserved_bits, u64_to_int (int_to_u64 ret_caps &&& not_u64 c.FI_RMA))
      else some (reserved_bits, ret_caps)
    match rma with
    | none => (-1, caps, max_tag_value)
    | some (reserved_bits, ret_caps) =>
      let reserved_bits := reserved_bits ||| shl_int reserved_bits 1
      (0, ret_caps, int_to_u64 (not_int reserved_bits))

/-- The `struct fi_ep_attr`. -/
structure fi_ep_attr where
  protocol : Nat
  max_msg_size : Nat
  inject_size : Nat
  total_buffered_recv : Nat
  mem_tag_format : Nat
  msg_order : Nat
  comp_order : Nat
  tx_ctx_cnt : Nat
  rx_ctx_cnt : Nat
  deriving DecidableEq, Repr

/-- The `struct fi_tx_attr`. -/
structure fi_tx_attr where
  caps : Nat
  mode : Nat
  op_flags : Nat
  msg_order : Nat
  comp_order : Nat
  inject_size : Nat
  size : Nat
  iov_limit : Nat
  deriving DecidableEq, Repr

/-- The `struct fi_rx_attr`. -/
structure fi_rx_attr where
  caps : Nat
  mode : Nat
  op_flags : Nat
  msg_order : Nat
  comp_order : Nat
  total_buffered_recv : Nat
  size : Nat
  iov_limit : Nat
  deriving DecidableEq, Repr

/-- The `struct fi_domain_attr`, the fields `psmx_getinfo` reads or writes. -/
structure fi_domain_attr where
  name : Option String
  threading : Nat
  control_progress : Nat
  data_progress : Nat
  deriving DecidableEq, Repr

/-- The `struct fi_fabric_attr`, the fields `psmx_getinfo` reads or writes. -/
structure fi_fabric_attr where
  name : Option String
  prov_name : Option String
  deriving DecidableEq, Repr

/-- The `struct fi_info`; a NULL attribute pointer is `none`. An address is a
number, `none` for NULL. -/
structure fi_info where
  caps : Nat
  mode : Nat
  ep_type : Nat
  addr_format : Nat
  src_addrlen : Nat
  dest_addrlen : Nat
  src_addr : Option Nat
  dest_addr : Option Nat
  tx_attr : Option fi_tx_attr
  rx_attr : Option fi_rx_attr
  ep_attr : Option fi_ep_attr
  domain_attr : Option fi_domain_attr
  fabric_attr : Option fi_fabric_attr
  deriving DecidableEq, Repr

/-- What `psmx_getinfo` calls outside `psmx_init.c`. -/
structure psmx_ext where
  /-- Return code and `cnt` of `psm_ep_num_devunits(&cnt)`. -/
  psm_ep_num_devunits : Int × Nat
  psmx_resolve_name : String → Option Nat
  /-- Whether `fi_allocinfo_internal` returns a non-NULL pointer. -/
  fi_allocinfo_ok : Bool
  fi_tag_bits : Nat → Nat
  fi_tag_format : Nat → Nat

/-- The test `strncmp(name, "psm", 3)`: true when the result is non-zero. -/
def strncmp_psm (name : String) : Bool :=
  name.data.take 3 != "psm".data

/-- The constant `UINT64_MAX`. -/
def UINT64_MAX : Nat := 2 ^ 64 - 1

/-- The checks `psmx_getinfo` makes on a non-NULL `hints`, up to the one on
`inject_size`: true when one of them jumps to `err_out`. -/
def psmx_hints_rejected (c : psmx_consts) (hints : fi_info) : Bool :=
  (hints.ep_type != c.FI_EP_UNSPEC && hints.ep_type != c.FI_EP_RDM) ||
  (match hints.ep_attr with
   | some ep =>
     (ep.protocol != c.FI_PROTO_UNSPEC && ep.protocol != c.FI_PROTO_PSMX) ||
       decide (ep.tx_ctx_cnt > 1) || decide (ep.rx_ctx_cnt > 1)
   | none => false) ||
  ((hints.caps &&& c.PSMX_CAPS) != hints.caps) ||
  (match hints.tx_attr with
   | some tx => (tx.op_flags &&& c.PSMX_OP_FLAGS) != tx.op_flags
   | none => false) ||
  (match hints.rx_attr with
   | some rx => (rx.op_flags &&& c.PSMX_OP_FLAGS) != rx.op_flags
   | none => false) ||
  ((hints.mode &&& c.PSMX_MODE) != c.PSMX_MODE) ||
  (match hints.fabric_attr with
   | some fa => (match fa.name with | some n => strncmp_psm n | none => false)
   | none => false) ||
  (match hints.fabric_attr with
   | some fa => (match fa.prov_name with | some n => strncmp_psm n | none => false)
   | none => false) ||
  (match hints.domain_attr with
   | some da => (match da.name with | some n => strncmp_psm n | none => false)
   | none => false) ||
  (match hints.ep_attr with
   | some ep =>
     decide (ep.max_msg_size > c.PSMX_MAX_MSG_SIZE) || decide (ep.inject_size > c.PSMX_INJECT_SIZE)
   | none => false)

/-- The function `psmx_getinfo`: the return code and `*info`, or `none` when the
call dereferences a NULL pointer (`hints->tx_attr->op_flags` with
`hints->rx_attr` set and `hints->tx_attr` NULL). -/
def psmx_getinfo (c : psmx_consts) (psmx_env : psmx_env_t) (ext : psmx_ext)
    (node : Option String) (flags : Nat) (hints : Option fi_info) :
    Option (Int × Option fi_info) :=
  let err : Int := -FI_ENODATA
  if ext.psm_ep_num_devunits.1 ≠ 0 ∨ ext.psm_ep_num_devunits.2 = 0 then some (-FI_ENODATA, none)
  else
    let dest_addr : Option Nat :=
      match node with
      | some n => if flags &&& c.FI_SOURCE = 0 then ext.psmx_resolve_name n else none
      | none => none
    if (match hints with | some h => psmx_hints_rejected c h | none => false) then
      some (err, none)
    else
      let max_tag_value : Nat :=
        match hints with
        | some h => (match h.ep_attr with | some ep => ext.fi_tag_bits ep.mem_tag_format | none => 0)
        | none => 0
      let caps : Nat := match hints with | some h => u64_to_int h.caps | none => 0
      let r := psmx_reserve_tag_bits c psmx_env caps max_tag_value
      if r.1 < 0 then some (err, none)
      else if ext.fi_allocinfo_ok = false then some (-FI_ENOMEM, none)
      else
        let ep_attr : fi_ep_attr :=
          { protocol := c.FI_PROTO_PSMX, max_msg_size := c.PSMX_MAX_MSG_SIZE,
            inject_size := c.PSMX_INJECT_SIZE, total_buffered_recv := not_u64 0,
            mem_tag_format := ext.fi_tag_format r.2.2, msg_order := c.FI_ORDER_SAS,
            comp_order := c.FI_ORDER_NONE, tx_ctx_cnt := 1, rx_ctx_cnt := 1 }
        let domain_attr : fi_domain_attr :=
          { name := some "psm", threading := c.FI_THREAD_COMPLETION,
            control_progress := c.FI_PROGRESS_MANUAL, data_progress := c.FI_PROGRESS_MANUAL }
        let info_caps : Nat :=
          match hints with
          | some h => if h.caps ≠ 0 then h.caps else int_to_u64 r.2.1
          | none => int_to_u64 r.2.1
        let tx_op_flags : Nat :=
          match hints with
          | some h => (match h.tx_attr with | some tx => tx.op_flags | none => 0)
          | none => 0
        let tx_attr : fi_tx_attr :=
          { caps := info_caps, mode := c.PSMX_MODE, op_flags := tx_op_flags,
            msg_order := ep_attr.msg_order, comp_order := ep_attr.comp_order,
            inject_size := ep_attr.inject_size, size := UINT64_MAX, iov_limit := 1 }
        -- `(hints && hints->rx_attr && hints->tx_attr->op_flags) ? hints->tx_attr->op_flags : 0`
        let rx_op_flags : Option Nat :=
          match hints with
          | some h =>
            (match h.rx_attr with
             | some _ => (match h.tx_attr with | some tx => some tx.op_flags | none => none)
             | none => some 0)
          | none => some 0
        match rx_op_flags with
        | none => none
        | some rx_flags =>
          let rx_attr : fi_rx_attr :=
            { caps := info_caps, mode := c.PSMX_MODE, op_flags := rx_flags,
              msg_order := ep_attr.msg_order, comp_order := ep_attr.comp_order,
              total_buffered_recv := ep_attr.total_buffered_recv, size := UINT64_MAX,
              iov_limit := 1 }
          some (0, some
            { caps := info_caps, mode := c.PSMX_MODE, ep_type := c.FI_EP_RDM,
              addr_format := c.FI_ADDR_PSMX, src_addrlen := 0,
              dest_addrlen := c.sizeof_psm_epid_t, src_addr := none, dest_addr := dest_addr,
              tx_attr := some tx_attr, rx_attr := some rx_attr, ep_attr := some ep_attr,
              domain_attr := some domain_attr,
              fabric_attr := some { name := some "psm", prov_name := none } })

/-! ## Vocabulary of the statements -/

/-- The `int32_t` that holds the integer `x` modulo `2 ^ 32`: the value of a
32-bit counter that started at 0 and was moved by `x` in all. -/
def wrap32 (x : Int) : Int := (x + 2147483648) % 4294967296 - 2147483648

/-- One registration call on a fixed fid. -/
inductive fid_op
  | add (events wait_try : Nat)
  | del
  deriving DecidableEq, Repr

/-- Run one registration call. -/
def run_fid_op {S : Type} (env : Env S) (fid : Nat) (op : fid_op) (wait : util_wait)
    (w : World S) : Int × util_wait × World S :=
  match op with
  | fid_op.add events wait_try => ofi_wait_add_fid env wait fid events wait_try w
  | fid_op.del => ofi_wait_del_fid env wait fid w

/-- Run a sequence of registration calls on `fid`, oldest first: every call
with its return code, then the wait object and the world at the end. -/
def run_fid_ops {S : Type} (env : Env S) (fid : Nat) :
    List fid_op → util_wait → World S → List (fid_op × Int) × util_wait × World S
  | [], wait, w => ([], wait, w)
  | op :: ops, wait, w =>
    let r := run_fid_op env fid op wait w
    let rest := run_fid_ops env fid ops r.2.1 r.2.2
    ((op, r.1) :: rest.1, rest.2.1, rest.2.2)

/-- Number of successful adds minus number of successful removes. -/
def net_refs : List (fid_op × Int) → Int
  | [] => 0
  | (fid_op.add _ _, ret) :: rest => (if ret = 0 then 1 else 0) + net_refs rest
  | (fid_op.del, ret) :: rest => (if ret = 0 then -1 else 0) + net_refs rest

/-- The calls `ofi_wait_add_fid(wait, fid, events, wait_try)` for each pair of `args`. -/
def add_ops (args : List (Nat × Nat)) : List fid_op :=
  args.map (fun a => fid_op.add a.1 a.2)

/-- The fid registry while only `fid` is being registered and removed on top of
a list `l0` that holds no entry for it, `n` being the number of successful
adds minus the number of successful removes: either `l0` itself (`n = 0`) or
`l0` followed by the one entry of `fid`, whose 32-bit refcount holds `n`
(`0 < n <= 2 ^ 32`). -/
def fid_state (fid : Nat) (l0 : List ofi_wait_fid_entry) (n : Int)
    (l : List ofi_wait_fid_entry) : Prop :=
  (n = 0 ∧ l = l0) ∨
    (0 < n ∧ n ≤ 4294967296 ∧
      ∃ wt ev, l = l0 ++ [{ fid := fid, wait_try := wt, events := ev, ref := wrap32 n }])

/-- At no point of a sequence of calls does the number of successful adds minus
the number of successful removes exceed `bound`. -/
def net_refs_at_most (results : List (fid_op × Int)) (bound : Int) : Prop :=
  ∀ k : Nat, net_refs (results.take k) ≤ bound

/-- Allocation, the descriptor lookup for `fid` and every multiplexer add and
delete succeed, and the descriptor behind `fid` is `fd`. -/
def registration_succeeds {S : Type} (env : Env S) (fid : Nat) (fd : Int) : Prop :=
  (∀ s, (env.calloc s).1 = true) ∧
  (∀ s, (env.fi_control_getwait fid s).1 = 0 ∧ (env.fi_control_getwait fid s).2.1 = fd) ∧
  (∀ d ev ctx s, (env.ofi_epoll_add d ev ctx s).1 = 0) ∧
  (∀ d ev ctx s, (env.ofi_pollfds_add d ev ctx s).1 = 0) ∧
  (∀ d s, (env.ofi_epoll_del d s).1 = 0) ∧
  (∀ d s, (env.ofi_pollfds_del d s).1 = 0)

/-- The multiplexer registration event of a wait object of kind `wait_obj`. -/
def ev_mux_add (wait_obj : fi_wait_obj) (fd : Int) (events ctx : Nat) (ret : Int) : Event :=
  if wait_obj = FI_WAIT_FD then Event.epoll_add fd events ctx ret
  else Event.pollfds_add fd events ctx ret

/-- The multiplexer deregistration event of a wait object of kind `wait_obj`. -/
def ev_mux_del (wait_obj : fi_wait_obj) (fd : Int) (ret : Int) : Event :=
  if wait_obj = FI_WAIT_FD then Event.epoll_del fd ret else Event.pollfds_del fd ret

/-- Whether a logged call is the multiplexer's blocking wait. -/
def is_mux_wait : Event → Bool
  | Event.epoll_wait _ _ => true
  | Event.pollfds_wait _ _ => true
  | _ => false

/-- The order in which `util_wait_fd_try` is to visit the callbacks:
descriptor entries in list order, then fid entries in list order. -/
def try_order (wait : util_wait_fd) : List (Nat × Nat) :=
  wait.fd_list.map (fun e => (e.wait_try, e.arg)) ++
    wait.util_wait.fid_list.map (fun e => (e.wait_try, e.fid))

/-- Calling a list of callbacks (function pointer, argument) in order until one
returns a code other than `FI_SUCCESS`: the common shape of the two loops of
`util_wait_fd_try`. -/
def try_callbacks {S : Type} (env : Env S) : List (Nat × Nat) → World S → Option Int × World S
  | [], w => (none, w)
  | c :: rest, w =>
    let r := call_wait_try env c.1 c.2 w
    if r.1 ≠ FI_SUCCESS then (some r.1, r.2) else try_callbacks env rest r.2

/-- The log entry of a callback that was invoked and returned `FI_SUCCESS`. -/
def ev_ok (c : Nat × Nat) : Event := Event.wait_try c.1 c.2 FI_SUCCESS

/-- The clock never goes back: no external call made during a run lowers the
reading of `ofi_gettime_ms`. -/
def clock_monotone {S : Type} (env : Env S) : Prop :=
  (∀ s, (env.ofi_gettime_ms s).1 ≤ (env.ofi_gettime_ms (env.ofi_gettime_ms s).2).1) ∧
  (∀ s, (env.ofi_gettime_ms s).1 ≤ (env.ofi_gettime_ms (env.fd_signal_reset s)).1) ∧
  (∀ f a s, (env.ofi_gettime_ms s).1 ≤ (env.ofi_gettime_ms (env.wait_try f a s).2).1) ∧
  (∀ s, (env.ofi_gettime_ms s).1 ≤ (env.ofi_gettime_ms (env.fi_poll s).2).1)

/-- The multiplexer blocking-wait event of a wait object of kind `wait_obj`. -/
def ev_mux_wait (wait_obj : fi_wait_obj) (timeout : Int) (ret : Int) : Event :=
  if wait_obj = FI_WAIT_FD then Event.epoll_wait timeout ret else Event.pollfds_wait timeout ret

/-- The fid has one of the four classes `FI_CLASS_CQ`, `FI_CLASS_EQ`,
`FI_CLASS_CNTR`, `FI_CLASS_WAIT`. -/
def known_class (f : struct_fid) : Prop :=
  f.fclass = fi_class.FI_CLASS_CQ ∨ f.fclass = fi_class.FI_CLASS_EQ ∨
  f.fclass = fi_class.FI_CLASS_CNTR ∨ f.fclass = fi_class.FI_CLASS_WAIT

/-- The wait object `wait` is the one that belongs to the fid by its class: the
field `wait` of the completion queue, of the event queue or of the counter that
contains the fid, or the wait object that contains the fid. -/
def wait_of_class (objs : fid_objects) (f : struct_fid) (wait : Nat) : Prop :=
  (f.fclass = fi_class.FI_CLASS_CQ ∧ wait = objs.cq_wait f.addr) ∨
  (f.fclass = fi_class.FI_CLASS_EQ ∧ wait = objs.eq_wait f.addr) ∨
  (f.fclass = fi_class.FI_CLASS_CNTR ∧ wait = objs.cntr_wait f.addr) ∨
  (f.fclass = fi_class.FI_CLASS_WAIT ∧ wait = objs.wait_of_fid f.addr)

/-- The log entry `ev` is a try of the wait object that belongs to the fid `f`,
through the function pointer that wait object holds, with return code `ret`. -/
def is_try_of (objs : fid_objects) (ret : Int) (f : struct_fid) (ev : Event) : Prop :=
  ∃ wait func, wait_of_class objs f wait ∧ (objs.wait_at wait).wait_try = some func ∧
    ev = Event.wait_try func wait ret

/-- The name starts with the three characters of "psm". -/
def starts_with_psm (name : String) : Prop :=
  ∃ rest : List Char, name.data = 'p' :: 's' :: 'm' :: rest

/-- The fids of the fid registry, in list order. -/
def fid_keys (wait : util_wait) : List Nat := wait.fid_list.map (fun e => e.fid)

/-- The descriptors of the descriptor registry, in list order. -/
def fd_keys (wait : util_wait_fd) : List Int := wait.fd_list.map (fun e => e.fd)

/-- One registration call on a descriptor wait object. -/
inductive reg_op
  | add_fid (fid events wait_try : Nat)
  | del_fid (fid : Nat)
  | add_fd (fd : Int) (events wait_try arg context : Nat)
  | del_fd (fd : Int)
  deriving DecidableEq, Repr

/-- Run one registration call; the fid calls work on the `util_wait` inside the
descriptor wait object. -/
def run_reg_op {S : Type} (env : Env S) (op : reg_op) (wait : util_wait_fd) (w : World S) :
    Int × util_wait_fd × World S :=
  match op with
  | reg_op.add_fid fid events wait_try =>
    let r := ofi_wait_add_fid env wait.util_wait fid events wait_try w
    (r.1, { wait with util_wait := r.2.1 }, r.2.2)
  | reg_op.del_fid fid =>
    let r := ofi_wait_del_fid env wait.util_wait fid w
    (r.1, { wait with util_wait := r.2.1 }, r.2.2)
  | reg_op.add_fd fd events wait_try arg context =>
    ofi_wait_add_fd env wait fd events wait_try arg context w
  | reg_op.del_fd fd => ofi_wait_del_fd env wait fd w

/-- The wait object before the first call of a sequence and after each call,
oldest first: entry `i` is the object after `i` calls. -/
def reg_states {S : Type} (env : Env S) : List reg_op → util_wait_fd → World S →
    List util_wait_fd
  | [], wait, _ => [wait]
  | op :: ops, wait, w =>
    wait :: reg_states env ops (run_reg_op env op wait w).2.1 (run_reg_op env op wait w).2.2

/-- The `util_wait` before the first call of a sequence of fid registrations
and removals and after each call, oldest first; each call names its fid. -/
def fid_states {S : Type} (env : Env S) : List (Nat × fid_op) → util_wait → World S →
    List util_wait
  | [], wait, _ => [wait]
  | op :: ops, wait, w =>
    wait :: fid_states env ops (run_fid_op env op.1 op.2 wait w).2.1
      (run_fid_op env op.1 op.2 wait w).2.2

/-- Well-formed registries: no fid and no descriptor is listed twice, and every
entry holds at least one reference. -/
def registry_wf (wait : util_wait_fd) : Prop :=
  (fid_keys wait.util_wait).Nodup ∧ (fd_keys wait).Nodup ∧
  (∀ e ∈ wait.util_wait.fid_list, 1 ≤ e.ref) ∧ (∀ e ∈ wait.fd_list, 1 ≤ e.ref)

/-- No entry holds more than `n` references. -/
def refs_at_most (wait : util_wait_fd) (n : Int) : Prop :=
  (∀ e ∈ wait.util_wait.fid_list, e.ref ≤ n) ∧ (∀ e ∈ wait.fd_list, e.ref ≤ n)

/-- How one call may change the sequence of keys of a registry: not at all, by
one new key put at the tail, or by taking one key out. The keys that stay keep
their places relative to each other, so the list order is the order of
insertion. -/
def order_kept {β : Type} [DecidableEq β] (old new : List β) : Prop :=
  new = old ∨ (∃ k, k ∉ old ∧ new = old ++ [k]) ∨ (∃ k, k ∈ old ∧ new = old.erase k)

/-- No fid and no descriptor is listed twice. -/
def keys_nodup (wait : util_wait_fd) : Prop :=
  (fid_keys wait.util_wait).Nodup ∧ (fd_keys wait).Nodup

/-- The call is an add whose key is listed with a refcount of `INT32_MAX`: the
increment of that refcount wraps around to `INT32_MIN`. -/
def op_wraps (op : reg_op) (wait : util_wait_fd) : Prop :=
  match op with
  | reg_op.add_fid fid _ _ => ∃ e ∈ wait.util_wait.fid_list, e.fid = fid ∧ e.ref = INT32_MAX
  | reg_op.add_fd fd _ _ _ _ => ∃ e ∈ wait.fd_list, e.fd = fd ∧ e.ref = INT32_MAX
  | reg_op.del_fid _ => False
  | reg_op.del_fd _ => False

/-- No call of the sequence wraps a refcount around. -/
def wrap_free {S : Type} (env : Env S) : List reg_op → util_wait_fd → World S → Prop
  | [], _, _ => True
  | op :: ops, wait, w =>
    ¬ op_wraps op wait ∧
    wrap_free env ops (run_reg_op env op wait w).2.1 (run_reg_op env op wait w).2.2

/-- The world after `k` passes of the loop of `util_wait_yield_run` over the fid
list `l` in each of which every callback returned 0, a pass ending with
`pthread_yield`; `none` when one of these passes meets a callback that returns
another code. -/
def idle_passes {S : Type} (env : Env S) (l : List ofi_wait_fid_entry) :
    Nat → World S → Option (World S)
  | 0, w => some w
  | k + 1, w =>
    match try_callbacks env (l.map (fun e => (e.wait_try, e.fid))) w with
    | (none, w1) => idle_passes env l k { w1 with st := env.pthread_yield w1.st }
    | (some _, _) => none

/-- Whether a call of `psmx_reserve_tag_bits` executes
`reserved_bits |= PSMX_MSG_BIT`. -/
def msg_bit_reserved (c : psmx_consts) (psmx_env : psmx_env_t) (caps max_tag_value : Nat) :
    Bool :=
  decide (((int_to_u64 (if caps ≠ 0 then caps else u64_to_int c.PSMX_CAPS) &&& c.FI_MSG) ≠ 0 ∧
    psmx_env.am_msg = 0) ∧ max_tag_value < c.PSMX_MSG_BIT)

/-- The value of `ret_caps` when a call of `psmx_reserve_tag_bits` enters its
second block. -/
def caps_after_msg (c : psmx_consts) (psmx_env : psmx_env_t) (caps max_tag_value : Nat) : Nat :=
  if ((int_to_u64 (if caps ≠ 0 then caps else u64_to_int c.PSMX_CAPS) &&& c.FI_MSG) ≠ 0 ∧
      psmx_env.am_msg = 0) ∧ ¬ max_tag_value < c.PSMX_MSG_BIT ∧ caps = 0 then
    u64_to_int (int_to_u64 (u64_to_int c.PSMX_CAPS) &&& not_u64 c.FI_MSG)
  else if caps ≠ 0 then caps else u64_to_int c.PSMX_CAPS

/-- Whether a call of `psmx_reserve_tag_bits` that gets past its first block
executes `reserved_bits |= PSMX_RMA_BIT`. -/
def rma_bit_reserved (c : psmx_consts) (psmx_env : psmx_env_t) (caps max_tag_value : Nat) :
    Bool :=
  decide (((int_to_u64 (caps_after_msg c psmx_env caps max_tag_value) &&& c.FI_RMA) ≠ 0 ∧
    psmx_env.tagged_rma ≠ 0) ∧ max_tag_value < c.PSMX_RMA_BIT)

/-- The union of the bits that a call of `psmx_reserve_tag_bits` decides to
reserve, as a 64-bit value. -/
def decided_bits (c : psmx_consts) (psmx_env : psmx_env_t) (caps max_tag_value : Nat) : Nat :=
  (if msg_bit_reserved c psmx_env caps max_tag_value then c.PSMX_MSG_BIT else 0) |||
    (if rma_bit_reserved c psmx_env caps max_tag_value then c.PSMX_RMA_BIT else 0)

/-- The value of the `int reserved_bits` before the doubling, when the
statements chosen by `msg` and `rma` have run: each `|=` converts the `int`
to `uint64_t`, ors the constant in and stores the low 32 bits. -/
def int_reserved_bits (c : psmx_consts) (msg rma : Bool) : Nat :=
  let rb1 := if msg then u64_to_int (int_to_u64 0 ||| c.PSMX_MSG_BIT) else 0
  if rma then u64_to_int (int_to_u64 rb1 ||| c.PSMX_RMA_BIT) else rb1

/-- The mask the specification gives for the union `r` of the reserved bits:
the 64-bit complement of `r | (r << 1)`. -/
def spec_tag_mask (r : Nat) : Nat := not_u64 ((r ||| (r <<< 1)) % 2 ^ 64)

/-- The operation flags of the two directions in what `psmx_getinfo` returns:
the return code, then `tx_attr->op_flags` and `rx_attr->op_flags` of `*info`. -/
def returned_op_flags (r : Option (Int × Option fi_info)) : Option (Int × Option Nat × Option Nat) :=
  r.map (fun p => (p.1, p.2.bind (fun i => i.tx_attr.map (fun a => a.op_flags)),
    p.2.bind (fun i => i.rx_attr.map (fun a => a.op_flags))))

/-- Whether a logged call is the `fi_poll` on the internal poll set. -/
def is_fi_poll : Event → Bool
  | Event.fi_poll _ => true
  | _ => false

/-- Whether a logged call is a try-callback that returned a code other than
`FI_SUCCESS`. -/
def is_failed_try : Event → Bool
  | Event.wait_try _ _ ret => decide (ret ≠ FI_SUCCESS)
  | _ => false

/-! ## Concrete inputs for evaluation -/

/-- A small environment: the external state is the list of descriptors the
multiplexer holds; every multiplexer call succeeds; callback `0` returns
`FI_SUCCESS`, callback `1` returns `-FI_EAGAIN`, any other `-FI_EINVAL`; the
descriptor behind fid `n` is `n + 100`; the clock stands at 1000 ms. -/
def sample_env : Env (List Int) where
  wait_try := fun func _ s =>
    (if func = 0 then 0 else if func = 1 then -FI_EAGAIN else -FI_EINVAL, s)
  fi_control_getwait := fun fid s => (0, (fid : Int) + 100, s)
  fid_context := fun fid => fid
  calloc := fun s => (true, s)
  ofi_epoll_add := fun fd _ _ s => (0, s ++ [fd])
  ofi_epoll_del := fun fd s => (0, s.erase fd)
  ofi_epoll_wait := fun _ s => (0, s)
  ofi_epoll_close := fun s => s
  ofi_pollfds_add := fun fd _ _ s => (0, s ++ [fd])
  ofi_pollfds_del := fun fd s => (0, s.erase fd)
  ofi_pollfds_wait := fun _ s => (0, s)
  pollfds_nfds := fun s => s.length
  pollfds_fds := fun s => s
  epoll_fd := fun _ => 3
  signal_read_fd := fun _ => 4
  fd_signal_set := fun s => s
  fd_signal_reset := fun s => s
  fd_signal_free := fun s => s
  fi_poll := fun s => (-FI_EAGAIN, s)
  fi_close_pollset := fun s => (0, s)
  ofi_gettime_ms := fun s => (1000, s)
  pthread_yield := fun s => s

/-- A world for `sample_env`: the signal descriptor 4 is registered, nothing logged. -/
def sample_world : World (List Int) := { st := [4], trace := [] }

/-- A descriptor-backed wait object for `sample_env` that holds fid 3 with refcount 2. -/
def sample_wait : util_wait :=
  { wait_obj := FI_WAIT_FD, ref := 0,
    fid_list := [{ fid := 3, wait_try := 0, events := 1, ref := 2 }],
    wait_try := some 0 }

/-- A descriptor wait object that another component still references
(`ref = 1`) and that holds descriptor 5. -/
def busy_wait_fd : util_wait_fd :=
  { util_wait := { wait_obj := FI_WAIT_FD, ref := 1,
                   fid_list := [{ fid := 3, wait_try := 0, events := 1, ref := 1 }],
                   wait_try := some 0 },
    fd_list := [{ fd := 5, wait_try := 0, arg := 9, ref := 1 }],
    change_index := 1 }

/-- The world of `busy_wait_fd`: the multiplexer holds the signal descriptor 4,
descriptor 5 and the descriptor 103 of fid 3. -/
def busy_world : World (List Int) := { st := [4, 5, 103], trace := [] }

/-- A descriptor wait object for `sample_env` none of whose callbacks is ready:
callback 0 returns `FI_SUCCESS`. -/
def idle_wait_fd : util_wait_fd :=
  { util_wait := { wait_obj := FI_WAIT_FD, ref := 0,
                   fid_list := [{ fid := 3, wait_try := 0, events := 1, ref := 1 }],
                   wait_try := some 0 },
    fd_list := [{ fd := 5, wait_try := 0, arg := 9, ref := 1 }],
    change_index := 2 }

/-- A descriptor wait object for `sample_env` whose descriptor callback fails
(callback 2 returns `-FI_EINVAL`) and whose fid callback is always ready
(callback 1 returns `-FI_EAGAIN`). -/
def failing_then_ready_wait_fd : util_wait_fd :=
  { util_wait := { wait_obj := FI_WAIT_FD, ref := 0,
                   fid_list := [{ fid := 3, wait_try := 1, events := 1, ref := 1 }],
                   wait_try := some 0 },
    fd_list := [{ fd := 5, wait_try := 2, arg := 9, ref := 1 }],
    change_index := 2 }

/-- A descriptor wait object for `sample_env` whose descriptor callback returns
`FI_SUCCESS` and whose fid callback is always ready. -/
def idle_then_ready_wait_fd : util_wait_fd :=
  { util_wait := { wait_obj := FI_WAIT_POLLFD, ref := 0,
                   fid_list := [{ fid := 3, wait_try := 1, events := 1, ref := 1 }],
                   wait_try := some 0 },
    fd_list := [{ fd := 5, wait_try := 0, arg := 9, ref := 1 }],
    change_index := 2 }

/-- A poll-array wait object for `sample_env`. -/
def pollfd_wait_fd : util_wait_fd :=
  { util_wait := { wait_obj := FI_WAIT_POLLFD, ref := 0,
                   fid_list := [{ fid := 3, wait_try := 0, events := 1, ref := 1 }],
                   wait_try := some 0 },
    fd_list := [{ fd := 5, wait_try := 0, arg := 9, ref := 1 }],
    change_index := 2 }

/-- Modelled from the spec: values for the constants of `psmx.h` and the public
headers (none is under src/). The reserved message and RMA bits are the two
highest bits of the 64-bit tag space; capabilities and flags are single low
bits. -/
def sample_consts : psmx_consts where
  FI_MSG := 2
  FI_RMA := 4
  FI_SOURCE := 2 ^ 19
  PSMX_CAPS := 2 + 4 + 8 + 16
  PSMX_OP_FLAGS := 2 ^ 16 + 2 ^ 17
  PSMX_MODE := 1
  PSMX_MSG_BIT := 2 ^ 63
  PSMX_RMA_BIT := 2 ^ 62
  PSMX_MAX_MSG_SIZE := 2 ^ 32 - 1
  PSMX_INJECT_SIZE := 64
  FI_EP_UNSPEC := 0
  FI_EP_RDM := 3
  FI_PROTO_UNSPEC := 0
  FI_PROTO_PSMX := 3
  FI_ORDER_SAS := 2 ^ 7
  FI_ORDER_NONE := 0
  FI_THREAD_COMPLETION := 4
  FI_PROGRESS_MANUAL := 2
  FI_ADDR_PSMX := 8
  sizeof_psm_epid_t := 8

/-- The default setting of `psmx_env`: `am_msg` and `tagged_rma` off. -/
def default_psmx_env : psmx_env_t := { am_msg := 0, tagged_rma := 0 }

/-- An environment in which one PSM device unit is present, allocation
succeeds, and a tag format and its bit mask are the same number. -/
def sample_ext : psmx_ext where
  psm_ep_num_devunits := (0, 1)
  psmx_resolve_name := fun _ => some 1
  fi_allocinfo_ok := true
  fi_tag_bits := fun x => x
  fi_tag_format := fun x => x

/-- Hints that ask for `caps` with the tag format `mem_tag_format` and set
nothing else apart from the required mode bits. -/
def sample_hints (c : psmx_consts) (caps mem_tag_format : Nat) : fi_info :=
  { caps := caps, mode := c.PSMX_MODE, ep_type := c.FI_EP_UNSPEC, addr_format := 0,
    src_addrlen := 0, dest_addrlen := 0, src_addr := none, dest_addr := none,
    tx_attr := none, rx_attr := none,
    ep_attr := some { protocol := c.FI_PROTO_UNSPEC, max_msg_size := 0, inject_size := 0,
                      total_buffered_recv := 0, mem_tag_format := mem_tag_format,
                      msg_order := 0, comp_order := 0, tx_ctx_cnt := 0, rx_ctx_cnt := 0 },
    domain_attr := none, fabric_attr := none }

/-- The environment `sample_env` with a multiplexer that refuses every add with
`-FI_ENOMEM` and registers nothing. -/
def add_failing_env : Env (List Int) :=
  { sample_env with
    ofi_epoll_add := fun _ _ _ s => (-FI_ENOMEM, s)
    ofi_pollfds_add := fun _ _ _ s => (-FI_ENOMEM, s) }

/-- The environment `sample_env` with a multiplexer that refuses every delete
with `-FI_EINVAL` and keeps the descriptor. -/
def del_failing_env : Env (List Int) :=
  { sample_env with
    ofi_epoll_del := fun _ s => (-FI_EINVAL, s)
    ofi_pollfds_del := fun _ s => (-FI_EINVAL, s) }

/-- The environment `sample_env` with a multiplexer whose blocking wait wakes
with one event, and a signal channel whose every reset leaves a `-1` at
the end of the external state. -/
def waking_env : Env (List Int) :=
  { sample_env with
    ofi_epoll_wait := fun _ s => (1, s)
    ofi_pollfds_wait := fun _ s => (1, s)
    fd_signal_reset := fun s => s ++ [-1] }

/-- Constructor calls that all succeed and leave the external state alone. -/
def sample_open_env : OpenEnv (List Int) where
  fi_poll_create := fun s => (0, s)
  fd_signal_init := fun s => (0, s)
  ofi_epoll_create := fun s => (0, s)
  ofi_pollfds_create := fun s => (0, s)
  ofi_pollfds_close := fun s => s
  OFI_EPOLL_IN := 1
  POLLIN := 1
  wait_fid := fun _ => 40
  util_wait_fd_try := 0

/-- Objects for `ofi_trywait`: the wait object of the queue or counter at
address `a` is `a + 1`, a wait fid is its own wait object, and the try
function of wait object `n` is callback `n % 3` of `sample_env`. -/
def sample_objs : fid_objects where
  cq_wait := fun a => a + 1
  eq_wait := fun a => a + 1
  cntr_wait := fun a => a + 1
  wait_of_fid := fun a => a
  wait_at := fun n =>
    { wait_obj := FI_WAIT_FD, ref := 0, fid_list := [], wait_try := some (n % 3) }

/-- Objects for `ofi_trywait` with one wait object `u`, found at every address:
a queue or counter at any address waits on `u`, and a wait fid at any address
is the fid of `u`. -/
def objs_of (u : util_wait) : fid_objects where
  cq_wait := fun _ => 40
  eq_wait := fun _ => 40
  cntr_wait := fun _ => 40
  wait_of_fid := fun _ => 40
  wait_at := fun _ => u

/-- The descriptor wait object that `ofi_wait_fd_open` hands out for the kind
`FI_WAIT_FD`: empty registries, change counter 0. -/
def fresh_wait_fd : util_wait_fd :=
  { util_wait := { wait_obj := FI_WAIT_FD, ref := 0, fid_list := [], wait_try := some 0 },
    fd_list := [], change_index := 0 }

/-- The yield wait object that `ofi_wait_yield_open` hands out: empty fid
registry, signal flag clear, `wait_try` still `NULL`. -/
def fresh_wait_yield : util_wait_yield :=
  { util_wait := { wait_obj := FI_WAIT_YIELD, ref := 0, fid_list := [], wait_try := none },
    signal := 0 }

/-- The world after `ofi_wait_fd_open` under `sample_env` from `sample_world`:
the signal descriptor 4 was added to the multiplexer. -/
def fresh_world : World (List Int) :=
  { st := [4, 4], trace := [Event.epoll_add 4 1 40 0] }

/-- A sequence of registration calls that shares descriptor 5, registers and
removes fid 3 and descriptor 7, and ends with a remove that fails. -/
def sample_reg_ops : List reg_op :=
  [reg_op.add_fd 5 1 0 9 0, reg_op.add_fid 3 1 0, reg_op.add_fd 5 1 0 9 0, reg_op.del_fd 5,
   reg_op.add_fd 7 1 0 9 0, reg_op.del_fd 5, reg_op.del_fid 3, reg_op.del_fid 3]

/-- The environment `sample_env` with a `pthread_yield` that leaves a `0` at
the end of the external state, and callbacks other than callback 0 that
return `FI_SUCCESS` while the state holds fewer than three items and
`-FI_EAGAIN` from then on. -/
def late_ready_env : Env (List Int) :=
  { sample_env with
    wait_try := fun func _ s =>
      (if func = 0 then 0 else if s.length < 3 then 0 else -FI_EAGAIN, s)
    pthread_yield := fun s => s ++ [0] }

/-- A yield wait object with three registered fids, its signal flag clear. -/
def sample_wait_yield : util_wait_yield :=
  { util_wait := { wait_obj := FI_WAIT_YIELD, ref := 0,
                   fid_list := [{ fid := 3, wait_try := 0, events := 1, ref := 1 },
                                { fid := 4, wait_try := 1, events := 1, ref := 1 },
                                { fid := 5, wait_try := 2, events := 1, ref := 1 }],
                   wait_try := none },
    signal := 0 }

/-- The log of one pass of `sample_wait_yield` in which every callback returns 0. -/
def idle_pass_log : List Event :=
  [Event.wait_try 0 3 0, Event.wait_try 1 4 0, Event.wait_try 2 5 0]

/-- A setting of `psmx_env` with tagged-RMA acceleration on. -/
def tagged_rma_env : psmx_env_t := { am_msg := 0, tagged_rma := 1 }

/-- A setting of the constants with the reserved bits at positions 20 and 21. -/
def low_bit_consts : psmx_consts :=
  { sample_consts with PSMX_MSG_BIT := 2 ^ 20, PSMX_RMA_BIT := 2 ^ 21 }

/-- Hints that set the mode bits and carry both attribute structures, with the
transmit operation flags `tx_flags` and the receive operation flags
`rx_flags`. -/
def flag_hints (c : psmx_consts) (tx_flags rx_flags : Nat) : fi_info :=
  { caps := 0, mode := c.PSMX_MODE, ep_type := c.FI_EP_UNSPEC, addr_format := 0,
    src_addrlen := 0, dest_addrlen := 0, src_addr := none, dest_addr := none,
    tx_attr := some { caps := 0, mode := 0, op_flags := tx_flags, msg_order := 0,
                      comp_order := 0, inject_size := 0, size := 0, iov_limit := 0 },
    rx_attr := some { caps := 0, mode := 0, op_flags := rx_flags, msg_order := 0,
                      comp_order := 0, total_buffered_recv := 0, size := 0, iov_limit := 0 },
    ep_attr := none, domain_attr := none, fabric_attr := none }

/-- The environment `sample_env` with a poll set that reports `n` events. -/
def polling_env (n : Int) : Env (List Int) :=
  { sample_env with fi_poll := fun s => (n, s) }

/-! # Theorems -/

/-! ## dlist helper lemmas -/

theorem find_none_of_no_match {α : Type} (p : α → Bool) (l : List α)
    (hl : ∀ x ∈ l, p x = false) : dlist_find_first_match p l = none := by
  unfold dlist_find_first_match
  induction l with
  | nil => rfl
  | cons x xs ih =>
    have hx : p x = false := hl x (List.mem_cons_self x xs)
    simp only [List.find?, hx]
    exact ih (fun y hy => hl y (List.mem_cons_of_mem x hy))

theorem find_append_single {α : Type} (p : α → Bool) (l : List α) (e : α)
    (hl : ∀ x ∈ l, p x = false) (he : p e = true) :
    dlist_find_first_match p (l ++ [e]) = some e := by
  unfold dlist_find_first_match
  induction l with
  | nil => simp [List.find?, he]
  | cons x xs ih =>
    have hx : p x = false := hl x (List.mem_cons_self x xs)
    simp only [List.cons_append, List.find?, hx]
    exact ih (fun y hy => hl y (List.mem_cons_of_mem x hy))

theorem update_append_single {α : Type} (p : α → Bool) (f : α → α) (l : List α) (e : α)
    (hl : ∀ x ∈ l, p x = false) (he : p e = true) :
    update_first_match p f (l ++ [e]) = l ++ [f e] := by
  induction l with
  | nil => simp [update_first_match, he]
  | cons x xs ih =>
    have hx : p x = false := hl x (List.mem_cons_self x xs)
    simp only [List.cons_append, update_first_match, hx]
    simp [ih (fun y hy => hl y (List.mem_cons_of_mem x hy))]

theorem remove_append_single {α : Type} (p : α → Bool) (l : List α) (e : α)
    (hl : ∀ x ∈ l, p x = false) (he : p e = true) :
    remove_first_match p (l ++ [e]) = l := by
  induction l with
  | nil => simp [remove_first_match, he]
  | cons x xs ih =>
    have hx : p x = false := hl x (List.mem_cons_self x xs)
    simp only [List.cons_append, remove_first_match, hx]
    simp [ih (fun y hy => hl y (List.mem_cons_of_mem x hy))]

/-! ## The 32-bit atomic counter -/

theorem dec32_ne_zero_iff (v : Int) : ofi_atomic_dec32 v ≠ 0 ↔ v - 1 ≠ 0 := by
  unfold ofi_atomic_dec32 INT32_MIN INT32_MAX
  split <;> omega

theorem dec32_eq_zero_iff (v : Int) : ofi_atomic_dec32 v = 0 ↔ v = 1 := by
  unfold ofi_atomic_dec32 INT32_MIN INT32_MAX
  split <;> omega

theorem inc32_dec32 (v : Int) (h : v ≠ INT32_MAX + 1) :
    ofi_atomic_inc32 (ofi_atomic_dec32 v) = v := by
  unfold ofi_atomic_inc32 ofi_atomic_dec32 INT32_MIN INT32_MAX at *
  split_ifs <;> omega

theorem wrap32_range (x : Int) : INT32_MIN ≤ wrap32 x ∧ wrap32 x ≤ INT32_MAX := by
  unfold wrap32 INT32_MIN INT32_MAX
  omega

theorem wrap32_of_range (x : Int) (h1 : INT32_MIN ≤ x) (h2 : x ≤ INT32_MAX) : wrap32 x = x := by
  unfold wrap32 INT32_MIN INT32_MAX at *
  omega

theorem inc32_wrap32 (x : Int) : ofi_atomic_inc32 (wrap32 x) = wrap32 (x + 1) := by
  unfold ofi_atomic_inc32 wrap32 INT32_MIN INT32_MAX
  split_ifs <;> omega

theorem dec32_wrap32 (x : Int) : ofi_atomic_dec32 (wrap32 x) = wrap32 (x - 1) := by
  unfold ofi_atomic_dec32 wrap32 INT32_MIN INT32_MAX
  split_ifs <;> omega

/-- A counter that was moved by `x` in all, `0 <= x < 2 ^ 32`, reads 0 only
when `x` is 0. -/
theorem wrap32_eq_zero_iff (x : Int) (h1 : 0 ≤ x) (h2 : x < 4294967296) :
    wrap32 x = 0 ↔ x = 0 := by
  unfold wrap32
  omega

/-! ## Fid registry: one equation per path of the source -/

theorem add_fid_found {S : Type} (env : Env S) (wait : util_wait) (fid events wait_try : Nat)
    (w : World S) (e : ofi_wait_fid_entry)
    (h : dlist_find_first_match (ofi_wait_match_fid fid) wait.fid_list = some e) :
    ofi_wait_add_fid env wait fid events wait_try w =
      (0, { wait with fid_list :=
              update_first_match (ofi_wait_match_fid fid) fid_entry_inc wait.fid_list }, w) := by
  unfold ofi_wait_add_fid
  rw [h]

theorem add_fid_nomem {S : Type} (env : Env S) (wait : util_wait) (fid events wait_try : Nat)
    (w : World S)
    (h : dlist_find_first_match (ofi_wait_match_fid fid) wait.fid_list = none)
    (hc : (env.calloc w.st).1 = false) :
    ofi_wait_add_fid env wait fid events wait_try w =
      (-FI_ENOMEM, wait, { w with st := (env.calloc w.st).2 }) := by
  unfold ofi_wait_add_fid
  rw [h]
  simp [hc]

theorem add_fid_new_fd {S : Type} (env : Env S) (wait : util_wait) (fid events wait_try : Nat)
    (w : World S)
    (h : dlist_find_first_match (ofi_wait_match_fid fid) wait.fid_list = none)
    (hc : (env.calloc w.st).1 = true)
    (hk : wait.wait_obj = FI_WAIT_FD ∨ wait.wait_obj = FI_WAIT_POLLFD) :
    ofi_wait_add_fid env wait fid events wait_try w =
      (if (ofi_wait_add_fds env wait
            { fid := fid, wait_try := wait_try, events := events, ref := 1 }
            { w with st := (env.calloc w.st).2 }).1 ≠ 0 then
        ((ofi_wait_add_fds env wait
            { fid := fid, wait_try := wait_try, events := events, ref := 1 }
            { w with st := (env.calloc w.st).2 }).1, wait,
         (ofi_wait_add_fds env wait
            { fid := fid, wait_try := wait_try, events := events, ref := 1 }
            { w with st := (env.calloc w.st).2 }).2)
      else
        (0, { wait with fid_list := wait.fid_list ++
                [{ fid := fid, wait_try := wait_try, events := events, ref := 1 }] },
         (ofi_wait_add_fds env wait
            { fid := fid, wait_try := wait_try, events := events, ref := 1 }
            { w with st := (env.calloc w.st).2 }).2)) := by
  unfold ofi_wait_add_fid
  rw [h]
  simp [hc, hk]

theorem add_fid_new_plain {S : Type} (env : Env S) (wait : util_wait)
    (fid events wait_try : Nat) (w : World S)
    (h : dlist_find_first_match (ofi_wait_match_fid fid) wait.fid_list = none)
    (hc : (env.calloc w.st).1 = true)
    (hk : ¬ (wait.wait_obj = FI_WAIT_FD ∨ wait.wait_obj = FI_WAIT_POLLFD)) :
    ofi_wait_add_fid env wait fid events wait_try w =
      (0, { wait with fid_list := wait.fid_list ++
              [{ fid := fid, wait_try := wait_try, events := events, ref := 1 }] },
       { w with st := (env.calloc w.st).2 }) := by
  unfold ofi_wait_add_fid
  rw [h]
  simp [hc, hk]

theorem del_fid_absent {S : Type} (env : Env S) (wait : util_wait) (fid : Nat) (w : World S)
    (h : dlist_find_first_match (ofi_wait_match_fid fid) wait.fid_list = none) :
    ofi_wait_del_fid env wait fid w = (-FI_EINVAL, wait, w) := by
  unfold ofi_wait_del_fid
  rw [h]

theorem del_fid_shared {S : Type} (env : Env S) (wait : util_wait) (fid : Nat) (w : World S)
    (e : ofi_wait_fid_entry)
    (h : dlist_find_first_match (ofi_wait_match_fid fid) wait.fid_list = some e)
    (hr : e.ref - 1 ≠ 0) :
    ofi_wait_del_fid env wait fid w =
      (0, { wait with fid_list :=
              update_first_match (ofi_wait_match_fid fid) fid_entry_dec wait.fid_list }, w) := by
  have hd : (fid_entry_dec e).ref ≠ 0 := (dec32_ne_zero_iff e.ref).mpr hr
  unfold ofi_wait_del_fid
  rw [h]
  simp [hd]

theorem del_fid_last_fd {S : Type} (env : Env S) (wait : util_wait) (fid : Nat) (w : World S)
    (e : ofi_wait_fid_entry)
    (h : dlist_find_first_match (ofi_wait_match_fid fid) wait.fid_list = some e)
    (hr : e.ref - 1 = 0)
    (hk : wait.wait_obj = FI_WAIT_FD ∨ wait.wait_obj = FI_WAIT_POLLFD) :
    ofi_wait_del_fid env wait fid w =
      (if (ofi_wait_del_fds env wait (fid_entry_dec e) w).1 ≠ 0 then
        ((ofi_wait_del_fds env wait (fid_entry_dec e) w).1,
         { wait with fid_list :=
             (update_first_match (ofi_wait_match_fid fid) fid_entry_inc
               (update_first_match (ofi_wait_match_fid fid) fid_entry_dec wait.fid_list)) },
         (ofi_wait_del_fds env wait (fid_entry_dec e) w).2)
      else
        (0, { wait with fid_list :=
                (remove_first_match (ofi_wait_match_fid fid)
                  (update_first_match (ofi_wait_match_fid fid) fid_entry_dec wait.fid_list)) },
         (ofi_wait_del_fds env wait (fid_entry_dec e) w).2)) := by
  have hd : (fid_entry_dec e).ref = 0 := by
    have h1 : e.ref = 1 := by omega
    exact (dec32_eq_zero_iff e.ref).mpr h1
  unfold ofi_wait_del_fid
  rw [h]
  simp [hd, hk]

theorem del_fid_last_plain {S : Type} (env : Env S) (wait : util_wait) (fid : Nat)
    (w : World S) (e : ofi_wait_fid_entry)
    (h : dlist_find_first_match (ofi_wait_match_fid fid) wait.fid_list = some e)
    (hr : e.ref - 1 = 0)
    (hk : ¬ (wait.wait_obj = FI_WAIT_FD ∨ wait.wait_obj = FI_WAIT_POLLFD)) :
    ofi_wait_del_fid env wait fid w =
      (0, { wait with fid_list :=
              (remove_first_match (ofi_wait_match_fid fid)
                (update_first_match (ofi_wait_match_fid fid) fid_entry_dec wait.fid_list)) },
       w) := by
  have hd : (fid_entry_dec e).ref = 0 := by
    have h1 : e.ref = 1 := by omega
    exact (dec32_eq_zero_iff e.ref).mpr h1
  unfold ofi_wait_del_fid
  rw [h]
  simp [hd, hk]

/-! ## Fid registry: the net reference count -/

theorem add_fid_state {S : Type} (env : Env S) (fid : Nat) (l0 : List ofi_wait_fid_entry)
    (hl0 : ∀ x ∈ l0, ofi_wait_match_fid fid x = false) (events wait_try : Nat)
    (wait : util_wait) (w : World S) (n : Int) (h : fid_state fid l0 n wait.fid_list)
    (hb : n + (if (ofi_wait_add_fid env wait fid events wait_try w).1 = 0 then 1 else 0) ≤
      4294967296) :
    (ofi_wait_add_fid env wait fid events wait_try w).2.1.wait_obj = wait.wait_obj ∧
    (ofi_wait_add_fid env wait fid events wait_try w).2.1.ref = wait.ref ∧
    fid_state fid l0
      (n + (if (ofi_wait_add_fid env wait fid events wait_try w).1 = 0 then 1 else 0))
      (ofi_wait_add_fid env wait fid events wait_try w).2.1.fid_list := by
  have hw1 : wrap32 1 = 1 := by decide
  rcases h with ⟨hn, hl⟩ | ⟨hn, hn2, wt, ev, hl⟩
  · have hfind : dlist_find_first_match (ofi_wait_match_fid fid) wait.fid_list = none := by
      rw [hl]; exact find_none_of_no_match _ l0 hl0
    subst hn
    cases hc : (env.calloc w.st).1
    · rw [add_fid_nomem env wait fid events wait_try w hfind hc]
      simp [fid_state, hl, FI_ENOMEM]
    · by_cases hk : wait.wait_obj = FI_WAIT_FD ∨ wait.wait_obj = FI_WAIT_POLLFD
      · rw [add_fid_new_fd env wait fid events wait_try w hfind hc hk]
        split
        · rename_i hr
          simp [fid_state, hl, hr]
        · simp [fid_state, hl, hw1]
      · rw [add_fid_new_plain env wait fid events wait_try w hfind hc hk]
        simp [fid_state, hl, hw1]
  · have he : ofi_wait_match_fid fid
        { fid := fid, wait_try := wt, events := ev, ref := wrap32 n } = true := by
      simp [ofi_wait_match_fid]
    have hfind : dlist_find_first_match (ofi_wait_match_fid fid) wait.fid_list =
        some { fid := fid, wait_try := wt, events := ev, ref := wrap32 n } := by
      rw [hl]; exact find_append_single _ l0 _ hl0 he
    rw [add_fid_found env wait fid events wait_try w _ hfind] at hb ⊢
    rw [hl, update_append_single _ _ l0 _ hl0 he]
    simp only [if_true] at hb ⊢
    refine ⟨trivial, trivial, Or.inr ⟨by omega, hb, wt, ev, ?_⟩⟩
    simp [fid_entry_inc, inc32_wrap32]

theorem del_fid_state {S : Type} (env : Env S) (fid : Nat) (l0 : List ofi_wait_fid_entry)
    (hl0 : ∀ x ∈ l0, ofi_wait_match_fid fid x = false)
    (wait : util_wait) (w : World S) (n : Int) (h : fid_state fid l0 n wait.fid_list) :
    (ofi_wait_del_fid env wait fid w).2.1.wait_obj = wait.wait_obj ∧
    (ofi_wait_del_fid env wait fid w).2.1.ref = wait.ref ∧
    fid_state fid l0
      (n + (if (ofi_wait_del_fid env wait fid w).1 = 0 then -1 else 0))
      (ofi_wait_del_fid env wait fid w).2.1.fid_list := by
  rcases h with ⟨hn, hl⟩ | ⟨hn, hn2, wt, ev, hl⟩
  · have hfind : dlist_find_first_match (ofi_wait_match_fid fid) wait.fid_list = none := by
      rw [hl]; exact find_none_of_no_match _ l0 hl0
    subst hn
    rw [del_fid_absent env wait fid w hfind]
    simp [fid_state, hl, FI_EINVAL]
  · have he : ofi_wait_match_fid fid
        { fid := fid, wait_try := wt, events := ev, ref := wrap32 n } = true := by
      simp [ofi_wait_match_fid]
    have hed : ofi_wait_match_fid fid (fid_entry_dec
        { fid := fid, wait_try := wt, events := ev, ref := wrap32 n }) = true := by
      simp [ofi_wait_match_fid, fid_entry_dec]
    have hfind : dlist_find_first_match (ofi_wait_match_fid fid) wait.fid_list =
        some { fid := fid, wait_try := wt, events := ev, ref := wrap32 n } := by
      rw [hl]; exact find_append_single _ l0 _ hl0 he
    by_cases h1 : n = 1
    · subst h1
      have hw1 : wrap32 1 = 1 := by decide
      have hr1 : ({ fid := fid, wait_try := wt, events := ev, ref := wrap32 1 } :
          ofi_wait_fid_entry).ref - 1 = 0 := by simp [hw1]
      by_cases hk : wait.wait_obj = FI_WAIT_FD ∨ wait.wait_obj = FI_WAIT_POLLFD
      · rw [del_fid_last_fd env wait fid w _ hfind hr1 hk, hl,
          update_append_single _ _ l0 _ hl0 he, update_append_single _ _ l0 _ hl0 hed,
          remove_append_single _ l0 _ hl0 hed]
        split
        · rename_i hr
          refine ⟨rfl, rfl, Or.inr ⟨by simp [hr], by simp [hr], wt, ev, ?_⟩⟩
          simp [fid_entry_dec, fid_entry_inc, hr, dec32_wrap32, inc32_wrap32]
        · simp [fid_state]
      · rw [del_fid_last_plain env wait fid w _ hfind hr1 hk, hl,
          update_append_single _ _ l0 _ hl0 he, remove_append_single _ l0 _ hl0 hed]
        simp [fid_state]
    · have hr : ({ fid := fid, wait_try := wt, events := ev, ref := wrap32 n } :
          ofi_wait_fid_entry).ref - 1 ≠ 0 := by
        simp only []
        unfold wrap32
        omega
      rw [del_fid_shared env wait fid w _ hfind hr, hl, update_append_single _ _ l0 _ hl0 he]
      simp only [if_true]
      refine ⟨trivial, trivial, Or.inr ⟨by omega, by omega, wt, ev, ?_⟩⟩
      simp only [fid_entry_dec, dec32_wrap32]
      rfl

theorem net_refs_take_succ (x : fid_op × Int) (xs : List (fid_op × Int)) (k : Nat) :
    net_refs ((x :: xs).take (k + 1)) = net_refs [x] + net_refs (xs.take k) := by
  rcases x with ⟨op, ret⟩
  cases op <;> simp [net_refs]

theorem run_fid_ops_state {S : Type} (env : Env S) (fid : Nat) (l0 : List ofi_wait_fid_entry)
    (hl0 : ∀ x ∈ l0, ofi_wait_match_fid fid x = false) (ops : List fid_op) :
    ∀ (wait : util_wait) (w : World S) (n : Int), fid_state fid l0 n wait.fid_list →
      (∀ k : Nat, n + net_refs ((run_fid_ops env fid ops wait w).1.take k) ≤ 4294967296) →
      fid_state fid l0 (n + net_refs (run_fid_ops env fid ops wait w).1)
        (run_fid_ops env fid ops wait w).2.1.fid_list := by
  induction ops with
  | nil =>
    intro wait w n h _
    simpa [run_fid_ops, net_refs] using h
  | cons op ops ih =>
    intro wait w n h hb
    cases op with
    | add events wait_try =>
      have hb1 := hb 1
      simp only [run_fid_ops, run_fid_op, List.take_succ_cons, List.take_zero, net_refs] at hb1
      have hs := (add_fid_state env fid l0 hl0 events wait_try wait w n h
        (by simpa using hb1)).2.2
      have := ih _ (ofi_wait_add_fid env wait fid events wait_try w).2.2 _ hs (by
        intro k
        have hk := hb (k + 1)
        simp only [run_fid_ops, run_fid_op, net_refs_take_succ] at hk
        simp only [net_refs] at hk
        simpa [add_assoc] using hk)
      simpa [run_fid_ops, run_fid_op, net_refs, add_assoc] using this
    | del =>
      have hs := (del_fid_state env fid l0 hl0 wait w n h).2.2
      have := ih _ (ofi_wait_del_fid env wait fid w).2.2 _ hs (by
        intro k
        have hk := hb (k + 1)
        simp only [run_fid_ops, run_fid_op, net_refs_take_succ] at hk
        simp only [net_refs] at hk
        simpa [add_assoc] using hk)
      simpa [run_fid_ops, run_fid_op, net_refs, add_assoc] using this

theorem run_fid_ops_append {S : Type} (env : Env S) (fid : Nat) (xs ys : List fid_op) :
    ∀ (wait : util_wait) (w : World S),
      run_fid_ops env fid (xs ++ ys) wait w =
        ((run_fid_ops env fid xs wait w).1 ++
           (run_fid_ops env fid ys (run_fid_ops env fid xs wait w).2.1
              (run_fid_ops env fid xs wait w).2.2).1,
         (run_fid_ops env fid ys (run_fid_ops env fid xs wait w).2.1
              (run_fid_ops env fid xs wait w).2.2).2) := by
  induction xs with
  | nil => intro wait w; simp [run_fid_ops]
  | cons x xs ih => intro wait w; simp [run_fid_ops, ih]

theorem entry_matches (fid wt ev : Nat) (r : Int) :
    ofi_wait_match_fid fid { fid := fid, wait_try := wt, events := ev, ref := r } = true := by
  simp [ofi_wait_match_fid]

/-- Further adds of a registered fid only move its 32-bit refcount up, with
wrap-around. -/
theorem run_more_adds {S : Type} (env : Env S) (fid : Nat) (l0 : List ofi_wait_fid_entry)
    (hl0 : ∀ x ∈ l0, ofi_wait_match_fid fid x = false) (wt ev : Nat)
    (more : List (Nat × Nat)) :
    ∀ (wait : util_wait) (w : World S) (r : Int),
      wait.fid_list = l0 ++ [{ fid := fid, wait_try := wt, events := ev, ref := wrap32 r }] →
      run_fid_ops env fid (add_ops more) wait w =
        ((add_ops more).map (fun op => (op, (0 : Int))),
         { wait with fid_list :=
             l0 ++ [{ fid := fid, wait_try := wt, events := ev,
                      ref := wrap32 (r + more.length) }] },
         w) := by
  induction more with
  | nil =>
    intro wait w r h
    simp [add_ops, run_fid_ops, ← h]
  | cons a more ih =>
    intro wait w r h
    have hfind : dlist_find_first_match (ofi_wait_match_fid fid) wait.fid_list =
        some { fid := fid, wait_try := wt, events := ev, ref := wrap32 r } := by
      rw [h]; exact find_append_single _ l0 _ hl0 (entry_matches fid wt ev _)
    have hstep := add_fid_found env wait fid a.1 a.2 w _ hfind
    rw [h, update_append_single _ _ l0 _ hl0 (entry_matches fid wt ev _)] at hstep
    have hrest := ih { wait with fid_list :=
        l0 ++ [{ fid := fid, wait_try := wt, events := ev, ref := wrap32 (r + 1) }] } w (r + 1) rfl
    simp only [add_ops] at hrest
    simp only [add_ops, List.map_cons, run_fid_ops, run_fid_op, hstep, fid_entry_inc,
      inc32_wrap32, hrest]
    simp
    congr 1
    omega

/-- Removes of a fid that holds more references than their number, and no
more than `2 ^ 32`, only move the refcount down. -/
theorem run_shared_dels {S : Type} (env : Env S) (fid : Nat) (l0 : List ofi_wait_fid_entry)
    (hl0 : ∀ x ∈ l0, ofi_wait_match_fid fid x = false) (wt ev : Nat) (k : Nat) :
    ∀ (wait : util_wait) (w : World S) (r : Int), (k : Int) < r → r ≤ 4294967296 →
      wait.fid_list = l0 ++ [{ fid := fid, wait_try := wt, events := ev, ref := wrap32 r }] →
      run_fid_ops env fid (List.replicate k fid_op.del) wait w =
        (List.replicate k (fid_op.del, (0 : Int)),
         { wait with fid_list :=
             l0 ++ [{ fid := fid, wait_try := wt, events := ev, ref := wrap32 (r - k) }] },
         w) := by
  induction k with
  | zero =>
    intro wait w r _ _ h
    simp [run_fid_ops, ← h]
  | succ k ih =>
    intro wait w r hr hr2 h
    have hfind : dlist_find_first_match (ofi_wait_match_fid fid) wait.fid_list =
        some { fid := fid, wait_try := wt, events := ev, ref := wrap32 r } := by
      rw [h]; exact find_append_single _ l0 _ hl0 (entry_matches fid wt ev _)
    have hne : (({ fid := fid, wait_try := wt, events := ev, ref := wrap32 r } :
        ofi_wait_fid_entry).ref - 1 ≠ 0) := by
      simp only []
      push_cast at hr
      unfold wrap32
      omega
    have hstep := del_fid_shared env wait fid w _ hfind hne
    rw [h, update_append_single _ _ l0 _ hl0 (entry_matches fid wt ev _)] at hstep
    have hrest := ih { wait with fid_list :=
        l0 ++ [{ fid := fid, wait_try := wt, events := ev, ref := wrap32 (r - 1) }] } w (r - 1)
        (by push_cast at hr; omega) (by omega) rfl
    simp only [List.replicate_succ, run_fid_ops, run_fid_op, hstep, fid_entry_dec,
      dec32_wrap32, hrest]
    simp
    congr 1
    omega

theorem add_fds_ok {S : Type} (env : Env S) (fid : Nat) (fd : Int)
    (hok : registration_succeeds env fid fd) (wait : util_wait) (wt ev : Nat) (r : Int)
    (w : World S) :
    (ofi_wait_add_fds env wait { fid := fid, wait_try := wt, events := ev, ref := r } w).1 = 0 ∧
    (ofi_wait_add_fds env wait { fid := fid, wait_try := wt, events := ev, ref := r } w).2.trace =
      w.trace ++ [ev_mux_add wait.wait_obj fd ev (env.fid_context fid) 0] := by
  obtain ⟨_, hget, hea, hpa, _, _⟩ := hok
  unfold ofi_wait_add_fds mux_add ev_mux_add
  simp only [(hget w.st).1, (hget w.st).2, ne_eq, not_true_eq_false, if_false]
  split <;> simp [hea, hpa]

theorem del_fds_ok {S : Type} (env : Env S) (fid : Nat) (fd : Int)
    (hok : registration_succeeds env fid fd) (wait : util_wait) (wt ev : Nat) (r : Int)
    (w : World S) :
    (ofi_wait_del_fds env wait { fid := fid, wait_try := wt, events := ev, ref := r } w).1 = 0 ∧
    (ofi_wait_del_fds env wait { fid := fid, wait_try := wt, events := ev, ref := r } w).2.trace =
      w.trace ++ [ev_mux_del wait.wait_obj fd 0] := by
  obtain ⟨_, hget, _, _, hed, hpd⟩ := hok
  unfold ofi_wait_del_fds mux_del ev_mux_del
  simp only [(hget w.st).1, (hget w.st).2, ne_eq, not_true_eq_false, if_false]
  split <;> simp [hed, hpd]

/-- The first add of a fid that has no entry: the entry is appended with
refcount one and, on a descriptor-backed wait object, its descriptor is
registered once. -/
theorem first_add_ok {S : Type} (env : Env S) (fid : Nat) (fd : Int)
    (hok : registration_succeeds env fid fd) (wait : util_wait) (events wait_try : Nat)
    (w : World S) (hl0 : ∀ x ∈ wait.fid_list, ofi_wait_match_fid fid x = false) :
    (ofi_wait_add_fid env wait fid events wait_try w).1 = 0 ∧
    (ofi_wait_add_fid env wait fid events wait_try w).2.1 =
      { wait with fid_list := wait.fid_list ++
          [{ fid := fid, wait_try := wait_try, events := events, ref := 1 }] } ∧
    (ofi_wait_add_fid env wait fid events wait_try w).2.2.trace =
      (if wait.wait_obj = FI_WAIT_FD ∨ wait.wait_obj = FI_WAIT_POLLFD then
        w.trace ++ [ev_mux_add wait.wait_obj fd events (env.fid_context fid) 0]
       else w.trace) := by
  have hfind := find_none_of_no_match _ wait.fid_list hl0
  have hc := hok.1 w.st
  by_cases hk : wait.wait_obj = FI_WAIT_FD ∨ wait.wait_obj = FI_WAIT_POLLFD
  · have h := add_fds_ok env fid fd hok wait wait_try events 1 { w with st := (env.calloc w.st).2 }
    rw [add_fid_new_fd env wait fid events wait_try w hfind hc hk]
    simp [h.1, h.2, hk]
  · rw [add_fid_new_plain env wait fid events wait_try w hfind hc hk]
    simp [hk]

/-- The remove of a fid whose entry has refcount one: the entry is unlinked and,
on a descriptor-backed wait object, its descriptor is deregistered once. -/
theorem last_del_ok {S : Type} (env : Env S) (fid : Nat) (fd : Int)
    (hok : registration_succeeds env fid fd) (wait : util_wait) (l0 : List ofi_wait_fid_entry)
    (wt ev : Nat) (w : World S) (hl0 : ∀ x ∈ l0, ofi_wait_match_fid fid x = false)
    (h : wait.fid_list = l0 ++ [{ fid := fid, wait_try := wt, events := ev, ref := 1 }]) :
    (ofi_wait_del_fid env wait fid w).1 = 0 ∧
    (ofi_wait_del_fid env wait fid w).2.1 = { wait with fid_list := l0 } ∧
    (ofi_wait_del_fid env wait fid w).2.2.trace =
      (if wait.wait_obj = FI_WAIT_FD ∨ wait.wait_obj = FI_WAIT_POLLFD then
        w.trace ++ [ev_mux_del wait.wait_obj fd 0]
       else w.trace) := by
  have he := entry_matches fid wt ev 1
  have hed : ofi_wait_match_fid fid (fid_entry_dec
      { fid := fid, wait_try := wt, events := ev, ref := 1 }) = true := by
    simp [ofi_wait_match_fid, fid_entry_dec]
  have hfind : dlist_find_first_match (ofi_wait_match_fid fid) wait.fid_list =
      some { fid := fid, wait_try := wt, events := ev, ref := 1 } := by
    rw [h]; exact find_append_single _ l0 _ hl0 he
  have h1 : ({ fid := fid, wait_try := wt, events := ev, ref := 1 } :
      ofi_wait_fid_entry).ref - 1 = 0 := by simp
  by_cases hk : wait.wait_obj = FI_WAIT_FD ∨ wait.wait_obj = FI_WAIT_POLLFD
  · have hd := del_fds_ok env fid fd hok wait wt ev (ofi_atomic_dec32 1) w
    rw [del_fid_last_fd env wait fid w _ hfind h1 hk, h,
      update_append_single _ _ l0 _ hl0 he, remove_append_single _ l0 _ hl0 hed]
    simp only [fid_entry_dec]
    simp [hd.1, hd.2, hk]
  · rw [del_fid_last_plain env wait fid w _ hfind h1 hk, h,
      update_append_single _ _ l0 _ hl0 he, remove_append_single _ l0 _ hl0 hed]
    simp [hk]

theorem net_refs_append (xs ys : List (fid_op × Int)) :
    net_refs (xs ++ ys) = net_refs xs + net_refs ys := by
  induction xs with
  | nil => simp [net_refs]
  | cons x xs ih =>
    rcases x with ⟨op, ret⟩
    cases op <;> simp [net_refs, ih, add_assoc]

theorem net_refs_adds (more : List (Nat × Nat)) :
    net_refs ((add_ops more).map (fun op => (op, (0 : Int)))) = more.length := by
  induction more with
  | nil => simp [add_ops, net_refs]
  | cons a more ih =>
    simp only [add_ops, List.map_cons] at ih ⊢
    simp only [net_refs, ih, if_true, List.length_cons]
    push_cast
    omega

theorem net_refs_dels (k : Nat) :
    net_refs (List.replicate k (fid_op.del, (0 : Int))) = -(k : Int) := by
  induction k with
  | zero => simp [net_refs]
  | succ k ih =>
    simp only [List.replicate_succ, net_refs, ih, if_true]
    push_cast
    omega

theorem net_refs_le_length (xs : List (fid_op × Int)) : net_refs xs ≤ xs.length := by
  induction xs with
  | nil => simp [net_refs]
  | cons x xs ih =>
    rcases x with ⟨op, ret⟩
    cases op <;> simp only [net_refs, List.length_cons] <;> push_cast <;> split <;> omega

/-- In a sequence of at most `bound` calls the number of successful adds minus
the number of successful removes never exceeds `bound`. -/
theorem net_refs_at_most_of_length (xs : List (fid_op × Int)) (bound : Int)
    (h : (xs.length : Int) ≤ bound) : net_refs_at_most xs bound := by
  intro k
  have h1 := net_refs_le_length (xs.take k)
  have h2 : ((xs.take k).length : Int) ≤ xs.length := by
    rw [List.length_take]
    exact_mod_cast Nat.min_le_right k xs.length
  omega

/-- One add of a fid that has no entry followed by further adds, every
registration step succeeding: all return 0, the entry's 32-bit refcount holds
the number of adds, and the descriptor is registered once. -/
theorem run_first_adds {S : Type} (env : Env S) (fid : Nat) (fd : Int)
    (hok : registration_succeeds env fid fd) (wait : util_wait) (events wait_try : Nat)
    (more : List (Nat × Nat)) (w : World S)
    (hl0 : ∀ x ∈ wait.fid_list, ofi_wait_match_fid fid x = false) :
    run_fid_ops env fid ([fid_op.add events wait_try] ++ add_ops more) wait w =
      ([(fid_op.add events wait_try, 0)] ++ (add_ops more).map (fun op => (op, (0 : Int))),
        { wait with fid_list := wait.fid_list ++
            [{ fid := fid, wait_try := wait_try, events := events,
               ref := wrap32 (1 + more.length) }] },
        (ofi_wait_add_fid env wait fid events wait_try w).2.2) := by
  obtain ⟨ha1, ha2, _⟩ := first_add_ok env fid fd hok wait events wait_try w hl0
  have hw1 : (1 : Int) = wrap32 1 := by decide
  have h1 : run_fid_ops env fid [fid_op.add events wait_try] wait w =
      ([(fid_op.add events wait_try, 0)],
        { wait with fid_list := wait.fid_list ++
            [{ fid := fid, wait_try := wait_try, events := events, ref := wrap32 1 }] },
        (ofi_wait_add_fid env wait fid events wait_try w).2.2) := by
    simp only [run_fid_ops, run_fid_op, ha1, ha2]
    rw [← hw1]
  rw [run_fid_ops_append, h1]
  simp only []
  rw [run_more_adds env fid wait.fid_list hl0 wait_try events more _ _ 1 rfl]

/-- The cycle of one add, further adds and as many removes, on a fid that had
no entry, with every registration step succeeding and no more than `2 ^ 32`
adds. -/
theorem run_register_cycle {S : Type} (env : Env S) (fid : Nat) (fd : Int)
    (hok : registration_succeeds env fid fd) (wait : util_wait) (events wait_try : Nat)
    (more : List (Nat × Nat)) (w : World S)
    (hl0 : ∀ x ∈ wait.fid_list, ofi_wait_match_fid fid x = false)
    (hmore : (more.length : Int) + 1 ≤ 4294967296) :
    (∀ x ∈ (run_fid_ops env fid
        (fid_op.add events wait_try :: add_ops more ++
          List.replicate (more.length + 1) fid_op.del) wait w).1, x.2 = 0) ∧
    (run_fid_ops env fid
        (fid_op.add events wait_try :: add_ops more ++
          List.replicate (more.length + 1) fid_op.del) wait w).2.1 = wait ∧
    (run_fid_ops env fid
        (fid_op.add events wait_try :: add_ops more ++
          List.replicate (more.length + 1) fid_op.del) wait w).2.2.trace =
      (if wait.wait_obj = FI_WAIT_FD ∨ wait.wait_obj = FI_WAIT_POLLFD then
        w.trace ++ [ev_mux_add wait.wait_obj fd events (env.fid_context fid) 0,
                    ev_mux_del wait.wait_obj fd 0]
       else w.trace) := by
  obtain ⟨_, _, ha3⟩ := first_add_ok env fid fd hok wait events wait_try w hl0
  have hw1 : wrap32 1 = 1 := by decide
  have h12 := run_first_adds env fid fd hok wait events wait_try more w hl0
  have h3 := run_shared_dels env fid wait.fid_list hl0 wait_try events more.length
    { wait with fid_list := wait.fid_list ++
        [{ fid := fid, wait_try := wait_try, events := events,
           ref := wrap32 (1 + more.length) }] }
    (ofi_wait_add_fid env wait fid events wait_try w).2.2 (1 + more.length) (by omega)
    (by omega) rfl
  have e1 : (1 : Int) + (more.length : Int) - (more.length : Int) = 1 := by omega
  rw [e1, hw1] at h3
  obtain ⟨hd1, hd2, hd3⟩ := last_del_ok env fid fd hok
    { wait with fid_list := wait.fid_list ++
        [{ fid := fid, wait_try := wait_try, events := events, ref := 1 }] }
    wait.fid_list wait_try events (ofi_wait_add_fid env wait fid events wait_try w).2.2 hl0 rfl
  have h4 : run_fid_ops env fid [fid_op.del]
      { wait with fid_list := wait.fid_list ++
          [{ fid := fid, wait_try := wait_try, events := events, ref := 1 }] }
      (ofi_wait_add_fid env wait fid events wait_try w).2.2 =
      ([(fid_op.del, 0)], wait,
        (ofi_wait_del_fid env
          { wait with fid_list := wait.fid_list ++
              [{ fid := fid, wait_try := wait_try, events := events, ref := 1 }] }
          fid (ofi_wait_add_fid env wait fid events wait_try w).2.2).2.2) := by
    simp only [run_fid_ops, run_fid_op, hd1, hd2]
  have hsplit : fid_op.add events wait_try :: add_ops more ++
      List.replicate (more.length + 1) fid_op.del =
      ([fid_op.add events wait_try] ++ add_ops more) ++
        (List.replicate more.length fid_op.del ++ [fid_op.del]) := by
    simp [List.replicate_succ']
  have hall : run_fid_ops env fid
      (fid_op.add events wait_try :: add_ops more ++
        List.replicate (more.length + 1) fid_op.del) wait w =
      (([(fid_op.add events wait_try, 0)] ++ (add_ops more).map (fun op => (op, (0 : Int)))) ++
          (List.replicate more.length (fid_op.del, (0 : Int)) ++ [(fid_op.del, 0)]),
        wait,
        (ofi_wait_del_fid env
          { wait with fid_list := wait.fid_list ++
              [{ fid := fid, wait_try := wait_try, events := events, ref := 1 }] }
          fid (ofi_wait_add_fid env wait fid events wait_try w).2.2).2.2) := by
    rw [hsplit, run_fid_ops_append, h12]
    simp only []
    rw [run_fid_ops_append, h3]
    simp only []
    rw [h4]
  rw [hall]
  refine ⟨?_, rfl, ?_⟩
  · intro x hx
    simp only [List.mem_append, List.mem_singleton, List.mem_map, List.mem_replicate] at hx
    rcases hx with (rfl | ⟨_, _, rfl⟩) | ⟨_, rfl⟩ | rfl <;> rfl
  · simp only [hd3, ha3]
    by_cases hk : wait.wait_obj = FI_WAIT_FD ∨ wait.wait_obj = FI_WAIT_POLLFD
    · simp [hk]
    · simp [hk]

/-- Adds that bring the 32-bit refcount back to 1, followed by one remove, on a
fid that had no entry and with every registration step succeeding: every call
returns 0 and the remove unlinks the entry and deregisters the descriptor. -/
theorem run_wrapped_adds_del {S : Type} (env : Env S) (fid : Nat) (fd : Int)
    (hok : registration_succeeds env fid fd) (wait : util_wait) (events wait_try : Nat)
    (more : List (Nat × Nat)) (w : World S)
    (hl0 : ∀ x ∈ wait.fid_list, ofi_wait_match_fid fid x = false)
    (hwrap : wrap32 (1 + (more.length : Int)) = 1) :
    (run_fid_ops env fid
        (([fid_op.add events wait_try] ++ add_ops more) ++ [fid_op.del]) wait w).2.1 = wait ∧
    net_refs (run_fid_ops env fid
        (([fid_op.add events wait_try] ++ add_ops more) ++ [fid_op.del]) wait w).1 =
      more.length ∧
    (run_fid_ops env fid
        (([fid_op.add events wait_try] ++ add_ops more) ++ [fid_op.del]) wait w).2.2.trace =
      (if wait.wait_obj = FI_WAIT_FD ∨ wait.wait_obj = FI_WAIT_POLLFD then
        w.trace ++ [ev_mux_add wait.wait_obj fd events (env.fid_context fid) 0,
                    ev_mux_del wait.wait_obj fd 0]
       else w.trace) := by
  obtain ⟨_, _, ha3⟩ := first_add_ok env fid fd hok wait events wait_try w hl0
  have h12 := run_first_adds env fid fd hok wait events wait_try more w hl0
  rw [hwrap] at h12
  obtain ⟨hd1, hd2, hd3⟩ := last_del_ok env fid fd hok
    { wait with fid_list := wait.fid_list ++
        [{ fid := fid, wait_try := wait_try, events := events, ref := 1 }] }
    wait.fid_list wait_try events (ofi_wait_add_fid env wait fid events wait_try w).2.2 hl0 rfl
  have h4 : run_fid_ops env fid [fid_op.del]
      { wait with fid_list := wait.fid_list ++
          [{ fid := fid, wait_try := wait_try, events := events, ref := 1 }] }
      (ofi_wait_add_fid env wait fid events wait_try w).2.2 =
      ([(fid_op.del, 0)], wait,
        (ofi_wait_del_fid env
          { wait with fid_list := wait.fid_list ++
              [{ fid := fid, wait_try := wait_try, events := events, ref := 1 }] }
          fid (ofi_wait_add_fid env wait fid events wait_try w).2.2).2.2) := by
    simp only [run_fid_ops, run_fid_op, hd1, hd2]
  rw [run_fid_ops_append, h12]
  simp only []
  rw [h4]
  refine ⟨rfl, ?_, ?_⟩
  · simp only [net_refs_append, net_refs_adds]
    simp [net_refs]
  · simp only [hd3, ha3]
    by_cases hk : wait.wait_obj = FI_WAIT_FD ∨ wait.wait_obj = FI_WAIT_POLLFD
    · simp [hk]
    · simp [hk]

/-- C1, counterexample. Under `sample_env`, on `sample_wait` (which holds no
entry for fid 7), `2 ^ 32 + 1` adds of fid 7 followed by one remove all
return 0: the 32-bit refcount has wrapped around to 1, so the remove unlinks
the entry and deregisters the descriptor. `fid_list` then holds no entry for
fid 7 although the successful adds outnumber the successful removes by
`2 ^ 32`. -/
theorem fid_refcount_wrap_counterexample :
    (run_fid_ops sample_env 7
        (([fid_op.add 1 0] ++ add_ops (List.replicate 4294967296 (1, 0))) ++ [fid_op.del])
        sample_wait sample_world).2.1 = sample_wait ∧
    (∀ e ∈ sample_wait.fid_list, e.fid ≠ 7) ∧
    net_refs (run_fid_ops sample_env 7
        (([fid_op.add 1 0] ++ add_ops (List.replicate 4294967296 (1, 0))) ++ [fid_op.del])
        sample_wait sample_world).1 = 4294967296 ∧
    (run_fid_ops sample_env 7
        (([fid_op.add 1 0] ++ add_ops (List.replicate 4294967296 (1, 0))) ++ [fid_op.del])
        sample_wait sample_world).2.2.trace =
      [Event.epoll_add 107 1 7 0, Event.epoll_del 107 0] ∧
    ¬ (∀ ops : List fid_op,
        (∃ e ∈ (run_fid_ops sample_env 7 ops sample_wait sample_world).2.1.fid_list, e.fid = 7) ↔
          0 < net_refs (run_fid_ops sample_env 7 ops sample_wait sample_world).1) := by
  have hok : registration_succeeds sample_env 7 107 :=
    ⟨fun _ => rfl, fun _ => ⟨rfl, rfl⟩, fun _ _ _ _ => rfl, fun _ _ _ _ => rfl,
      fun _ _ => rfl, fun _ _ => rfl⟩
  have hl0 : ∀ x ∈ sample_wait.fid_list, ofi_wait_match_fid 7 x = false := by decide
  have hlen : ((List.replicate 4294967296 ((1, 0) : Nat × Nat)).length : Int) = 4294967296 := by
    rw [List.length_replicate]
    rfl
  have hwrap : wrap32 (1 + ((List.replicate 4294967296 ((1, 0) : Nat × Nat)).length : Int)) = 1 := by
    rw [hlen]
    decide
  have h := run_wrapped_adds_del sample_env 7 107 hok sample_wait 1 0
    (List.replicate 4294967296 (1, 0)) sample_world hl0 hwrap
  have hfresh : ∀ e ∈ sample_wait.fid_list, e.fid ≠ 7 := by decide
  have hnet := h.2.1
  rw [hlen] at hnet
  refine ⟨h.1, hfresh, hnet, ?_, ?_⟩
  · rw [h.2.2]
    rfl
  · intro hall
    have h1 := (hall (([fid_op.add 1 0] ++ add_ops (List.replicate 4294967296 (1, 0))) ++
      [fid_op.del])).mpr (by rw [hnet]; decide)
    rw [h.1] at h1
    rcases h1 with ⟨e, he, hfe⟩
    exact hfresh e he hfe

/-- C1, amended. On a wait object that holds no entry for `fid`, after any
sequence of `ofi_wait_add_fid` / `ofi_wait_del_fid` calls on `fid` (whatever
the environment answers) during which the number of successful adds minus the
number of successful removes never exceeds `2 ^ 32`, the range of the 32-bit
refcount, `fid_list` holds an entry for `fid` iff that number is positive.
When every registration step succeeds, N adds followed by N removes,
`1 <= N <= 2 ^ 32`, all return 0 and give back the wait object as it was (no
entry for `fid`); on a descriptor-backed wait object the log gains exactly
one multiplexer add and then one multiplexer delete of the fid's descriptor,
on any other kind nothing. -/
theorem fid_registry_net_refcount {S : Type} (env : Env S) (wait : util_wait) (w : World S)
    (fid : Nat) (hfresh : ∀ e ∈ wait.fid_list, e.fid ≠ fid) :
    (∀ ops : List fid_op,
        net_refs_at_most (run_fid_ops env fid ops wait w).1 4294967296 →
        ((∃ e ∈ (run_fid_ops env fid ops wait w).2.1.fid_list, e.fid = fid) ↔
          0 < net_refs (run_fid_ops env fid ops wait w).1)) ∧
    (∀ (fd : Int) (events wait_try : Nat) (more : List (Nat × Nat)),
        (more.length : Int) + 1 ≤ 4294967296 →
        registration_succeeds env fid fd →
        (∀ x ∈ (run_fid_ops env fid
            (fid_op.add events wait_try :: add_ops more ++
              List.replicate (more.length + 1) fid_op.del) wait w).1, x.2 = 0) ∧
        (run_fid_ops env fid
            (fid_op.add events wait_try :: add_ops more ++
              List.replicate (more.length + 1) fid_op.del) wait w).2.1 = wait ∧
        (run_fid_ops env fid
            (fid_op.add events wait_try :: add_ops more ++
              List.replicate (more.length + 1) fid_op.del) wait w).2.2.trace =
          (if wait.wait_obj = FI_WAIT_FD ∨ wait.wait_obj = FI_WAIT_POLLFD then
            w.trace ++ [ev_mux_add wait.wait_obj fd events (env.fid_context fid) 0,
                        ev_mux_del wait.wait_obj fd 0]
           else w.trace)) := by
  have hl0 : ∀ x ∈ wait.fid_list, ofi_wait_match_fid fid x = false := by
    intro x hx
    simpa [ofi_wait_match_fid] using hfresh x hx
  refine ⟨?_, ?_⟩
  · intro ops hb
    have h := run_fid_ops_state env fid wait.fid_list hl0 ops wait w 0 (Or.inl ⟨rfl, rfl⟩)
      (by intro k; rw [zero_add]; exact hb k)
    rw [zero_add] at h
    rcases h with ⟨hn, hl⟩ | ⟨hn, _, wt, ev, hl⟩
    · rw [hn, hl]
      constructor
      · rintro ⟨e, he, hfe⟩
        exact absurd hfe (hfresh e he)
      · intro h0
        exact absurd h0 (lt_irrefl _)
    · rw [hl]
      constructor
      · intro _
        exact hn
      · intro _
        exact ⟨_, List.mem_append_right _ (List.mem_singleton_self _), rfl⟩
  · intro fd events wait_try more hmore hok
    exact run_register_cycle env fid fd hok wait events wait_try more w hl0 hmore

/-- Witness for C1: fid 7 on `sample_wait`, which holds only fid 3. -/
theorem fid_registry_net_refcount_witness :
    (∀ e ∈ sample_wait.fid_list, e.fid ≠ 7) ∧
    net_refs_at_most (run_fid_ops sample_env 7
      [fid_op.add 1 0, fid_op.del, fid_op.del, fid_op.add 1 0] sample_wait sample_world).1
      4294967296 ∧
    ((∃ e ∈ (run_fid_ops sample_env 7 [fid_op.add 1 0, fid_op.del, fid_op.del, fid_op.add 1 0]
          sample_wait sample_world).2.1.fid_list, e.fid = 7) ↔
      0 < net_refs (run_fid_ops sample_env 7
          [fid_op.add 1 0, fid_op.del, fid_op.del, fid_op.add 1 0] sample_wait sample_world).1) ∧
    (run_fid_ops sample_env 7
        (fid_op.add 1 0 :: add_ops [(1, 0), (2, 0)] ++ List.replicate 3 fid_op.del)
        sample_wait sample_world).2.1 = sample_wait ∧
    (run_fid_ops sample_env 7
        (fid_op.add 1 0 :: add_ops [(1, 0), (2, 0)] ++ List.replicate 3 fid_op.del)
        sample_wait sample_world).2.2.trace =
      [Event.epoll_add 107 1 7 0, Event.epoll_del 107 0] :=
  ⟨by decide,
   net_refs_at_most_of_length _ _ (by decide),
   (fid_registry_net_refcount sample_env sample_wait sample_world 7 (by decide)).1 _
     (net_refs_at_most_of_length _ _ (by decide)),
   ((fid_registry_net_refcount sample_env sample_wait sample_world 7 (by decide)).2 107 1 0
      [(1, 0), (2, 0)] (by decide)
      ⟨fun _ => rfl, fun _ => ⟨rfl, rfl⟩, fun _ _ _ _ => rfl, fun _ _ _ _ => rfl,
        fun _ _ => rfl, fun _ _ => rfl⟩).2.1,
   ((fid_registry_net_refcount sample_env sample_wait sample_world 7 (by decide)).2 107 1 0
      [(1, 0), (2, 0)] (by decide)
      ⟨fun _ => rfl, fun _ => ⟨rfl, rfl⟩, fun _ _ _ _ => rfl, fun _ _ _ _ => rfl,
        fun _ _ => rfl, fun _ _ => rfl⟩).2.2⟩

/-! ## Close -/

/-- C2, evaluated on a descriptor wait object with `ref = 1` that holds
descriptor 5: `util_wait_fd_close` returns `-FI_EBUSY`, the wait object stays
allocated, its fid registry, change counter and the fabric's reference count
are as before, but `fd_list` has been emptied and descriptor 5 has been
deleted from the multiplexer. -/
theorem fd_close_busy_drains_fd_list :
    util_wait_fd_close sample_env busy_wait_fd { ref := 1 } busy_world =
      (-FI_EBUSY, some { busy_wait_fd with fd_list := [] }, { ref := 1 },
        { st := [4, 103], trace := [Event.epoll_del 5 0] }) ∧
    busy_wait_fd.fd_list ≠ [] ∧ busy_world.st ≠ [4, 103] := by
  decide

/-- The busy check of `fi_wait_cleanup` comes first: with a non-zero reference
count nothing is touched. -/
theorem fi_wait_cleanup_busy {S : Type} (env : Env S) (wait : util_wait) (fabric : util_fabric)
    (w : World S) (h : wait.ref ≠ 0) :
    fi_wait_cleanup env wait fabric w = (-FI_EBUSY, wait, fabric, w) := by
  simp [fi_wait_cleanup, h]

/-- The yield wait object's close on a referenced wait object returns
`-FI_EBUSY` and changes nothing. -/
theorem yield_close_busy {S : Type} (env : Env S) (wait : util_wait_yield)
    (fabric : util_fabric) (w : World S) (h : wait.util_wait.ref ≠ 0) :
    util_wait_yield_close env wait fabric w = (-FI_EBUSY, some wait, fabric, w) := by
  simp [util_wait_yield_close, fi_wait_cleanup_busy env _ fabric w h, FI_EBUSY]

/-- The descriptor wait object's close on a referenced wait object returns
`-FI_EBUSY` after it has emptied `fd_list` and deleted every descriptor from
the multiplexer. -/
theorem fd_close_busy {S : Type} (env : Env S) (wait : util_wait_fd)
    (fabric : util_fabric) (w : World S) (h : wait.util_wait.ref ≠ 0) :
    util_wait_fd_close env wait fabric w =
      (-FI_EBUSY, some { wait with fd_list := [] }, fabric,
        drain_fd_list env wait.util_wait.wait_obj wait.fd_list w) := by
  simp [util_wait_fd_close, fi_wait_cleanup_busy env _ fabric _ h, FI_EBUSY]

/-! ## The try step -/

theorem try_fd_entries_eq {S : Type} (env : Env S) (l : List ofi_wait_fd_entry) :
    ∀ w : World S, try_fd_entries env l w =
      try_callbacks env (l.map (fun e => (e.wait_try, e.arg))) w := by
  induction l with
  | nil => intro w; rfl
  | cons e es ih =>
    intro w
    simp only [try_fd_entries, List.map_cons, try_callbacks, ih]

theorem try_fid_entries_eq {S : Type} (env : Env S) (l : List ofi_wait_fid_entry) :
    ∀ w : World S, try_fid_entries env l w =
      try_callbacks env (l.map (fun e => (e.wait_try, e.fid))) w := by
  induction l with
  | nil => intro w; rfl
  | cons e es ih =>
    intro w
    simp only [try_fid_entries, List.map_cons, try_callbacks, ih]

theorem try_callbacks_append {S : Type} (env : Env S) (l1 l2 : List (Nat × Nat)) :
    ∀ w : World S, try_callbacks env (l1 ++ l2) w =
      (match try_callbacks env l1 w with
       | (some ret, w1) => (some ret, w1)
       | (none, w1) => try_callbacks env l2 w1) := by
  induction l1 with
  | nil => intro w; simp [try_callbacks]
  | cons c cs ih =>
    intro w
    simp only [List.cons_append, try_callbacks]
    split
    · rfl
    · exact ih _

/-- The function `util_wait_fd_try` walks `try_order` and polls the poll set
only when the walk reached the end. -/
theorem util_wait_fd_try_eq {S : Type} (env : Env S) (wait : util_wait_fd) (w : World S) :
    util_wait_fd_try env wait w =
      (match try_callbacks env (try_order wait) { w with st := env.fd_signal_reset w.st } with
       | (some ret, w1) => (ret, w1)
       | (none, w1) =>
         ((if (call_fi_poll env w1).1 > 0 then -FI_EAGAIN
           else if (call_fi_poll env w1).1 = -FI_EAGAIN then FI_SUCCESS
           else (call_fi_poll env w1).1), (call_fi_poll env w1).2)) := by
  unfold util_wait_fd_try try_order
  simp only [try_fd_entries_eq, try_fid_entries_eq, try_callbacks_append]
  generalize try_callbacks env (wait.fd_list.map (fun e => (e.wait_try, e.arg)))
    { w with st := env.fd_signal_reset w.st } = x
  rcases x with ⟨o1, w1⟩
  cases o1 with
  | some ret => rfl
  | none =>
    generalize try_callbacks env (wait.util_wait.fid_list.map (fun e => (e.wait_try, e.fid)))
      w1 = y
    rcases y with ⟨o2, w2⟩
    cases o2 with
    | some ret => rfl
    | none => rfl

/-- The walk either visits every callback, each returning `FI_SUCCESS`, or
stops at the first callback that returns another code and yields that code. -/
theorem try_callbacks_spec {S : Type} (env : Env S) (l : List (Nat × Nat)) :
    ∀ w : World S,
      ((try_callbacks env l w).1 = none ∧
        (try_callbacks env l w).2.trace = w.trace ++ l.map ev_ok) ∨
      (∃ pre c post ret, l = pre ++ c :: post ∧ ret ≠ FI_SUCCESS ∧
        (try_callbacks env l w).1 = some ret ∧
        (try_callbacks env l w).2.trace =
          w.trace ++ pre.map ev_ok ++ [Event.wait_try c.1 c.2 ret]) := by
  induction l with
  | nil => intro w; left; simp [try_callbacks]
  | cons c cs ih =>
    intro w
    by_cases hr : (call_wait_try env c.1 c.2 w).1 ≠ FI_SUCCESS
    · right
      refine ⟨[], c, cs, (call_wait_try env c.1 c.2 w).1, rfl, hr, ?_, ?_⟩
      · simp [try_callbacks, hr]
      · have hr1 : (env.wait_try c.1 c.2 w.st).1 ≠ FI_SUCCESS := hr
        simp [try_callbacks, call_wait_try, hr1]
    · have hr0 : (call_wait_try env c.1 c.2 w).1 = FI_SUCCESS := not_not.mp hr
      have htr : (call_wait_try env c.1 c.2 w).2.trace = w.trace ++ [ev_ok c] := by
        simp only [call_wait_try] at hr0
        simp [call_wait_try, ev_ok, hr0]
      have hstep : try_callbacks env (c :: cs) w =
          try_callbacks env cs (call_wait_try env c.1 c.2 w).2 := by
        simp [try_callbacks, hr0]
      rw [hstep]
      rcases ih (call_wait_try env c.1 c.2 w).2 with ⟨h1, h2⟩ | ⟨pre, d, post, ret, hl, hne, h1, h2⟩
      · left
        refine ⟨h1, ?_⟩
        rw [h2, htr]
        simp
      · right
        refine ⟨c :: pre, d, post, ret, by rw [hl]; rfl, hne, h1, ?_⟩
        rw [h2, htr]
        simp

/-- C3. `util_wait_fd_try` invokes the try-callbacks of the descriptor entries
in list order and then those of the fid entries in list order. Either every
callback is invoked and returns `FI_SUCCESS` (the log then continues with the
one `fi_poll` call), or the walk stops at the first callback that returns
another code: the callbacks before it returned `FI_SUCCESS`, that code is the
return value, and nothing is invoked after it. -/
theorem util_wait_fd_try_order {S : Type} (env : Env S) (wait : util_wait_fd) (w : World S) :
    (∃ pr, (util_wait_fd_try env wait w).2.trace =
        w.trace ++ (try_order wait).map ev_ok ++ [Event.fi_poll pr]) ∨
    (∃ pre c post ret, try_order wait = pre ++ c :: post ∧ ret ≠ FI_SUCCESS ∧
      (util_wait_fd_try env wait w).1 = ret ∧
      (util_wait_fd_try env wait w).2.trace =
        w.trace ++ pre.map ev_ok ++ [Event.wait_try c.1 c.2 ret]) := by
  rw [util_wait_fd_try_eq]
  rcases try_callbacks_spec env (try_order wait) { w with st := env.fd_signal_reset w.st } with
    ⟨h1, h2⟩ | ⟨pre, c, post, ret, hl, hne, h1, h2⟩
  · left
    rcases h : try_callbacks env (try_order wait) { w with st := env.fd_signal_reset w.st } with
      ⟨o, w1⟩
    rw [h] at h1 h2
    simp only at h1 h2
    subst h1
    refine ⟨(env.fi_poll w1.st).1, ?_⟩
    simp [call_fi_poll, h2]
  · right
    rcases h : try_callbacks env (try_order wait) { w with st := env.fd_signal_reset w.st } with
      ⟨o, w1⟩
    rw [h] at h1 h2
    simp only at h1 h2
    subst h1
    exact ⟨pre, c, post, ret, hl, hne, rfl, h2⟩

/-! ## The run loop of the descriptor wait object -/

theorem try_callbacks_all_ok {S : Type} (env : Env S) (hclock : clock_monotone env)
    (l : List (Nat × Nat)) (hcb : ∀ c ∈ l, ∀ s, (env.wait_try c.1 c.2 s).1 = FI_SUCCESS) :
    ∀ w : World S,
      (try_callbacks env l w).1 = none ∧
      (try_callbacks env l w).2.trace = w.trace ++ l.map ev_ok ∧
      (env.ofi_gettime_ms w.st).1 ≤ (env.ofi_gettime_ms (try_callbacks env l w).2.st).1 := by
  induction l with
  | nil => intro w; simp [try_callbacks]
  | cons c cs ih =>
    intro w
    have hc := hcb c (List.mem_cons_self c cs) w.st
    have hstep : try_callbacks env (c :: cs) w =
        try_callbacks env cs { st := (env.wait_try c.1 c.2 w.st).2,
                               trace := w.trace ++ [ev_ok c] } := by
      simp [try_callbacks, call_wait_try, hc, ev_ok]
    obtain ⟨h1, h2, h3⟩ := ih (fun d hd => hcb d (List.mem_cons_of_mem c hd))
      { st := (env.wait_try c.1 c.2 w.st).2, trace := w.trace ++ [ev_ok c] }
    rw [hstep]
    refine ⟨h1, ?_, le_trans (hclock.2.2.1 c.1 c.2 w.st) h3⟩
    rw [h2]
    simp

/-- With no callback ready and no event in the poll set, the try step reports
`FI_SUCCESS` after one walk and one `fi_poll`. -/
theorem util_wait_fd_try_idle {S : Type} (env : Env S) (hclock : clock_monotone env)
    (wait : util_wait_fd)
    (hcb : ∀ c ∈ try_order wait, ∀ s, (env.wait_try c.1 c.2 s).1 = FI_SUCCESS)
    (hpoll : ∀ s, (env.fi_poll s).1 = 0 ∨ (env.fi_poll s).1 = -FI_EAGAIN) (w : World S) :
    (util_wait_fd_try env wait w).1 = 0 ∧
    (∃ pr, (util_wait_fd_try env wait w).2.trace =
      w.trace ++ (try_order wait).map ev_ok ++ [Event.fi_poll pr]) ∧
    (env.ofi_gettime_ms w.st).1 ≤ (env.ofi_gettime_ms (util_wait_fd_try env wait w).2.st).1 := by
  obtain ⟨h1, h2, h3⟩ := try_callbacks_all_ok env hclock (try_order wait) hcb
    { w with st := env.fd_signal_reset w.st }
  rw [util_wait_fd_try_eq]
  generalize try_callbacks env (try_order wait) { w with st := env.fd_signal_reset w.st } = x
    at h1 h2 h3
  rcases x with ⟨o, w1⟩
  simp only at h1 h2 h3
  subst h1
  simp only [call_fi_poll]
  refine ⟨?_, ⟨(env.fi_poll w1.st).1, by simp [h2]⟩, ?_⟩
  · rcases hpoll w1.st with h0 | h0 <;> simp [h0, FI_EAGAIN, FI_SUCCESS]
  · exact le_trans (hclock.2.1 w.st) (le_trans h3 (hclock.2.2.2 w1.st))

/-- C4. On a descriptor wait object in which no entry is ready (every
registered callback returns `FI_SUCCESS`, the poll set reports no event) and
with a clock that does not go back, `util_wait_fd_run` with `timeout = 0`
returns `-FI_ETIMEDOUT` in its first iteration: the log gains one walk over
the callbacks and one `fi_poll`, and no call of the multiplexer's blocking
wait. -/
theorem fd_run_zero_timeout {S : Type} (env : Env S) (wait : util_wait_fd) (w : World S)
    (fuel : Nat) (hclock : clock_monotone env)
    (hcb : ∀ c ∈ try_order wait, ∀ s, (env.wait_try c.1 c.2 s).1 = FI_SUCCESS)
    (hpoll : ∀ s, (env.fi_poll s).1 = 0 ∨ (env.fi_poll s).1 = -FI_EAGAIN) :
    (util_wait_fd_run env (fuel + 1) wait 0 w).1 = some (-FI_ETIMEDOUT) ∧
    (∃ pr, (util_wait_fd_run env (fuel + 1) wait 0 w).2.trace =
      w.trace ++ (try_order wait).map ev_ok ++ [Event.fi_poll pr]) ∧
    (util_wait_fd_run env (fuel + 1) wait 0 w).2.trace.filter is_mux_wait =
      w.trace.filter is_mux_wait := by
  obtain ⟨h1, ⟨pr, h2⟩, h3⟩ := util_wait_fd_try_idle env hclock wait hcb hpoll
    { w with st := (env.ofi_gettime_ms w.st).2 }
  have hexp : (env.ofi_gettime_ms w.st).1 ≤
      (env.ofi_gettime_ms (util_wait_fd_try env wait
        { w with st := (env.ofi_gettime_ms w.st).2 }).2.st).1 :=
    le_trans (hclock.1 w.st) h3
  have hrun : util_wait_fd_run env (fuel + 1) wait 0 w =
      (some (-FI_ETIMEDOUT),
        { (util_wait_fd_try env wait { w with st := (env.ofi_gettime_ms w.st).2 }).2 with
          st := (env.ofi_gettime_ms (util_wait_fd_try env wait
            { w with st := (env.ofi_gettime_ms w.st).2 }).2.st).2 }) := by
    simp [util_wait_fd_run, ofi_timeout_time, util_wait_fd_run_loop, h1, ofi_adjust_timeout,
      hexp, FI_ETIMEDOUT]
  rw [hrun]
  refine ⟨rfl, ⟨pr, by simpa using h2⟩, ?_⟩
  simp only [h2, List.filter_append]
  have hnone : List.filter is_mux_wait (List.map ev_ok (try_order wait)) = [] := by
    rw [List.filter_eq_nil_iff]
    intro e he
    obtain ⟨c, _, rfl⟩ := List.mem_map.mp he
    simp [ev_ok, is_mux_wait]
  simp [hnone, is_mux_wait]

/-- Witness for C4: `idle_wait_fd` under `sample_env`. -/
theorem fd_run_zero_timeout_witness :
    (util_wait_fd_run sample_env 1 idle_wait_fd 0 sample_world).1 = some (-FI_ETIMEDOUT) ∧
    (∃ pr, (util_wait_fd_run sample_env 1 idle_wait_fd 0 sample_world).2.trace =
      sample_world.trace ++ (try_order idle_wait_fd).map ev_ok ++ [Event.fi_poll pr]) ∧
    (util_wait_fd_run sample_env 1 idle_wait_fd 0 sample_world).2.trace.filter is_mux_wait =
      sample_world.trace.filter is_mux_wait :=
  fd_run_zero_timeout sample_env idle_wait_fd sample_world 0
    ⟨fun _ => le_refl _, fun _ => le_refl _, fun _ _ _ => le_refl _, fun _ => le_refl _⟩
    (by
      intro c hc s
      simp only [try_order, idle_wait_fd, List.map_cons, List.map_nil, List.cons_append,
        List.nil_append, List.mem_cons, List.mem_singleton, List.not_mem_nil, or_false] at hc
      rcases hc with rfl | rfl <;> rfl)
    (fun _ => Or.inr rfl)

/-- A walk over `pre ++ c :: post` in which `c` always returns `-FI_EAGAIN` and
every callback of `pre` returns `FI_SUCCESS` or `-FI_EAGAIN` stops with
`-FI_EAGAIN`, at `c` or before it. -/
theorem try_callbacks_ready {S : Type} (env : Env S) (c : Nat × Nat) (post : List (Nat × Nat))
    (hready : ∀ s, (env.wait_try c.1 c.2 s).1 = -FI_EAGAIN) (pre : List (Nat × Nat))
    (hpre : ∀ d ∈ pre, ∀ s, (env.wait_try d.1 d.2 s).1 = FI_SUCCESS ∨
      (env.wait_try d.1 d.2 s).1 = -FI_EAGAIN) :
    ∀ w : World S,
      (try_callbacks env (pre ++ c :: post) w).1 = some (-FI_EAGAIN) ∧
      ∃ pre1 d post1, pre ++ c :: post = pre1 ++ d :: post1 ∧
        (try_callbacks env (pre ++ c :: post) w).2.trace =
          w.trace ++ pre1.map ev_ok ++ [Event.wait_try d.1 d.2 (-FI_EAGAIN)] := by
  induction pre with
  | nil =>
    intro w
    have h := hready w.st
    refine ⟨?_, [], c, post, rfl, ?_⟩
    · simp [try_callbacks, call_wait_try, h, FI_EAGAIN, FI_SUCCESS]
    · simp [try_callbacks, call_wait_try, h, FI_EAGAIN, FI_SUCCESS]
  | cons x xs ih =>
    intro w
    rcases hpre x (List.mem_cons_self x xs) w.st with h | h
    · have hstep : try_callbacks env (x :: xs ++ c :: post) w =
          try_callbacks env (xs ++ c :: post)
            { st := (env.wait_try x.1 x.2 w.st).2, trace := w.trace ++ [ev_ok x] } := by
        simp [try_callbacks, call_wait_try, h, ev_ok]
      obtain ⟨h1, pre1, d, post1, hl, h2⟩ :=
        ih (fun d hd => hpre d (List.mem_cons_of_mem x hd))
          { st := (env.wait_try x.1 x.2 w.st).2, trace := w.trace ++ [ev_ok x] }
      rw [hstep]
      refine ⟨h1, x :: pre1, d, post1, by rw [List.cons_append, hl]; rfl, ?_⟩
      rw [h2]
      simp
    · refine ⟨?_, [], x, xs ++ c :: post, rfl, ?_⟩
      · simp [try_callbacks, call_wait_try, h, FI_EAGAIN, FI_SUCCESS]
      · simp [try_callbacks, call_wait_try, h, FI_EAGAIN, FI_SUCCESS]

/-- C5, counterexample. Under `sample_env` the wait object
`failing_then_ready_wait_fd` has a registered callback that always returns
`-FI_EAGAIN`, yet `util_wait_fd_run` returns `-FI_EINVAL`, the code of the
callback tried before it, and not 0. -/
theorem fd_run_ready_callback_counterexample :
    (∃ c ∈ try_order failing_then_ready_wait_fd,
      ∀ s, (sample_env.wait_try c.1 c.2 s).1 = -FI_EAGAIN) ∧
    (∀ fuel, (util_wait_fd_run sample_env (fuel + 1) failing_then_ready_wait_fd 0
      sample_world).1 = some (-FI_EINVAL)) ∧
    ¬ (∀ (wait : util_wait_fd) (timeout : Int) (w : World (List Int)),
        (∃ c ∈ try_order wait, ∀ s, (sample_env.wait_try c.1 c.2 s).1 = -FI_EAGAIN) →
        (util_wait_fd_run sample_env 1 wait timeout w).1 = some 0) := by
  have hex : ∃ c ∈ try_order failing_then_ready_wait_fd,
      ∀ s, (sample_env.wait_try c.1 c.2 s).1 = -FI_EAGAIN :=
    ⟨(1, 3), by decide, fun _ => rfl⟩
  refine ⟨hex, fun _ => rfl, ?_⟩
  intro h
  have h1 := h failing_then_ready_wait_fd 0 sample_world hex
  revert h1
  decide

/-- C5, amended. If the try order of a descriptor wait object holds a callback
that always returns `-FI_EAGAIN`, and every callback before it returns
`FI_SUCCESS` or `-FI_EAGAIN`, then for every timeout `util_wait_fd_run`
returns 0 in its first iteration: the log gains only callbacks of one partial
walk, ending with the first one that returned `-FI_EAGAIN`; neither `fi_poll`
nor the multiplexer's blocking wait is called. -/
theorem fd_run_ready_callback {S : Type} (env : Env S) (wait : util_wait_fd) (w : World S)
    (fuel : Nat) (timeout : Int) (pre post : List (Nat × Nat)) (c : Nat × Nat)
    (horder : try_order wait = pre ++ c :: post)
    (hready : ∀ s, (env.wait_try c.1 c.2 s).1 = -FI_EAGAIN)
    (hpre : ∀ d ∈ pre, ∀ s, (env.wait_try d.1 d.2 s).1 = FI_SUCCESS ∨
      (env.wait_try d.1 d.2 s).1 = -FI_EAGAIN) :
    (util_wait_fd_run env (fuel + 1) wait timeout w).1 = some 0 ∧
    (∃ pre1 d post1, try_order wait = pre1 ++ d :: post1 ∧
      (util_wait_fd_run env (fuel + 1) wait timeout w).2.trace =
        w.trace ++ pre1.map ev_ok ++ [Event.wait_try d.1 d.2 (-FI_EAGAIN)]) ∧
    (util_wait_fd_run env (fuel + 1) wait timeout w).2.trace.filter is_mux_wait =
      w.trace.filter is_mux_wait := by
  have key : ∀ w0 : World S,
      (util_wait_fd_run_loop env wait (ofi_timeout_time env timeout w).1 (fuel + 1) timeout
        w0).1 = some 0 ∧
      ∃ pre1 d post1, try_order wait = pre1 ++ d :: post1 ∧
        (util_wait_fd_run_loop env wait (ofi_timeout_time env timeout w).1 (fuel + 1) timeout
          w0).2.trace = w0.trace ++ pre1.map ev_ok ++ [Event.wait_try d.1 d.2 (-FI_EAGAIN)] := by
    intro w0
    obtain ⟨h1, pre1, d, post1, hl, h2⟩ := try_callbacks_ready env c post hready pre hpre
      { w0 with st := env.fd_signal_reset w0.st }
    rw [← horder] at h1 h2 hl
    have htry : util_wait_fd_try env wait w0 =
        (-FI_EAGAIN, (try_callbacks env (try_order wait)
          { w0 with st := env.fd_signal_reset w0.st }).2) := by
      rw [util_wait_fd_try_eq]
      generalize try_callbacks env (try_order wait)
        { w0 with st := env.fd_signal_reset w0.st } = x at h1
      rcases x with ⟨o, w1⟩
      simp only at h1
      subst h1
      rfl
    refine ⟨?_, pre1, d, post1, hl, ?_⟩
    · simp [util_wait_fd_run_loop, htry, FI_EAGAIN]
    · simp only [util_wait_fd_run_loop, htry]
      simpa [FI_EAGAIN] using h2
  have htr : (ofi_timeout_time env timeout w).2.trace = w.trace := by
    unfold ofi_timeout_time
    split <;> rfl
  obtain ⟨k1, pre1, d, post1, hl, k2⟩ := key (ofi_timeout_time env timeout w).2
  rw [htr] at k2
  refine ⟨k1, ⟨pre1, d, post1, hl, k2⟩, ?_⟩
  have hnone : List.filter is_mux_wait (List.map ev_ok pre1) = [] := by
    rw [List.filter_eq_nil_iff]
    intro e he
    obtain ⟨c, _, rfl⟩ := List.mem_map.mp he
    simp [ev_ok, is_mux_wait]
  unfold util_wait_fd_run
  simp only [k2, List.filter_append, hnone]
  simp [is_mux_wait]

/-- Witness for C5: `idle_then_ready_wait_fd` under `sample_env`, timeout -1. -/
theorem fd_run_ready_callback_witness :
    (util_wait_fd_run sample_env 1 idle_then_ready_wait_fd (-1) sample_world).1 = some 0 ∧
    (∃ pre1 d post1, try_order idle_then_ready_wait_fd = pre1 ++ d :: post1 ∧
      (util_wait_fd_run sample_env 1 idle_then_ready_wait_fd (-1) sample_world).2.trace =
        sample_world.trace ++ pre1.map ev_ok ++ [Event.wait_try d.1 d.2 (-FI_EAGAIN)]) ∧
    (util_wait_fd_run sample_env 1 idle_then_ready_wait_fd (-1) sample_world).2.trace.filter
        is_mux_wait = sample_world.trace.filter is_mux_wait :=
  fd_run_ready_callback sample_env idle_then_ready_wait_fd sample_world 0 (-1)
    [(0, 9)] [] (1, 3) rfl (fun _ => rfl)
    (by
      intro d hd s
      simp only [List.mem_singleton] at hd
      subst hd
      exact Or.inl rfl)

/-! ## The yield wait object -/

theorem try_fid_entries_some_ne {S : Type} (env : Env S) (l : List ofi_wait_fid_entry)
    (w : World S) (ret : Int) (h : (try_fid_entries env l w).1 = some ret) :
    ret ≠ FI_SUCCESS := by
  rw [try_fid_entries_eq] at h
  rcases try_callbacks_spec env (l.map (fun e => (e.wait_try, e.fid))) w with
    ⟨h1, _⟩ | ⟨_, _, _, r, _, hne, h1, _⟩
  · rw [h1] at h
    cases h
  · rw [h1] at h
    cases h
    exact hne

theorem yield_run_unsignaled {S : Type} (env : Env S) (wait : util_wait_yield)
    (hs : wait.signal = 0) (timeout : Int) (fuel : Nat) :
    ∀ w : World S, (util_wait_yield_run env wait timeout fuel w).1 ≠ some FI_SUCCESS := by
  induction fuel with
  | zero =>
    intro w
    unfold util_wait_yield_run
    simp [hs]
  | succ n ih =>
    intro w
    unfold util_wait_yield_run
    simp only [hs, ne_eq, not_true_eq_false, if_false]
    rcases h : try_fid_entries env wait.util_wait.fid_list w with ⟨o, w1⟩
    cases o with
    | none => exact ih _
    | some ret =>
      have hne := try_fid_entries_some_ne env wait.util_wait.fid_list w ret (by rw [h])
      simpa using hne

/-- C6. After `util_wait_yield_signal`, `util_wait_yield_run` returns
`FI_SUCCESS` for every timeout and whatever callbacks are registered, without
entering its loop (no callback is invoked, the world is untouched), and it
leaves the signal flag at 0; a further run of the resulting wait object never
returns `FI_SUCCESS`, however long it loops. -/
theorem yield_signal_then_run {S : Type} (env : Env S) (wait : util_wait_yield)
    (timeout : Int) (fuel : Nat) (w : World S) :
    util_wait_yield_run env (util_wait_yield_signal wait) timeout fuel w =
      (some FI_SUCCESS, { wait with signal := 0 }, w) ∧
    (∀ (timeout2 : Int) (fuel2 : Nat) (w2 : World S),
      (util_wait_yield_run env
        (util_wait_yield_run env (util_wait_yield_signal wait) timeout fuel w).2.1
        timeout2 fuel2 w2).1 ≠ some FI_SUCCESS) := by
  have h1 : util_wait_yield_run env (util_wait_yield_signal wait) timeout fuel w =
      (some FI_SUCCESS, { wait with signal := 0 }, w) := by
    unfold util_wait_yield_run
    simp [util_wait_yield_signal]
  refine ⟨h1, ?_⟩
  intro timeout2 fuel2 w2
  rw [h1]
  exact yield_run_unsignaled env { wait with signal := 0 } rfl timeout2 fuel2 w2

/-! ## PSM tag-bit reservation -/

/-- With FI_MSG asked for, `am_msg` and `tagged_rma` off and a max tag value of
0, the call succeeds and keeps the capabilities; the mask it returns is
computed from `PSMX_MSG_BIT` squeezed into the `int reserved_bits`. -/
theorem reserve_msg_value (c : psmx_consts) (env : psmx_env_t) (caps : Nat)
    (hmsg : int_to_u64 caps &&& c.FI_MSG ≠ 0) (ham : env.am_msg = 0)
    (hrma : env.tagged_rma = 0) (hpos : 0 < c.PSMX_MSG_BIT) :
    psmx_reserve_tag_bits c env caps 0 =
      (0, caps, int_to_u64 (not_int (u64_to_int c.PSMX_MSG_BIT |||
        shl_int (u64_to_int c.PSMX_MSG_BIT) 1))) := by
  have hz : int_to_u64 0 = 0 := by decide
  have hcaps : caps ≠ 0 := by
    rintro rfl
    simp [hz] at hmsg
  unfold psmx_reserve_tag_bits
  simp [hcaps, hmsg, ham, hrma, hpos, hz]

/-- For every position `k` of the reserved message bit in the 64-bit tag space
the returned mask is not the all-ones mask with bit `k` cleared; for a bit
above the width of `int` nothing is cleared at all. -/
theorem reserve_msg_bit_truncated (c : psmx_consts) (env : psmx_env_t) (caps k : Nat)
    (hmsg : int_to_u64 caps &&& c.FI_MSG ≠ 0) (ham : env.am_msg = 0)
    (hrma : env.tagged_rma = 0) (hk : k < 64) (hbit : c.PSMX_MSG_BIT = 2 ^ k) :
    (psmx_reserve_tag_bits c env caps 0).1 = 0 ∧
    (psmx_reserve_tag_bits c env caps 0).2.1 = caps ∧
    (psmx_reserve_tag_bits c env caps 0).2.2 ≠ 2 ^ 64 - 1 - 2 ^ k ∧
    (32 ≤ k → (psmx_reserve_tag_bits c env caps 0).2.2 = 2 ^ 64 - 1) := by
  rw [reserve_msg_value c env caps hmsg ham hrma (by rw [hbit]; positivity), hbit]
  refine ⟨rfl, rfl, ?_, ?_⟩
  · dsimp only
    interval_cases k <;> decide
  · intro h32
    dsimp only
    interval_cases k <;> decide

/-- C7, evaluated with the reserved message bit at position 63: FI_MSG asked
for, `am_msg` and `tagged_rma` off, max tag value 0. The call returns 0 and
keeps FI_MSG, but the mask it returns is all ones: bit 63 is not cleared. -/
theorem reserve_msg_bit_not_cleared :
    psmx_reserve_tag_bits sample_consts default_psmx_env sample_consts.FI_MSG 0 =
      (0, sample_consts.FI_MSG, 2 ^ 64 - 1) ∧
    (2 ^ 64 - 1 : Nat) ≠ 2 ^ 64 - 1 - sample_consts.PSMX_MSG_BIT := by
  decide

theorem reserve_msg_unavailable (c : psmx_consts) (env : psmx_env_t) (caps max_tag_value : Nat)
    (hmsg : int_to_u64 caps &&& c.FI_MSG ≠ 0) (ham : env.am_msg = 0)
    (hmax : c.PSMX_MSG_BIT ≤ max_tag_value) :
    psmx_reserve_tag_bits c env caps max_tag_value = (-1, caps, max_tag_value) := by
  have hz : int_to_u64 0 = 0 := by decide
  have hcaps : caps ≠ 0 := by
    rintro rfl
    simp [hz] at hmsg
  unfold psmx_reserve_tag_bits
  simp [hcaps, hmsg, ham, hz, not_lt.mpr hmax]

theorem int_to_u64_mod (y : Nat) : int_to_u64 y % 2 ^ 32 = y % 2 ^ 32 := by
  unfold int_to_u64
  split <;> omega

theorem testBit_low_of_mod_eq (a b i : Nat) (h : a % 2 ^ 32 = b % 2 ^ 32) (hi : i < 32) :
    a.testBit i = b.testBit i := by
  have ha := Nat.testBit_mod_two_pow a 32 i
  have hb := Nat.testBit_mod_two_pow b 32 i
  rw [h] at ha
  simp only [hi, decide_True, Bool.true_and] at ha hb
  rw [← ha, hb]

/-- A capability mask below the sign bit of `int` sees the same bits in
`hints->caps` and in the `int caps` it is copied to. -/
theorem land_int_copy (x m : Nat) (hm : m < 2 ^ 31) :
    int_to_u64 (u64_to_int x) &&& m = x &&& m := by
  have h1 : ∀ a : Nat, a &&& m = (a % 2 ^ 31) &&& m := by
    intro a
    calc a &&& m = a &&& (m % 2 ^ 31) := by rw [Nat.mod_eq_of_lt hm]
      _ = a &&& (m &&& (2 ^ 31 - 1)) := by rw [Nat.and_pow_two_sub_one_eq_mod]
      _ = (a &&& (2 ^ 31 - 1)) &&& m := by
          rw [Nat.and_comm m, Nat.and_assoc]
      _ = (a % 2 ^ 31) &&& m := by rw [Nat.and_pow_two_sub_one_eq_mod]
  rw [h1 (int_to_u64 (u64_to_int x)), h1 x]
  have h2 : int_to_u64 (u64_to_int x) % 2 ^ 31 = x % 2 ^ 31 := by
    unfold int_to_u64 u64_to_int
    split <;> omega
  rw [h2]

/-- C8, counterexample. With FI_MSG asked for explicitly, `am_msg` off and a
caller's max tag value that excludes the reserved message bit (bit 63 is
clear in `2 ^ 63 - 1`), the reservation succeeds and `psmx_getinfo` returns 0
with a descriptor. -/
theorem reserve_excluded_bit_counterexample :
    (2 ^ 63 - 1) &&& sample_consts.PSMX_MSG_BIT = 0 ∧
    (psmx_reserve_tag_bits sample_consts default_psmx_env sample_consts.FI_MSG
      (2 ^ 63 - 1)).1 = 0 ∧
    (psmx_getinfo sample_consts default_psmx_env sample_ext none 0
      (some (sample_hints sample_consts sample_consts.FI_MSG (2 ^ 63 - 1)))).map Prod.fst =
        some 0 ∧
    ¬ (∀ caps max_tag_value : Nat, caps ≠ 0 →
        int_to_u64 caps &&& sample_consts.FI_MSG ≠ 0 →
        max_tag_value ≠ 0 → max_tag_value &&& sample_consts.PSMX_MSG_BIT = 0 →
        (psmx_reserve_tag_bits sample_consts default_psmx_env caps max_tag_value).1 < 0) := by
  refine ⟨by decide, by decide, by decide, ?_⟩
  intro h
  have h1 := h sample_consts.FI_MSG (2 ^ 63 - 1) (by decide) (by decide) (by decide) (by decide)
  revert h1
  decide

/-- C8, amended. With FI_MSG in the capability set asked for, `am_msg` off and a
max tag value that reaches the reserved message bit
(`max_tag_value >= PSMX_MSG_BIT`), `psmx_reserve_tag_bits` returns -1 and
leaves `*caps` and `*max_tag_value` as they were; `psmx_getinfo`, given hints
with such a capability set (FI_MSG being a bit below the sign bit of `int`)
and a tag format whose bits reach `PSMX_MSG_BIT`, returns `-FI_ENODATA` with
`*info` NULL. -/
theorem reserve_msg_bit_in_use (c : psmx_consts) (env : psmx_env_t) (ham : env.am_msg = 0) :
    (∀ caps max_tag_value : Nat, int_to_u64 caps &&& c.FI_MSG ≠ 0 →
      c.PSMX_MSG_BIT ≤ max_tag_value →
      psmx_reserve_tag_bits c env caps max_tag_value = (-1, caps, max_tag_value)) ∧
    (∀ (ext : psmx_ext) (node : Option String) (flags : Nat) (hints : fi_info)
      (ep : fi_ep_attr), c.FI_MSG < 2 ^ 31 → hints.caps &&& c.FI_MSG ≠ 0 →
      hints.ep_attr = some ep → c.PSMX_MSG_BIT ≤ ext.fi_tag_bits ep.mem_tag_format →
      psmx_getinfo c env ext node flags (some hints) = some (-FI_ENODATA, none)) := by
  refine ⟨fun caps mtv hmsg hmax => reserve_msg_unavailable c env caps mtv hmsg ham hmax, ?_⟩
  intro ext node flags hints ep hlow hmsg hep hmax
  have hmsg2 : int_to_u64 (u64_to_int hints.caps) &&& c.FI_MSG ≠ 0 := by
    rw [land_int_copy hints.caps c.FI_MSG hlow]
    exact hmsg
  have hres := reserve_msg_unavailable c env (u64_to_int hints.caps)
    (ext.fi_tag_bits ep.mem_tag_format) hmsg2 ham hmax
  unfold psmx_getinfo
  simp only [hep, hres]
  by_cases hdev : ext.psm_ep_num_devunits.1 ≠ 0 ∨ ext.psm_ep_num_devunits.2 = 0
  · simp [hdev]
  · by_cases hrej : psmx_hints_rejected c hints = true
    · simp [hdev, hrej]
    · simp [hdev, hrej]

/-- Witness for C8: FI_MSG alone asked for with every tag bit in use. -/
theorem reserve_msg_bit_in_use_witness :
    psmx_reserve_tag_bits sample_consts default_psmx_env sample_consts.FI_MSG (2 ^ 64 - 1) =
      (-1, sample_consts.FI_MSG, 2 ^ 64 - 1) ∧
    psmx_getinfo sample_consts default_psmx_env sample_ext none 0
      (some (sample_hints sample_consts sample_consts.FI_MSG (2 ^ 64 - 1))) =
        some (-FI_ENODATA, none) :=
  ⟨(reserve_msg_bit_in_use sample_consts default_psmx_env rfl).1 _ _ (by decide) (by decide),
   (reserve_msg_bit_in_use sample_consts default_psmx_env rfl).2 sample_ext none 0 _ _
     (by decide) (by decide) rfl (by decide)⟩

theorem not_u64_testBit (m i : Nat) (hi : i < 64) : (not_u64 m).testBit i = !m.testBit i := by
  unfold not_u64
  rw [Nat.testBit_xor, Nat.testBit_two_pow_sub_one]
  simp [hi]

/-- The statement `ret_caps &= ~mask` on an `int ret_caps` clears the bits of
`mask` and keeps the others. -/
theorem clear_bits_testBit (rc m i : Nat) (hi : i < 32) :
    (u64_to_int (int_to_u64 rc &&& not_u64 m)).testBit i = (rc.testBit i && !m.testBit i) := by
  unfold u64_to_int
  rw [Nat.testBit_mod_two_pow, Nat.testBit_and, not_u64_testBit m i (by omega),
    testBit_low_of_mod_eq (int_to_u64 rc) rc i (by rw [int_to_u64_mod]) hi]
  simp [hi]

theorem testBit_of_land_eq_zero (rc m i : Nat) (hi : i < 32)
    (h : int_to_u64 rc &&& m = 0) : (rc.testBit i && !m.testBit i) = rc.testBit i := by
  have h1 : (int_to_u64 rc &&& m).testBit i = false := by rw [h]; simp
  rw [Nat.testBit_and, testBit_low_of_mod_eq (int_to_u64 rc) rc i (by rw [int_to_u64_mod]) hi]
    at h1
  cases hrc : rc.testBit i <;> cases hm : m.testBit i <;> simp_all

/-- C9. When no capabilities are asked for (`*caps = 0`), `am_msg` is off and
the message bit cannot be reserved (`max_tag_value >= PSMX_MSG_BIT`),
`psmx_reserve_tag_bits` returns 0; in the `int` it returns, every capability
bit outside FI_RMA is the bit of PSMX_CAPS with FI_MSG removed, and with
tagged-RMA acceleration off the whole `int` is PSMX_CAPS with FI_MSG
removed (as a number too, when PSMX_CAPS fits in the 32 bits of an `int`). -/
theorem reserve_default_drops_msg (c : psmx_consts) (env : psmx_env_t) (max_tag_value : Nat)
    (ham : env.am_msg = 0) (hmax : c.PSMX_MSG_BIT ≤ max_tag_value) :
    (psmx_reserve_tag_bits c env 0 max_tag_value).1 = 0 ∧
    (∀ i, i < 32 → c.FI_RMA.testBit i = false →
      (psmx_reserve_tag_bits c env 0 max_tag_value).2.1.testBit i =
        (c.PSMX_CAPS.testBit i && !c.FI_MSG.testBit i)) ∧
    (env.tagged_rma = 0 → ∀ i, i < 32 →
      (psmx_reserve_tag_bits c env 0 max_tag_value).2.1.testBit i =
        (c.PSMX_CAPS.testBit i && !c.FI_MSG.testBit i)) ∧
    (psmx_reserve_tag_bits c env 0 max_tag_value).2.1 < 2 ^ 32 ∧
    (env.tagged_rma = 0 → c.PSMX_CAPS < 2 ^ 32 →
      (psmx_reserve_tag_bits c env 0 max_tag_value).2.1 = c.PSMX_CAPS &&& not_u64 c.FI_MSG) := by
  have hfull : ∀ r : Nat, r < 2 ^ 32 → c.PSMX_CAPS < 2 ^ 32 →
      (∀ i, i < 32 → r.testBit i = (c.PSMX_CAPS.testBit i && !c.FI_MSG.testBit i)) →
      r = c.PSMX_CAPS &&& not_u64 c.FI_MSG := by
    intro r hr hc hbits
    apply Nat.eq_of_testBit_eq
    intro i
    rw [Nat.testBit_and]
    by_cases hi : i < 32
    · rw [hbits i hi, not_u64_testBit _ _ (by omega)]
    · have h32 : 2 ^ 32 ≤ 2 ^ i := Nat.pow_le_pow_right (by norm_num) (by omega)
      rw [Nat.testBit_lt_two_pow (lt_of_lt_of_le hr h32),
        Nat.testBit_lt_two_pow (lt_of_lt_of_le hc h32)]
      simp
  have hcaps : ∀ i, i < 32 → (u64_to_int c.PSMX_CAPS).testBit i = c.PSMX_CAPS.testBit i := by
    intro i hi
    unfold u64_to_int
    rw [Nat.testBit_mod_two_pow]
    simp [hi]
  have hlt : ∀ x : Nat, u64_to_int x < 2 ^ 32 := fun x => Nat.mod_lt _ (by norm_num)
  -- the capabilities after the FI_MSG block
  obtain ⟨rc1, hrc1, hlt1, hval⟩ : ∃ rc1 : Nat,
      (∀ i, i < 32 → rc1.testBit i = (c.PSMX_CAPS.testBit i && !c.FI_MSG.testBit i)) ∧
      rc1 < 2 ^ 32 ∧
      psmx_reserve_tag_bits c env 0 max_tag_value =
        (match (if (int_to_u64 rc1 &&& c.FI_RMA) ≠ 0 ∧ env.tagged_rma ≠ 0 then
            if max_tag_value < c.PSMX_RMA_BIT then
              some (u64_to_int (int_to_u64 0 ||| c.PSMX_RMA_BIT), rc1)
            else some (0, u64_to_int (int_to_u64 rc1 &&& not_u64 c.FI_RMA))
          else some (0, rc1) : Option (Nat × Nat)) with
         | none => (-1, 0, max_tag_value)
         | some (reserved_bits, ret_caps) =>
           (0, ret_caps, int_to_u64 (not_int (reserved_bits ||| shl_int reserved_bits 1)))) := by
    by_cases h : int_to_u64 (u64_to_int c.PSMX_CAPS) &&& c.FI_MSG = 0
    · refine ⟨u64_to_int c.PSMX_CAPS, ?_, hlt _, ?_⟩
      · intro i hi
        rw [← testBit_of_land_eq_zero _ _ i hi h, hcaps i hi]
      · unfold psmx_reserve_tag_bits
        simp [h, ham]
    · refine ⟨u64_to_int (int_to_u64 (u64_to_int c.PSMX_CAPS) &&& not_u64 c.FI_MSG), ?_,
        hlt _, ?_⟩
      · intro i hi
        rw [clear_bits_testBit _ _ i hi, hcaps i hi]
      · unfold psmx_reserve_tag_bits
        simp [h, ham, not_lt.mpr hmax]
  rw [hval]
  by_cases h2 : (int_to_u64 rc1 &&& c.FI_RMA) ≠ 0 ∧ env.tagged_rma ≠ 0
  · by_cases h3 : max_tag_value < c.PSMX_RMA_BIT
    · rw [if_pos h2, if_pos h3]
      exact ⟨rfl, fun i hi _ => hrc1 i hi, fun h0 => absurd h0 h2.2, hlt1,
        fun h0 => absurd h0 h2.2⟩
    · rw [if_pos h2, if_neg h3]
      refine ⟨rfl, ?_, fun h0 => absurd h0 h2.2, hlt _, fun h0 => absurd h0 h2.2⟩
      intro i hi hrma
      show (u64_to_int (int_to_u64 rc1 &&& not_u64 c.FI_RMA)).testBit i = _
      rw [clear_bits_testBit _ _ i hi, hrc1 i hi, hrma]
      simp
  · rw [if_neg h2]
    exact ⟨rfl, fun i hi _ => hrc1 i hi, fun _ i hi => hrc1 i hi, hlt1,
      fun _ hc => hfull rc1 hlt1 hc hrc1⟩

/-- Witness for C9: the sample constants, every tag bit in use. -/
theorem reserve_default_drops_msg_witness :
    (psmx_reserve_tag_bits sample_consts default_psmx_env 0 (2 ^ 64 - 1)).1 = 0 ∧
    (psmx_reserve_tag_bits sample_consts default_psmx_env 0 (2 ^ 64 - 1)).2.1 = 4 + 8 + 16 ∧
    (∀ i, i < 32 →
      (psmx_reserve_tag_bits sample_consts default_psmx_env 0 (2 ^ 64 - 1)).2.1.testBit i =
        (sample_consts.PSMX_CAPS.testBit i && !sample_consts.FI_MSG.testBit i)) :=
  ⟨(reserve_default_drops_msg sample_consts default_psmx_env (2 ^ 64 - 1) rfl (by decide)).1,
   by decide,
   (reserve_default_drops_msg sample_consts default_psmx_env (2 ^ 64 - 1) rfl
     (by decide)).2.2.1 rfl⟩

/-! ## `FI_GETWAIT` on a poll-array wait object -/

/-- C10. On a poll-array wait object, `FI_GETWAIT` with a buffer capacity below
the multiplexer's descriptor count returns `-FI_ETOOSMALL`, stores the count
and the change index in the caller's structure, leaves the caller's buffer,
the wait object and the world as they were; `FI_GETWAIT` on that same state
with a capacity of at least the count returns 0, stores the same count and
change index, and the first `nfds` slots of the caller's buffer hold the
multiplexer's `nfds` descriptors (the slots behind them are untouched). -/
theorem getwait_pollfd_retry {S : Type} (env : Env S) (have_epoll : Bool) (wait : util_wait_fd)
    (w : World S) (small large : fi_wait_pollfd)
    (hkind : wait.util_wait.wait_obj = FI_WAIT_POLLFD)
    (hsmall : small.nfds < env.pollfds_nfds w.st)
    (hlarge : env.pollfds_nfds w.st ≤ large.nfds)
    (harr : env.pollfds_nfds w.st ≤ (env.pollfds_fds w.st).length) :
    util_wait_fd_control env have_epoll wait fi_command.FI_GETWAIT
        (control_arg.pollfd_ptr small) w =
      some (-FI_ETOOSMALL,
        control_arg.pollfd_ptr { change_index := wait.change_index,
                                 nfds := env.pollfds_nfds w.st, fd := small.fd }, wait, w) ∧
    ∃ buf, util_wait_fd_control env have_epoll wait fi_command.FI_GETWAIT
        (control_arg.pollfd_ptr large) w =
      some (0,
        control_arg.pollfd_ptr { change_index := wait.change_index,
                                 nfds := env.pollfds_nfds w.st, fd := buf }, wait, w) ∧
      buf.take (env.pollfds_nfds w.st) = (env.pollfds_fds w.st).take (env.pollfds_nfds w.st) ∧
      buf.drop (env.pollfds_nfds w.st) = large.fd.drop (env.pollfds_nfds w.st) := by
  have hne : wait.util_wait.wait_obj ≠ FI_WAIT_FD := by rw [hkind]; decide
  have hlen : ((env.pollfds_fds w.st).take (env.pollfds_nfds w.st)).length =
      env.pollfds_nfds w.st := by
    rw [List.length_take]
    exact Nat.min_eq_left harr
  constructor
  · simp [util_wait_fd_control, hne, not_le.mpr hsmall]
  · refine ⟨memcpy large.fd (env.pollfds_fds w.st) (env.pollfds_nfds w.st), ?_, ?_, ?_⟩
    · simp [util_wait_fd_control, hne, hlarge]
    · unfold memcpy
      rw [List.take_append_of_le_length (by rw [hlen]), List.take_of_length_le (by rw [hlen])]
    · unfold memcpy
      rw [List.drop_append_of_le_length (by rw [hlen]), List.drop_of_length_le (by rw [hlen]),
        List.nil_append]

/-- Witness for C10: three descriptors registered, buffers of capacity 1 and 4. -/
theorem getwait_pollfd_retry_witness :
    util_wait_fd_control sample_env true pollfd_wait_fd fi_command.FI_GETWAIT
        (control_arg.pollfd_ptr { change_index := 0, nfds := 1, fd := [0] }) busy_world =
      some (-FI_ETOOSMALL,
        control_arg.pollfd_ptr { change_index := 2, nfds := 3, fd := [0] },
        pollfd_wait_fd, busy_world) ∧
    ∃ buf, util_wait_fd_control sample_env true pollfd_wait_fd fi_command.FI_GETWAIT
        (control_arg.pollfd_ptr { change_index := 0, nfds := 4, fd := [0, 0, 0, 0] })
        busy_world =
      some (0, control_arg.pollfd_ptr { change_index := 2, nfds := 3, fd := buf },
        pollfd_wait_fd, busy_world) ∧
      buf.take 3 = [4, 5, 103] ∧ buf.drop 3 = [0] :=
  getwait_pollfd_retry sample_env true pollfd_wait_fd busy_world
    { change_index := 0, nfds := 1, fd := [0] }
    { change_index := 0, nfds := 4, fd := [0, 0, 0, 0] } rfl (by decide) (by decide) (by decide)

/-! ## Removing a key that is not registered -/

/-- C11. Removing a key that is not registered fails with `-FI_EINVAL` and
changes nothing: `ofi_wait_del_fid` on a fid absent from `fid_list` and
`ofi_wait_del_fd` on a descriptor absent from `fd_list` return `-FI_EINVAL`
with the wait object (entries, refcounts, change counter) and the world (no
multiplexer call logged) exactly as before. -/
theorem del_unregistered {S : Type} (env : Env S) (uw : util_wait) (wait : util_wait_fd)
    (fid : Nat) (fd : Int) (w : World S)
    (hfid : ∀ e ∈ uw.fid_list, e.fid ≠ fid) (hfd : ∀ e ∈ wait.fd_list, e.fd ≠ fd) :
    ofi_wait_del_fid env uw fid w = (-FI_EINVAL, uw, w) ∧
    ofi_wait_del_fd env wait fd w = (-FI_EINVAL, wait, w) := by
  constructor
  · apply del_fid_absent
    apply find_none_of_no_match
    intro x hx
    simpa [ofi_wait_match_fid] using hfid x hx
  · have hnone : dlist_find_first_match (ofi_wait_match_fd fd) wait.fd_list = none := by
      apply find_none_of_no_match
      intro x hx
      simpa [ofi_wait_match_fd] using hfd x hx
    unfold ofi_wait_del_fd
    rw [hnone]

/-- Witness for C11: fid 7 and descriptor 6 on `busy_wait_fd`. -/
theorem del_unregistered_witness :
    ofi_wait_del_fid sample_env busy_wait_fd.util_wait 7 busy_world =
      (-FI_EINVAL, busy_wait_fd.util_wait, busy_world) ∧
    ofi_wait_del_fd sample_env busy_wait_fd 6 busy_world =
      (-FI_EINVAL, busy_wait_fd, busy_world) :=
  del_unregistered sample_env busy_wait_fd.util_wait busy_wait_fd 7 6 busy_world
    (by decide) (by decide)

/-! ## Failed registration -/

theorem mux_add_trace {S : Type} (env : Env S) (wait_obj : fi_wait_obj) (fd : Int)
    (events ctx : Nat) (w : World S) :
    (mux_add env wait_obj fd events ctx w).2.trace =
      w.trace ++ [ev_mux_add wait_obj fd events ctx (mux_add env wait_obj fd events ctx w).1] := by
  unfold mux_add ev_mux_add
  split <;> rfl

theorem mux_del_trace {S : Type} (env : Env S) (wait_obj : fi_wait_obj) (fd : Int)
    (w : World S) :
    (mux_del env wait_obj fd w).2.trace =
      w.trace ++ [ev_mux_del wait_obj fd (mux_del env wait_obj fd w).1] := by
  unfold mux_del ev_mux_del
  split <;> rfl

/-- C12. On a descriptor-backed wait object, when the multiplexer refuses the
registration of a key that has no entry yet, `ofi_wait_add_fid` and
`ofi_wait_add_fd` return the multiplexer's code and leave the wait object
(`fid_list`, `fd_list`, refcounts, change counter) exactly as it was; the
only multiplexer call they make is that one refused add. -/
theorem add_refused_rolls_back {S : Type} (env : Env S) (wait : util_wait_fd) (w : World S)
    (fid events wait_try : Nat) (fd : Int) (fd_events fd_try arg context : Nat)
    (hk : wait.util_wait.wait_obj = FI_WAIT_FD ∨ wait.util_wait.wait_obj = FI_WAIT_POLLFD)
    (hfid : ∀ e ∈ wait.util_wait.fid_list, e.fid ≠ fid)
    (hfd : ∀ e ∈ wait.fd_list, e.fd ≠ fd)
    (hcalloc : (env.calloc w.st).1 = true)
    (hget : (env.fi_control_getwait fid (env.calloc w.st).2).1 = 0)
    (hfail_fid : (mux_add env wait.util_wait.wait_obj
        (env.fi_control_getwait fid (env.calloc w.st).2).2.1 events (env.fid_context fid)
        { w with st := (env.fi_control_getwait fid (env.calloc w.st).2).2.2 }).1 ≠ 0)
    (hfail_fd : (mux_add env wait.util_wait.wait_obj fd fd_events context w).1 ≠ 0) :
    ofi_wait_add_fid env wait.util_wait fid events wait_try w =
      ((mux_add env wait.util_wait.wait_obj
          (env.fi_control_getwait fid (env.calloc w.st).2).2.1 events (env.fid_context fid)
          { w with st := (env.fi_control_getwait fid (env.calloc w.st).2).2.2 }).1,
        wait.util_wait,
        (mux_add env wait.util_wait.wait_obj
          (env.fi_control_getwait fid (env.calloc w.st).2).2.1 events (env.fid_context fid)
          { w with st := (env.fi_control_getwait fid (env.calloc w.st).2).2.2 }).2) ∧
    (ofi_wait_add_fid env wait.util_wait fid events wait_try w).2.2.trace =
      w.trace ++ [ev_mux_add wait.util_wait.wait_obj
        (env.fi_control_getwait fid (env.calloc w.st).2).2.1 events (env.fid_context fid)
        (ofi_wait_add_fid env wait.util_wait fid events wait_try w).1] ∧
    ofi_wait_add_fd env wait fd fd_events fd_try arg context w =
      ((mux_add env wait.util_wait.wait_obj fd fd_events context w).1, wait,
        (mux_add env wait.util_wait.wait_obj fd fd_events context w).2) ∧
    (ofi_wait_add_fd env wait fd fd_events fd_try arg context w).2.2.trace =
      w.trace ++ [ev_mux_add wait.util_wait.wait_obj fd fd_events context
        (ofi_wait_add_fd env wait fd fd_events fd_try arg context w).1] := by
  have hfind : dlist_find_first_match (ofi_wait_match_fid fid) wait.util_wait.fid_list =
      none := by
    apply find_none_of_no_match
    intro x hx
    simpa [ofi_wait_match_fid] using hfid x hx
  have hfindfd : dlist_find_first_match (ofi_wait_match_fd fd) wait.fd_list = none := by
    apply find_none_of_no_match
    intro x hx
    simpa [ofi_wait_match_fd] using hfd x hx
  have hfds : ofi_wait_add_fds env wait.util_wait
      { fid := fid, wait_try := wait_try, events := events, ref := 1 }
      { w with st := (env.calloc w.st).2 } =
      mux_add env wait.util_wait.wait_obj
        (env.fi_control_getwait fid (env.calloc w.st).2).2.1 events (env.fid_context fid)
        { w with st := (env.fi_control_getwait fid (env.calloc w.st).2).2.2 } := by
    unfold ofi_wait_add_fds
    simp [hget]
  have h1 : ofi_wait_add_fid env wait.util_wait fid events wait_try w =
      ((mux_add env wait.util_wait.wait_obj
          (env.fi_control_getwait fid (env.calloc w.st).2).2.1 events (env.fid_context fid)
          { w with st := (env.fi_control_getwait fid (env.calloc w.st).2).2.2 }).1,
        wait.util_wait,
        (mux_add env wait.util_wait.wait_obj
          (env.fi_control_getwait fid (env.calloc w.st).2).2.1 events (env.fid_context fid)
          { w with st := (env.fi_control_getwait fid (env.calloc w.st).2).2.2 }).2) := by
    rw [add_fid_new_fd env wait.util_wait fid events wait_try w hfind hcalloc hk, hfds,
      if_pos hfail_fid]
  have h2 : ofi_wait_add_fd env wait fd fd_events fd_try arg context w =
      ((mux_add env wait.util_wait.wait_obj fd fd_events context w).1, wait,
        (mux_add env wait.util_wait.wait_obj fd fd_events context w).2) := by
    unfold ofi_wait_add_fd
    rw [hfindfd]
    simp only []
    rw [if_pos hfail_fd]
  refine ⟨h1, ?_, h2, ?_⟩
  · rw [h1]
    exact mux_add_trace _ _ _ _ _ _
  · rw [h2]
    exact mux_add_trace _ _ _ _ _ _

/-- Witness for C12: fid 7 and descriptor 6 on `busy_wait_fd` with a multiplexer
that refuses every add. -/
theorem add_refused_rolls_back_witness :
    ofi_wait_add_fid add_failing_env busy_wait_fd.util_wait 7 1 0 busy_world =
      (-FI_ENOMEM, busy_wait_fd.util_wait,
        { st := [4, 5, 103], trace := [Event.epoll_add 107 1 7 (-FI_ENOMEM)] }) ∧
    ofi_wait_add_fd add_failing_env busy_wait_fd 6 1 0 0 0 busy_world =
      (-FI_ENOMEM, busy_wait_fd,
        { st := [4, 5, 103], trace := [Event.epoll_add 6 1 0 (-FI_ENOMEM)] }) :=
  ⟨(add_refused_rolls_back add_failing_env busy_wait_fd busy_world 7 1 0 6 1 0 0 0
      (Or.inl rfl) (by decide) (by decide) rfl rfl (by decide) (by decide)).1,
   (add_refused_rolls_back add_failing_env busy_wait_fd busy_world 7 1 0 6 1 0 0 0
      (Or.inl rfl) (by decide) (by decide) rfl rfl (by decide) (by decide)).2.2.1⟩

/-! ## Failed deregistration -/

theorem fid_entry_inc_dec (e : ofi_wait_fid_entry) (h : e.ref ≠ INT32_MAX + 1) :
    fid_entry_inc (fid_entry_dec e) = e := by
  cases e
  simp only [fid_entry_inc, fid_entry_dec] at h ⊢
  rw [inc32_dec32 _ h]

/-- Decrementing and re-incrementing the entry found gives back the list (the
entry's refcount being a value of an `int32_t`). -/
theorem update_inc_dec (fid : Nat) (l : List ofi_wait_fid_entry)
    (h : ∀ e, dlist_find_first_match (ofi_wait_match_fid fid) l = some e →
      e.ref ≠ INT32_MAX + 1) :
    update_first_match (ofi_wait_match_fid fid) fid_entry_inc
      (update_first_match (ofi_wait_match_fid fid) fid_entry_dec l) = l := by
  induction l with
  | nil => rfl
  | cons x xs ih =>
    by_cases hx : ofi_wait_match_fid fid x = true
    · have hd : ofi_wait_match_fid fid (fid_entry_dec x) = true := by
        simpa [ofi_wait_match_fid, fid_entry_dec] using hx
      have hxr : x.ref ≠ INT32_MAX + 1 :=
        h x (by simp [dlist_find_first_match, List.find?, hx])
      simp [update_first_match, hx, hd, fid_entry_inc_dec x hxr]
    · have hrec := ih (fun e he => h e (by
        simpa [dlist_find_first_match, List.find?, hx] using he))
      simp [update_first_match, hx, hrec]

theorem del_fds_reads_fid {S : Type} (env : Env S) (wait : util_wait)
    (e1 e2 : ofi_wait_fid_entry) (w : World S) (h : e1.fid = e2.fid) :
    ofi_wait_del_fds env wait e1 w = ofi_wait_del_fds env wait e2 w := by
  unfold ofi_wait_del_fds
  rw [h]

/-- C13. On a descriptor-backed wait object, when `ofi_wait_del_fid` is called
for a fid whose entry has refcount 1 and resolving or deregistering its
descriptor fails (`ofi_wait_del_fds` returns a non-zero code), the call
returns that code and the wait object is exactly as before: the entry is
still in `fid_list`, at its position, with refcount 1. -/
theorem del_fid_failure_restores {S : Type} (env : Env S) (wait : util_wait) (fid : Nat)
    (w : World S) (e : ofi_wait_fid_entry)
    (hk : wait.wait_obj = FI_WAIT_FD ∨ wait.wait_obj = FI_WAIT_POLLFD)
    (hfind : dlist_find_first_match (ofi_wait_match_fid fid) wait.fid_list = some e)
    (href : e.ref = 1)
    (hfail : (ofi_wait_del_fds env wait e w).1 ≠ 0) :
    ofi_wait_del_fid env wait fid w =
      ((ofi_wait_del_fds env wait e w).1, wait, (ofi_wait_del_fds env wait e w).2) ∧
    dlist_find_first_match (ofi_wait_match_fid fid)
      (ofi_wait_del_fid env wait fid w).2.1.fid_list = some e := by
  have hdec : ofi_wait_del_fds env wait (fid_entry_dec e) w = ofi_wait_del_fds env wait e w :=
    del_fds_reads_fid env wait _ _ w rfl
  have h1 : ofi_wait_del_fid env wait fid w =
      ((ofi_wait_del_fds env wait e w).1, wait, (ofi_wait_del_fds env wait e w).2) := by
    rw [del_fid_last_fd env wait fid w e hfind (by rw [href]; rfl) hk, hdec, if_pos hfail,
      update_inc_dec fid wait.fid_list (fun e2 he2 => by
        rw [hfind] at he2
        cases he2
        rw [href]
        decide)]
  refine ⟨h1, ?_⟩
  rw [h1]
  exact hfind

/-- Witness for C13: fid 3 (refcount 1) on the wait object of `busy_wait_fd`
with a multiplexer that refuses every delete. -/
theorem del_fid_failure_restores_witness :
    ofi_wait_del_fid del_failing_env busy_wait_fd.util_wait 3 busy_world =
      (-FI_EINVAL, busy_wait_fd.util_wait,
        { st := [4, 5, 103], trace := [Event.epoll_del 103 (-FI_EINVAL)] }) :=
  (del_fid_failure_restores del_failing_env busy_wait_fd.util_wait 3 busy_world
    { fid := 3, wait_try := 0, events := 1, ref := 1 } (Or.inl rfl) rfl rfl (by decide)).1

/-- C14, evaluated on `busy_wait_fd`, whose descriptor 5 has refcount 1, with a
multiplexer that refuses the delete and keeps the descriptor:
`ofi_wait_del_fd` returns 0, the entry of descriptor 5 is gone from `fd_list`
and the change counter went from 1 to 2, while the multiplexer still holds
descriptor 5. -/
theorem del_fd_ignores_failure :
    ofi_wait_del_fd del_failing_env busy_wait_fd 5 busy_world =
      (0, { busy_wait_fd with fd_list := [], change_index := 2 },
        { st := [4, 5, 103], trace := [Event.epoll_del 5 (-FI_EINVAL)] }) ∧
    busy_wait_fd.fd_list = [{ fd := 5, wait_try := 0, arg := 9, ref := 1 }] ∧
    busy_wait_fd.change_index = 1 := by
  decide

/-- The function `ofi_wait_del_fd` on the last reference of a descriptor
unlinks the entry, bumps the change counter and returns 0 whatever the
multiplexer's delete returns. -/
theorem del_fd_last {S : Type} (env : Env S) (wait : util_wait_fd) (fd : Int) (w : World S)
    (e : ofi_wait_fd_entry)
    (hfind : dlist_find_first_match (ofi_wait_match_fd fd) wait.fd_list = some e)
    (href : e.ref - 1 = 0) :
    ofi_wait_del_fd env wait fd w =
      (0, { wait with
            fd_list := (remove_first_match (ofi_wait_match_fd fd)
              (update_first_match (ofi_wait_match_fd fd) fd_entry_dec wait.fd_list)),
            change_index := wait.change_index + 1 },
        (mux_del env wait.util_wait.wait_obj e.fd w).2) := by
  have hd : (fd_entry_dec e).ref = 0 := by
    have h1 : e.ref = 1 := by omega
    exact (dec32_eq_zero_iff e.ref).mpr h1
  unfold ofi_wait_del_fd
  rw [hfind]
  simp [hd]

/-! ## Attribute checks -/

/-- C15. `ofi_check_wait_attr` returns 0 exactly when `wait_obj` is one of
`FI_WAIT_UNSPEC`, `FI_WAIT_FD`, `FI_WAIT_POLLFD`, `FI_WAIT_MUTEX_COND`,
`FI_WAIT_YIELD` and `flags` is 0, and `-FI_EINVAL` in every other case. -/
theorem check_wait_attr_spec (attr : fi_wait_attr) :
    (ofi_check_wait_attr attr = 0 ↔
      ((attr.wait_obj = FI_WAIT_UNSPEC ∨ attr.wait_obj = FI_WAIT_FD ∨
        attr.wait_obj = FI_WAIT_POLLFD ∨ attr.wait_obj = FI_WAIT_MUTEX_COND ∨
        attr.wait_obj = FI_WAIT_YIELD) ∧ attr.flags = 0)) ∧
    ofi_check_wait_attr attr =
      (if (attr.wait_obj = FI_WAIT_UNSPEC ∨ attr.wait_obj = FI_WAIT_FD ∨
          attr.wait_obj = FI_WAIT_POLLFD ∨ attr.wait_obj = FI_WAIT_MUTEX_COND ∨
          attr.wait_obj = FI_WAIT_YIELD) ∧ attr.flags = 0 then 0 else -FI_EINVAL) := by
  rcases attr with ⟨obj, flags⟩
  by_cases hf : flags = 0
  · cases obj <;> simp [ofi_check_wait_attr, hf, FI_EINVAL]
  · cases obj <;> simp [ofi_check_wait_attr, hf, FI_EINVAL]

/-! ## Constructors: kind and fabric reference count -/

/-- The function `ofi_wait_init`: on success the kind stored is the one asked
for, `FI_WAIT_FD` standing in for `FI_WAIT_UNSPEC`, the object's own
reference count is 0, its fid registry is empty and the fabric has one
reference more; on failure the fabric is untouched. -/
theorem wait_init_spec {S : Type} (oenv : OpenEnv S) (fabric : util_fabric)
    (attr : fi_wait_attr) (wait : util_wait) (w : World S) :
    ((ofi_wait_init oenv fabric attr wait w).1 = 0 →
      (ofi_wait_init oenv fabric attr wait w).2.1.wait_obj =
        (if attr.wait_obj = FI_WAIT_UNSPEC then FI_WAIT_FD else attr.wait_obj) ∧
      (ofi_wait_init oenv fabric attr wait w).2.1.wait_obj ≠ FI_WAIT_UNSPEC ∧
      (ofi_wait_init oenv fabric attr wait w).2.1.ref = 0 ∧
      (ofi_wait_init oenv fabric attr wait w).2.1.fid_list = [] ∧
      (ofi_wait_init oenv fabric attr wait w).2.2.1.ref = fabric.ref + 1) ∧
    ((ofi_wait_init oenv fabric attr wait w).1 ≠ 0 →
      (ofi_wait_init oenv fabric attr wait w).2.2.1 = fabric) := by
  rcases attr with ⟨obj, flags⟩
  by_cases hp : (oenv.fi_poll_create w.st).1 = 0
  · cases obj <;> simp [ofi_wait_init, hp, FI_EINVAL]
  · cases obj <;> simp [ofi_wait_init, hp, FI_EINVAL]

theorem verify_fd_attr_ok (attr : fi_wait_attr) (h : util_verify_wait_fd_attr attr = 0) :
    attr.wait_obj = FI_WAIT_UNSPEC ∨ attr.wait_obj = FI_WAIT_FD ∨
      attr.wait_obj = FI_WAIT_POLLFD := by
  rcases attr with ⟨obj, flags⟩
  by_cases hf : flags = 0
  · cases obj <;>
      simp [util_verify_wait_fd_attr, ofi_check_wait_attr, hf, FI_EINVAL] at h ⊢
  · cases obj <;>
      simp [util_verify_wait_fd_attr, ofi_check_wait_attr, hf, FI_EINVAL] at h ⊢

/-- A successful `ofi_wait_fd_open` hands out the wait object that
`ofi_wait_init` filled in, its `wait_try` set to `util_wait_fd_try`, with the
fabric as `ofi_wait_init` left it. -/
theorem fd_open_success {S : Type} (env : Env S) (oenv : OpenEnv S) (fabric : util_fabric)
    (attr : fi_wait_attr) (w : World S) (h : (ofi_wait_fd_open env oenv fabric attr w).1 = 0) :
    util_verify_wait_fd_attr attr = 0 ∧
    (ofi_wait_init oenv fabric attr zeroed_util_wait
      { w with st := (env.calloc w.st).2 }).1 = 0 ∧
    (ofi_wait_fd_open env oenv fabric attr w).2.1 =
      some { util_wait :=
               { (ofi_wait_init oenv fabric attr zeroed_util_wait
                   { w with st := (env.calloc w.st).2 }).2.1 with
                 wait_try := some oenv.util_wait_fd_try },
             fd_list := [], change_index := 0 } ∧
    (ofi_wait_fd_open env oenv fabric attr w).2.2.1 =
      (ofi_wait_init oenv fabric attr zeroed_util_wait
        { w with st := (env.calloc w.st).2 }).2.2.1 := by
  unfold ofi_wait_fd_open at h ⊢
  simp only [] at h ⊢
  by_cases h1 : util_verify_wait_fd_attr attr ≠ 0
  · rw [if_pos h1] at h
    exact absurd h h1
  rw [if_neg h1] at h ⊢
  by_cases h2 : (env.calloc w.st).1 = false
  · rw [if_pos h2] at h
    simp [FI_ENOMEM] at h
  rw [if_neg h2] at h ⊢
  by_cases h3 : (ofi_wait_init oenv fabric attr zeroed_util_wait
      { w with st := (env.calloc w.st).2 }).1 ≠ 0
  · rw [if_pos h3] at h
    exact absurd h h3
  rw [if_neg h3] at h ⊢
  refine ⟨not_not.mp h1, not_not.mp h3, ?_, ?_⟩
  · split_ifs at h ⊢ <;> first | rfl | exact absurd h (by assumption)
  · split_ifs at h ⊢ <;> first | rfl | exact absurd h (by assumption)

/-- A successful `ofi_wait_yield_open` hands out the wait object that
`ofi_wait_init` filled in for the kind `FI_WAIT_YIELD`. -/
theorem yield_open_success {S : Type} (env : Env S) (oenv : OpenEnv S) (fabric : util_fabric)
    (attr : fi_wait_attr) (w : World S)
    (h : (ofi_wait_yield_open env oenv fabric attr w).1 = 0) :
    (ofi_wait_init oenv fabric { attr with wait_obj := FI_WAIT_YIELD } zeroed_util_wait
      { w with st := (env.calloc w.st).2 }).1 = 0 ∧
    (ofi_wait_yield_open env oenv fabric attr w).2.1 =
      some { util_wait := (ofi_wait_init oenv fabric { attr with wait_obj := FI_WAIT_YIELD }
               zeroed_util_wait { w with st := (env.calloc w.st).2 }).2.1,
             signal := 0 } ∧
    (ofi_wait_yield_open env oenv fabric attr w).2.2.2.1 =
      (ofi_wait_init oenv fabric { attr with wait_obj := FI_WAIT_YIELD } zeroed_util_wait
        { w with st := (env.calloc w.st).2 }).2.2.1 := by
  unfold ofi_wait_yield_open at h ⊢
  simp only [] at h ⊢
  by_cases h1 : util_verify_wait_yield_attr attr ≠ 0
  · rw [if_pos h1] at h
    exact absurd h h1
  rw [if_neg h1] at h ⊢
  by_cases h2 : (env.calloc w.st).1 = false
  · rw [if_pos h2] at h
    simp [FI_ENOMEM] at h
  rw [if_neg h2] at h ⊢
  by_cases h3 : (ofi_wait_init oenv fabric { attr with wait_obj := FI_WAIT_YIELD }
      zeroed_util_wait { w with st := (env.calloc w.st).2 }).1 ≠ 0
  · rw [if_pos h3] at h
    exact absurd h h3
  rw [if_neg h3] at h ⊢
  exact ⟨not_not.mp h3, rfl, rfl⟩

/-- C16. A created wait object's kind is never `FI_WAIT_UNSPEC`: when
`ofi_wait_init` returns 0 the kind stored is `FI_WAIT_FD` if `FI_WAIT_UNSPEC`
was asked for and the kind asked for otherwise; a wait object that
`ofi_wait_fd_open` hands out has kind `FI_WAIT_FD` or `FI_WAIT_POLLFD`, and
one that `ofi_wait_yield_open` hands out has kind `FI_WAIT_YIELD`, whatever
kind the attributes named. -/
theorem created_kind {S : Type} (env : Env S) (oenv : OpenEnv S) (fabric : util_fabric)
    (attr : fi_wait_attr) (wait : util_wait) (w : World S) :
    ((ofi_wait_init oenv fabric attr wait w).1 = 0 →
      (ofi_wait_init oenv fabric attr wait w).2.1.wait_obj =
        (if attr.wait_obj = FI_WAIT_UNSPEC then FI_WAIT_FD else attr.wait_obj) ∧
      (ofi_wait_init oenv fabric attr wait w).2.1.wait_obj ≠ FI_WAIT_UNSPEC) ∧
    ((ofi_wait_fd_open env oenv fabric attr w).1 = 0 →
      ∃ wfd, (ofi_wait_fd_open env oenv fabric attr w).2.1 = some wfd ∧
        (wfd.util_wait.wait_obj = FI_WAIT_FD ∨ wfd.util_wait.wait_obj = FI_WAIT_POLLFD)) ∧
    ((ofi_wait_yield_open env oenv fabric attr w).1 = 0 →
      ∃ wy, (ofi_wait_yield_open env oenv fabric attr w).2.1 = some wy ∧
        wy.util_wait.wait_obj = FI_WAIT_YIELD) := by
  refine ⟨?_, ?_, ?_⟩
  · intro h
    have := (wait_init_spec oenv fabric attr wait w).1 h
    exact ⟨this.1, this.2.1⟩
  · intro h
    obtain ⟨hv, hi, ho, _⟩ := fd_open_success env oenv fabric attr w h
    refine ⟨_, ho, ?_⟩
    have hkind := ((wait_init_spec oenv fabric attr zeroed_util_wait
      { w with st := (env.calloc w.st).2 }).1 hi).1
    simp only [hkind]
    rcases verify_fd_attr_ok attr hv with h0 | h0 | h0 <;> simp [h0]
  · intro h
    obtain ⟨hi, ho, _⟩ := yield_open_success env oenv fabric attr w h
    refine ⟨_, ho, ?_⟩
    have hkind := ((wait_init_spec oenv fabric { attr with wait_obj := FI_WAIT_YIELD }
      zeroed_util_wait { w with st := (env.calloc w.st).2 }).1 hi).1
    simp only [hkind]
    simp

/-- Witness for C16: `FI_WAIT_UNSPEC` asked for under the sample environments. -/
theorem created_kind_witness :
    (ofi_wait_init sample_open_env { ref := 1 } { wait_obj := FI_WAIT_UNSPEC, flags := 0 }
      zeroed_util_wait sample_world).2.1.wait_obj = FI_WAIT_FD ∧
    (∃ wfd, (ofi_wait_fd_open sample_env sample_open_env { ref := 1 }
        { wait_obj := FI_WAIT_UNSPEC, flags := 0 } sample_world).2.1 = some wfd ∧
      (wfd.util_wait.wait_obj = FI_WAIT_FD ∨ wfd.util_wait.wait_obj = FI_WAIT_POLLFD)) ∧
    (∃ wy, (ofi_wait_yield_open sample_env sample_open_env { ref := 1 }
        { wait_obj := FI_WAIT_UNSPEC, flags := 0 } sample_world).2.1 = some wy ∧
      wy.util_wait.wait_obj = FI_WAIT_YIELD) :=
  ⟨((created_kind sample_env sample_open_env { ref := 1 }
      { wait_obj := FI_WAIT_UNSPEC, flags := 0 } zeroed_util_wait sample_world).1 rfl).1,
   (created_kind sample_env sample_open_env { ref := 1 }
      { wait_obj := FI_WAIT_UNSPEC, flags := 0 } zeroed_util_wait sample_world).2.1 rfl,
   (created_kind sample_env sample_open_env { ref := 1 }
      { wait_obj := FI_WAIT_UNSPEC, flags := 0 } zeroed_util_wait sample_world).2.2 rfl⟩

/-- The `switch` of `ofi_trywait` selects the wait object that belongs to the
fid by its class, and takes the `default:` case exactly for a fid of any other
class. -/
theorem trywait_select_spec (objs : fid_objects) (f : struct_fid) :
    (∀ wait, ofi_trywait_select objs f = some wait ↔ wait_of_class objs f wait) ∧
    (ofi_trywait_select objs f = none ↔ ¬ known_class f) := by
  rcases f with ⟨c, a⟩
  cases c <;> simp [ofi_trywait_select, wait_of_class, known_class, eq_comm]

/-- The loop of `ofi_trywait` has four outcomes. Every fid has one of the four
classes, the wait object of every fid was tried with return code 0, in list
order, and the loop returns 0. Or the wait objects of the fids before some fid
`f` were tried with return code 0, the wait object of `f` was tried with a
return code other than 0, the loop returns that code and the try is the last
entry of the log. Or the wait objects of the fids before `f` were tried with
return code 0, `f` has another class, and the loop returns `-FI_EINVAL` with no
further entry in the log. Or the wait objects of the fids before `f` were tried
with return code 0, the wait object of `f` holds a `NULL` `wait_try`, and the
call through it has no result. -/
theorem trywait_loop_spec {S : Type} (env : Env S) (objs : fid_objects) :
    ∀ (l : List struct_fid) (w : World S),
      (∃ evs w1, ofi_trywait_loop env objs l w = some (0, w1) ∧
        List.Forall₂ (is_try_of objs 0) l evs ∧ w1.trace = w.trace ++ evs) ∨
      (∃ pre f post evs wait func ret w1, l = pre ++ f :: post ∧
        List.Forall₂ (is_try_of objs 0) pre evs ∧
        wait_of_class objs f wait ∧ (objs.wait_at wait).wait_try = some func ∧ ret ≠ 0 ∧
        ofi_trywait_loop env objs l w = some (ret, w1) ∧
        w1.trace = w.trace ++ evs ++ [Event.wait_try func wait ret]) ∨
      (∃ pre f post evs w1, l = pre ++ f :: post ∧
        List.Forall₂ (is_try_of objs 0) pre evs ∧ ¬ known_class f ∧
        ofi_trywait_loop env objs l w = some (-FI_EINVAL, w1) ∧
        w1.trace = w.trace ++ evs) ∨
      (∃ pre f post evs wait, l = pre ++ f :: post ∧
        List.Forall₂ (is_try_of objs 0) pre evs ∧
        wait_of_class objs f wait ∧ (objs.wait_at wait).wait_try = none ∧
        ofi_trywait_loop env objs l w = none) := by
  intro l
  induction l with
  | nil =>
    intro w
    exact Or.inl ⟨[], w, rfl, List.Forall₂.nil, by simp⟩
  | cons f fs ih =>
    intro w
    cases hsel : ofi_trywait_select objs f with
    | none =>
      refine Or.inr (Or.inr (Or.inl ⟨[], f, fs, [], w, rfl, List.Forall₂.nil,
        (trywait_select_spec objs f).2.mp hsel, ?_, by simp⟩))
      simp [ofi_trywait_loop, hsel]
    | some wait =>
      have hcls : wait_of_class objs f wait := ((trywait_select_spec objs f).1 wait).mp hsel
      cases hfun : (objs.wait_at wait).wait_try with
      | none =>
        refine Or.inr (Or.inr (Or.inr ⟨[], f, fs, [], wait, rfl, List.Forall₂.nil, hcls, hfun, ?_⟩))
        simp [ofi_trywait_loop, hsel, hfun]
      | some func =>
        by_cases hr : (env.wait_try func wait w.st).1 = 0
        · have hstep : ofi_trywait_loop env objs (f :: fs) w =
              ofi_trywait_loop env objs fs
                { st := (env.wait_try func wait w.st).2,
                  trace := w.trace ++ [Event.wait_try func wait 0] } := by
            simp [ofi_trywait_loop, hsel, hfun, call_wait_try, hr]
          have hev : is_try_of objs 0 f (Event.wait_try func wait 0) :=
            ⟨wait, func, hcls, hfun, rfl⟩
          rw [hstep]
          rcases ih { st := (env.wait_try func wait w.st).2,
                      trace := w.trace ++ [Event.wait_try func wait 0] } with
            ⟨evs, w1, h1, h2, h3⟩ | ⟨pre, g, post, evs, wt, fn, ret, w1, h1, h2, h3, h4, h5, h6, h7⟩ |
            ⟨pre, g, post, evs, w1, h1, h2, h3, h4, h5⟩ | ⟨pre, g, post, evs, wt, h1, h2, h3, h4, h5⟩
          · exact Or.inl ⟨_ :: evs, w1, h1, List.Forall₂.cons hev h2, by simp [h3]⟩
          · exact Or.inr (Or.inl ⟨f :: pre, g, post, _ :: evs, wt, fn, ret, w1, by simp [h1],
              List.Forall₂.cons hev h2, h3, h4, h5, h6, by simp [h7]⟩)
          · exact Or.inr (Or.inr (Or.inl ⟨f :: pre, g, post, _ :: evs, w1, by simp [h1],
              List.Forall₂.cons hev h2, h3, h4, by simp [h5]⟩))
          · exact Or.inr (Or.inr (Or.inr ⟨f :: pre, g, post, _ :: evs, wt, by simp [h1],
              List.Forall₂.cons hev h2, h3, h4, h5⟩))
        · refine Or.inr (Or.inl ⟨[], f, fs, [], wait, func, (env.wait_try func wait w.st).1,
            (call_wait_try env func wait w).2, rfl, List.Forall₂.nil, hcls, hfun, hr, ?_, ?_⟩)
          · simp [ofi_trywait_loop, hsel, hfun, call_wait_try, hr]
          · simp [call_wait_try]

/-- The four outcomes of `trywait_loop_spec` for `ofi_trywait` itself, on the
fids `fids[0 .. count - 1]`. -/
theorem trywait_spec {S : Type} (env : Env S) (objs : fid_objects) (fids : List struct_fid)
    (count : Int) (w : World S) :
    (∃ evs w1, ofi_trywait env objs fids count w = some (0, w1) ∧
      List.Forall₂ (is_try_of objs 0) (fids.take count.toNat) evs ∧
      w1.trace = w.trace ++ evs) ∨
    (∃ pre f post evs wait func ret w1, fids.take count.toNat = pre ++ f :: post ∧
      List.Forall₂ (is_try_of objs 0) pre evs ∧
      wait_of_class objs f wait ∧ (objs.wait_at wait).wait_try = some func ∧ ret ≠ 0 ∧
      ofi_trywait env objs fids count w = some (ret, w1) ∧
      w1.trace = w.trace ++ evs ++ [Event.wait_try func wait ret]) ∨
    (∃ pre f post evs w1, fids.take count.toNat = pre ++ f :: post ∧
      List.Forall₂ (is_try_of objs 0) pre evs ∧ ¬ known_class f ∧
      ofi_trywait env objs fids count w = some (-FI_EINVAL, w1) ∧
      w1.trace = w.trace ++ evs) ∨
    (∃ pre f post evs wait, fids.take count.toNat = pre ++ f :: post ∧
      List.Forall₂ (is_try_of objs 0) pre evs ∧
      wait_of_class objs f wait ∧ (objs.wait_at wait).wait_try = none ∧
      ofi_trywait env objs fids count w = none) :=
  trywait_loop_spec env objs (fids.take count.toNat) w

/-- When every wait object holds a `wait_try`, `ofi_trywait` returns. -/
theorem trywait_returns {S : Type} (env : Env S) (objs : fid_objects) (fids : List struct_fid)
    (count : Int) (w : World S) (hset : ∀ wait, (objs.wait_at wait).wait_try ≠ none) :
    ∃ r, ofi_trywait env objs fids count w = some r := by
  rcases trywait_spec env objs fids count w with
    ⟨_, w1, h, _⟩ | ⟨_, _, _, _, _, _, ret, w1, _, _, _, _, _, h, _⟩ |
    ⟨_, _, _, _, w1, _, _, _, h, _⟩ | ⟨_, _, _, _, wait, _, _, _, hnone, _⟩
  · exact ⟨_, h⟩
  · exact ⟨_, h⟩
  · exact ⟨_, h⟩
  · exact absurd hnone (hset wait)

/-- Four runs of `ofi_trywait` under `sample_env` and `sample_objs`: a counter
and a wait fid whose tries return 0 give 0; a queue whose wait object is not
ready stops the loop with `-FI_EAGAIN` before the next fid is tried; a fid
of another class stops it with `-FI_EINVAL` untried, and `count = 1` keeps
the loop from reaching it. -/
theorem trywait_examples :
    ofi_trywait sample_env sample_objs
        [{ fclass := fi_class.FI_CLASS_CNTR, addr := 2 },
         { fclass := fi_class.FI_CLASS_WAIT, addr := 6 }] 2 sample_world =
      some (0, { st := [4], trace := [Event.wait_try 0 3 0, Event.wait_try 0 6 0] }) ∧
    ofi_trywait sample_env sample_objs
        [{ fclass := fi_class.FI_CLASS_CQ, addr := 3 },
         { fclass := fi_class.FI_CLASS_WAIT, addr := 6 }] 2 sample_world =
      some (-FI_EAGAIN, { st := [4], trace := [Event.wait_try 1 4 (-FI_EAGAIN)] }) ∧
    ofi_trywait sample_env sample_objs
        [{ fclass := fi_class.FI_CLASS_EQ, addr := 5 },
         { fclass := fi_class.other 1, addr := 7 },
         { fclass := fi_class.FI_CLASS_WAIT, addr := 6 }] 3 sample_world =
      some (-FI_EINVAL, { st := [4], trace := [Event.wait_try 0 6 0] }) ∧
    ofi_trywait sample_env sample_objs
        [{ fclass := fi_class.FI_CLASS_EQ, addr := 5 },
         { fclass := fi_class.other 1, addr := 7 }] 1 sample_world =
      some (0, { st := [4], trace := [Event.wait_try 0 6 0] }) := by
  decide

/-- C18, evaluated at the wait object that `ofi_wait_yield_open` hands out.
The claim has `ofi_trywait` try every fid through the wait object of its class
and return a code. `ofi_wait_yield_open` succeeds and hands out a wait object
whose `wait_try` is still `NULL`; `ofi_trywait` on the fid of that wait object,
or on a completion queue that waits on it, selects the wait object and calls
through the `NULL` pointer: there is no return code and no try. The sibling
`ofi_wait_fd_open` sets `wait_try` to `util_wait_fd_try`, and `ofi_trywait` on
the fid of its wait object tries it once and returns the result of the try. -/
theorem trywait_yield_null_call :
    ofi_wait_yield_open sample_env sample_open_env { ref := 1 }
        { wait_obj := FI_WAIT_YIELD, flags := 0 } sample_world =
      (0, some fresh_wait_yield, { wait_obj := FI_WAIT_YIELD, flags := 0 }, { ref := 2 },
        sample_world) ∧
    fresh_wait_yield.util_wait.wait_try = none ∧
    ofi_trywait sample_env (objs_of fresh_wait_yield.util_wait)
        [{ fclass := fi_class.FI_CLASS_WAIT, addr := 40 }] 1 sample_world = none ∧
    ofi_trywait sample_env (objs_of fresh_wait_yield.util_wait)
        [{ fclass := fi_class.FI_CLASS_CQ, addr := 8 }] 1 sample_world = none ∧
    ofi_wait_fd_open sample_env sample_open_env { ref := 1 }
        { wait_obj := FI_WAIT_FD, flags := 0 } sample_world =
      (0, some fresh_wait_fd, { ref := 2 }, fresh_world) ∧
    fresh_wait_fd.util_wait.wait_try = some sample_open_env.util_wait_fd_try ∧
    ofi_trywait sample_env (objs_of fresh_wait_fd.util_wait)
        [{ fclass := fi_class.FI_CLASS_WAIT, addr := 40 }] 1 fresh_world =
      some (0, { st := [4, 4], trace := [Event.epoll_add 4 1 40 0, Event.wait_try 0 40 0] }) := by
  decide

/-! ## Hints that `psmx_getinfo` rejects -/

theorem strncmp_psm_of_not_starts (name : String) (h : ¬ starts_with_psm name) :
    strncmp_psm name = true := by
  unfold strncmp_psm
  have hpsm : "psm".data = ['p', 's', 'm'] := rfl
  rw [hpsm]
  rw [bne_iff_ne]
  intro htake
  apply h
  unfold starts_with_psm
  rcases hd : name.data with _ | ⟨a, _ | ⟨b, _ | ⟨c, rest⟩⟩⟩
  · rw [hd] at htake
    simp at htake
  · rw [hd] at htake
    simp at htake
  · rw [hd] at htake
    simp at htake
  · rw [hd] at htake
    simp only [List.take_succ_cons, List.take_zero, List.cons.injEq, and_true] at htake
    obtain ⟨rfl, rfl, rfl⟩ := htake
    exact ⟨rest, rfl⟩

theorem getinfo_of_rejected (c : psmx_consts) (env : psmx_env_t) (ext : psmx_ext)
    (node : Option String) (flags : Nat) (hints : fi_info)
    (h : psmx_hints_rejected c hints = true) :
    psmx_getinfo c env ext node flags (some hints) = some (-FI_ENODATA, none) := by
  unfold psmx_getinfo
  by_cases hdev : ext.psm_ep_num_devunits.1 ≠ 0 ∨ ext.psm_ep_num_devunits.2 = 0
  · simp [hdev]
  · simp [hdev, h]

/-- C19. `psmx_getinfo` returns `-FI_ENODATA` with `*info` NULL for every
hints structure that breaks one of the constraints: an endpoint type other than
`FI_EP_UNSPEC` / `FI_EP_RDM`; with `ep_attr` set, a protocol other than
`FI_PROTO_UNSPEC` / `FI_PROTO_PSMX`, `tx_ctx_cnt > 1` or `rx_ctx_cnt > 1`;
capabilities outside `PSMX_CAPS`; transmit or receive operation flags outside
`PSMX_OP_FLAGS`; a mode that lacks a bit of `PSMX_MODE`; a fabric name,
provider name or domain name that does not start with "psm". This holds
whether or not a PSM device is present. -/
theorem getinfo_rejects_hints (c : psmx_consts) (env : psmx_env_t) (ext : psmx_ext)
    (node : Option String) (flags : Nat) (hints : fi_info)
    (hviol :
      (hints.ep_type ≠ c.FI_EP_UNSPEC ∧ hints.ep_type ≠ c.FI_EP_RDM) ∨
      (∃ ep, hints.ep_attr = some ep ∧
        ((ep.protocol ≠ c.FI_PROTO_UNSPEC ∧ ep.protocol ≠ c.FI_PROTO_PSMX) ∨
          1 < ep.tx_ctx_cnt ∨ 1 < ep.rx_ctx_cnt)) ∨
      (hints.caps &&& c.PSMX_CAPS ≠ hints.caps) ∨
      (∃ tx, hints.tx_attr = some tx ∧ tx.op_flags &&& c.PSMX_OP_FLAGS ≠ tx.op_flags) ∨
      (∃ rx, hints.rx_attr = some rx ∧ rx.op_flags &&& c.PSMX_OP_FLAGS ≠ rx.op_flags) ∨
      (hints.mode &&& c.PSMX_MODE ≠ c.PSMX_MODE) ∨
      (∃ fa n, hints.fabric_attr = some fa ∧ fa.name = some n ∧ ¬ starts_with_psm n) ∨
      (∃ fa n, hints.fabric_attr = some fa ∧ fa.prov_name = some n ∧ ¬ starts_with_psm n) ∨
      (∃ da n, hints.domain_attr = some da ∧ da.name = some n ∧ ¬ starts_with_psm n)) :
    psmx_getinfo c env ext node flags (some hints) = some (-FI_ENODATA, none) := by
  apply getinfo_of_rejected
  unfold psmx_hints_rejected
  rcases hviol with ⟨h1, h2⟩ | ⟨ep, hep, h⟩ | h | ⟨tx, htx, h⟩ | ⟨rx, hrx, h⟩ | h |
    ⟨fa, n, hfa, hn, h⟩ | ⟨fa, n, hfa, hn, h⟩ | ⟨da, n, hda, hn, h⟩
  · simp [h1, h2]
  · rcases h with ⟨h1, h2⟩ | h | h
    · simp [hep, h1, h2]
    · simp [hep, h]
    · simp [hep, h]
  · simp [h]
  · simp [htx, h]
  · simp [hrx, h]
  · simp [h]
  · simp [hfa, hn, strncmp_psm_of_not_starts n h]
  · simp [hfa, hn, strncmp_psm_of_not_starts n h]
  · simp [hda, hn, strncmp_psm_of_not_starts n h]

/-- Witness for C19: hints that ask for two transmit contexts, with a PSM device
present. -/
theorem getinfo_rejects_hints_witness :
    psmx_getinfo sample_consts default_psmx_env sample_ext none 0
      (some { sample_hints sample_consts 0 0 with
              ep_attr := some { protocol := 0, max_msg_size := 0, inject_size := 0,
                                total_buffered_recv := 0, mem_tag_format := 0, msg_order := 0,
                                comp_order := 0, tx_ctx_cnt := 2, rx_ctx_cnt := 0 } }) =
      some (-FI_ENODATA, none) :=
  getinfo_rejects_hints sample_consts default_psmx_env sample_ext none 0 _
    (Or.inr (Or.inl ⟨_, rfl, Or.inr (Or.inl (by decide))⟩))

/-! ## The run loop after a wake -/

theorem mux_wait_trace {S : Type} (env : Env S) (wait_obj : fi_wait_obj) (timeout : Int)
    (w : World S) :
    (mux_wait env wait_obj timeout w).2.trace =
      w.trace ++ [ev_mux_wait wait_obj timeout (mux_wait env wait_obj timeout w).1] := by
  unfold mux_wait ev_mux_wait
  split <;> rfl

theorem adjust_timeout_trace {S : Type} (env : Env S) (endtime : Nat) (timeout : Int)
    (w : World S) : (ofi_adjust_timeout env endtime timeout w).2.2.trace = w.trace := by
  unfold ofi_adjust_timeout
  simp only []
  split_ifs <;> rfl

/-- C20, counterexample. Under `waking_env` nothing is ready on `idle_wait_fd`
and the blocking wait wakes with one event; `util_wait_fd_run` with an
infinite timeout then returns `FI_SUCCESS` at once: the log ends with the
`epoll_wait` call, no callback is tried after the wake, and the signal
channel has been reset once only, by the try step before the wait. -/
theorem fd_run_wake_counterexample :
    util_wait_fd_run waking_env 5 idle_wait_fd (-1) sample_world =
      (some FI_SUCCESS,
        { st := [4, -1],
          trace := [Event.wait_try 0 9 0, Event.wait_try 0 3 0, Event.fi_poll (-FI_EAGAIN),
                    Event.epoll_wait (-1) 1] }) := by
  decide

/-- C20, amended. In any iteration of the loop of `util_wait_fd_run`, when
the try step reports nothing ready (returns 0), the deadline has not passed
and the multiplexer's blocking wait wakes with an event (returns a positive
count), the run returns `FI_SUCCESS` at once: the world is the one the
blocking wait left (the signal channel is not reset) and the log ends with
that wait, no callback being tried after it. -/
theorem fd_run_wake_returns {S : Type} (env : Env S) (wait : util_wait_fd) (endtime fuel : Nat)
    (timeout : Int) (w : World S)
    (htry : (util_wait_fd_try env wait w).1 = 0)
    (hadj : (ofi_adjust_timeout env endtime timeout (util_wait_fd_try env wait w).2).1 = 0)
    (hwake : 0 < (mux_wait env wait.util_wait.wait_obj
      (ofi_adjust_timeout env endtime timeout (util_wait_fd_try env wait w).2).2.1
      (ofi_adjust_timeout env endtime timeout (util_wait_fd_try env wait w).2).2.2).1) :
    util_wait_fd_run_loop env wait endtime (fuel + 1) timeout w =
      (some FI_SUCCESS,
        (mux_wait env wait.util_wait.wait_obj
          (ofi_adjust_timeout env endtime timeout (util_wait_fd_try env wait w).2).2.1
          (ofi_adjust_timeout env endtime timeout (util_wait_fd_try env wait w).2).2.2).2) ∧
    (util_wait_fd_run_loop env wait endtime (fuel + 1) timeout w).2.trace =
      (util_wait_fd_try env wait w).2.trace ++
        [ev_mux_wait wait.util_wait.wait_obj
          (ofi_adjust_timeout env endtime timeout (util_wait_fd_try env wait w).2).2.1
          (mux_wait env wait.util_wait.wait_obj
            (ofi_adjust_timeout env endtime timeout (util_wait_fd_try env wait w).2).2.1
            (ofi_adjust_timeout env endtime timeout (util_wait_fd_try env wait w).2).2.2).1] := by
  have h1 : util_wait_fd_run_loop env wait endtime (fuel + 1) timeout w =
      (some FI_SUCCESS,
        (mux_wait env wait.util_wait.wait_obj
          (ofi_adjust_timeout env endtime timeout (util_wait_fd_try env wait w).2).2.1
          (ofi_adjust_timeout env endtime timeout (util_wait_fd_try env wait w).2).2.2).2) := by
    simp only [util_wait_fd_run_loop]
    rw [if_neg (not_not.mpr htry), if_neg (not_not.mpr hadj), if_pos hwake]
  refine ⟨h1, ?_⟩
  rw [h1]
  simp only []
  rw [mux_wait_trace, adjust_timeout_trace]

/-- Witness for C20: `idle_wait_fd` under `waking_env`, infinite timeout. -/
theorem fd_run_wake_returns_witness :
    util_wait_fd_run_loop waking_env idle_wait_fd 0 1 (-1) sample_world =
      (some FI_SUCCESS,
        { st := [4, -1],
          trace := [Event.wait_try 0 9 0, Event.wait_try 0 3 0, Event.fi_poll (-FI_EAGAIN),
                    Event.epoll_wait (-1) 1] }) :=
  (fd_run_wake_returns waking_env idle_wait_fd 0 0 (-1) sample_world (by decide) (by decide)
    (by decide)).1

/-! ## Registry lists: keys, lookup, update and removal -/

theorem map_update_first_match {α β : Type} (p : α → Bool) (f : α → α) (key : α → β)
    (hkey : ∀ x, key (f x) = key x) (l : List α) :
    (update_first_match p f l).map key = l.map key := by
  induction l with
  | nil => rfl
  | cons x xs ih =>
    by_cases hx : p x = true
    · simp [update_first_match, hx, hkey]
    · simp [update_first_match, hx, ih]

theorem map_remove_first_match {α β : Type} [DecidableEq β] (p : α → Bool) (key : α → β) (k : β)
    (hp : ∀ x, p x = true ↔ key x = k) (l : List α) :
    (remove_first_match p l).map key = (l.map key).erase k := by
  induction l with
  | nil => rfl
  | cons x xs ih =>
    by_cases hx : p x = true
    · have hk : key x = k := (hp x).mp hx
      simp [remove_first_match, hx, hk]
    · have hk : key x ≠ k := fun h => hx ((hp x).mpr h)
      simp [remove_first_match, hx, ih, List.erase_cons_tail, hk]

theorem remove_update_first_match {α : Type} (p : α → Bool) (f : α → α)
    (hpf : ∀ x, p (f x) = p x) (l : List α) :
    remove_first_match p (update_first_match p f l) = remove_first_match p l := by
  induction l with
  | nil => rfl
  | cons x xs ih =>
    by_cases hx : p x = true
    · have hfx : p (f x) = true := by rw [hpf, hx]
      simp [update_first_match, remove_first_match, hx, hfx]
    · simp [update_first_match, remove_first_match, hx, ih]

theorem mem_remove_first_match {α : Type} (p : α → Bool) (l : List α) (x : α)
    (h : x ∈ remove_first_match p l) : x ∈ l := by
  induction l with
  | nil => exact h
  | cons y ys ih =>
    by_cases hy : p y = true
    · simp only [remove_first_match, hy, if_true] at h
      exact List.mem_cons_of_mem y h
    · simp only [remove_first_match, hy] at h
      rcases List.mem_cons.mp h with h1 | h1
      · rw [h1]; exact List.mem_cons_self y ys
      · exact List.mem_cons_of_mem y (ih h1)

theorem mem_update_first_match {α : Type} (p : α → Bool) (f : α → α) (l : List α) (e0 x : α)
    (hfind : dlist_find_first_match p l = some e0) (h : x ∈ update_first_match p f l) :
    x ∈ l ∨ x = f e0 := by
  induction l with
  | nil => exact Or.inl h
  | cons y ys ih =>
    by_cases hy : p y = true
    · have he : e0 = y := by
        simp [dlist_find_first_match, List.find?, hy] at hfind
        exact hfind.symm
      simp only [update_first_match, hy, if_true] at h
      rcases List.mem_cons.mp h with h1 | h1
      · right; rw [h1, he]
      · left; exact List.mem_cons_of_mem y h1
    · have hfind2 : dlist_find_first_match p ys = some e0 := by
        simpa [dlist_find_first_match, List.find?, hy] using hfind
      simp only [update_first_match, hy] at h
      rcases List.mem_cons.mp h with h1 | h1
      · left; rw [h1]; exact List.mem_cons_self y ys
      · rcases ih hfind2 h1 with h2 | h2
        · left; exact List.mem_cons_of_mem y h2
        · right; exact h2

theorem find_some_mem {α : Type} (p : α → Bool) (l : List α) (e : α)
    (h : dlist_find_first_match p l = some e) : e ∈ l ∧ p e = true := by
  unfold dlist_find_first_match at h
  exact ⟨List.mem_of_find?_eq_some h, List.find?_some h⟩

theorem find_none_iff_key {α β : Type} (p : α → Bool) (key : α → β) (k : β)
    (hp : ∀ x, p x = true ↔ key x = k) (l : List α) :
    dlist_find_first_match p l = none ↔ k ∉ l.map key := by
  unfold dlist_find_first_match
  rw [List.find?_eq_none]
  constructor
  · intro h hk
    rcases List.mem_map.mp hk with ⟨x, hx, hkx⟩
    exact h x hx ((hp x).mpr hkx)
  · intro h x hx hpx
    exact h (List.mem_map.mpr ⟨x, hx, (hp x).mp hpx⟩)

theorem match_fd_iff (fd : Int) (x : ofi_wait_fd_entry) :
    ofi_wait_match_fd fd x = true ↔ x.fd = fd := by
  simp [ofi_wait_match_fd]

theorem match_fid_iff (fid : Nat) (x : ofi_wait_fid_entry) :
    ofi_wait_match_fid fid x = true ↔ x.fid = fid := by
  simp [ofi_wait_match_fid]

/-! ## The change counter of the descriptor registry -/

theorem keys_append_ne {β : Type} (l : List β) (k : β) : l ++ [k] ≠ l := by
  intro h
  have := congrArg List.length h
  simp at this

theorem keys_erase_ne {β : Type} [DecidableEq β] (l : List β) (k : β) (hk : k ∈ l) :
    l.erase k ≠ l := by
  intro h
  have h1 := congrArg List.length h
  rw [List.length_erase_of_mem hk] at h1
  have h2 : 0 < l.length := List.length_pos_of_mem hk
  omega

/-- The four paths of `ofi_wait_add_fd`. -/
theorem add_fd_paths {S : Type} (env : Env S) (wait : util_wait_fd) (fd : Int)
    (events wait_try arg context : Nat) (w : World S) :
    (fd ∈ fd_keys wait ∧
      (ofi_wait_add_fd env wait fd events wait_try arg context w).1 = 0 ∧
      (ofi_wait_add_fd env wait fd events wait_try arg context w).2.1 =
        { wait with fd_list :=
            update_first_match (ofi_wait_match_fd fd) fd_entry_inc wait.fd_list }) ∨
    (fd ∉ fd_keys wait ∧
      (ofi_wait_add_fd env wait fd events wait_try arg context w).1 ≠ 0 ∧
      (ofi_wait_add_fd env wait fd events wait_try arg context w).2.1 = wait) ∨
    (fd ∉ fd_keys wait ∧
      (ofi_wait_add_fd env wait fd events wait_try arg context w).1 = 0 ∧
      (ofi_wait_add_fd env wait fd events wait_try arg context w).2.1 =
        { wait with
          fd_list := wait.fd_list ++ [{ fd := fd, wait_try := wait_try, arg := arg, ref := 1 }],
          change_index := wait.change_index + 1 }) := by
  cases h : dlist_find_first_match (ofi_wait_match_fd fd) wait.fd_list with
  | some e =>
    left
    have hmem : fd ∈ fd_keys wait := by
      by_contra hn
      have := (find_none_iff_key (ofi_wait_match_fd fd) (fun e => e.fd) fd (match_fd_iff fd)
        wait.fd_list).mpr hn
      rw [h] at this
      cases this
    refine ⟨hmem, ?_, ?_⟩ <;>
    · unfold ofi_wait_add_fd
      rw [h]
  | none =>
    right
    have hmem : fd ∉ fd_keys wait :=
      (find_none_iff_key (ofi_wait_match_fd fd) (fun e => e.fd) fd (match_fd_iff fd)
        wait.fd_list).mp h
    by_cases h1 : (mux_add env wait.util_wait.wait_obj fd events context w).1 ≠ 0
    · left
      refine ⟨hmem, ?_, ?_⟩ <;>
      · unfold ofi_wait_add_fd
        rw [h]
        simp only []
        rw [if_pos h1]
        try exact h1
    · by_cases h2 : (env.calloc (mux_add env wait.util_wait.wait_obj fd events context w).2.st).1
          = false
      · left
        refine ⟨hmem, ?_, ?_⟩ <;>
        · unfold ofi_wait_add_fd
          rw [h]
          simp only []
          rw [if_neg h1, if_pos h2]
          try simp [FI_ENOMEM]
      · right
        refine ⟨hmem, ?_, ?_⟩ <;>
        · unfold ofi_wait_add_fd
          rw [h]
          simp only []
          rw [if_neg h1, if_neg h2]

/-- The three paths of `ofi_wait_del_fd`. -/
theorem del_fd_paths {S : Type} (env : Env S) (wait : util_wait_fd) (fd : Int) (w : World S) :
    (fd ∉ fd_keys wait ∧
      dlist_find_first_match (ofi_wait_match_fd fd) wait.fd_list = none ∧
      (ofi_wait_del_fd env wait fd w).1 = -FI_EINVAL ∧
      (ofi_wait_del_fd env wait fd w).2.1 = wait) ∨
    (∃ e, dlist_find_first_match (ofi_wait_match_fd fd) wait.fd_list = some e ∧ e.ref ≠ 1 ∧
      fd ∈ fd_keys wait ∧
      (ofi_wait_del_fd env wait fd w).1 = 0 ∧
      (ofi_wait_del_fd env wait fd w).2.1 =
        { wait with fd_list :=
            update_first_match (ofi_wait_match_fd fd) fd_entry_dec wait.fd_list }) ∨
    (∃ e, dlist_find_first_match (ofi_wait_match_fd fd) wait.fd_list = some e ∧ e.ref = 1 ∧
      fd ∈ fd_keys wait ∧
      (ofi_wait_del_fd env wait fd w).1 = 0 ∧
      (ofi_wait_del_fd env wait fd w).2.1 =
        { wait with
          fd_list := remove_first_match (ofi_wait_match_fd fd) wait.fd_list,
          change_index := wait.change_index + 1 }) := by
  cases h : dlist_find_first_match (ofi_wait_match_fd fd) wait.fd_list with
  | none =>
    left
    refine ⟨(find_none_iff_key (ofi_wait_match_fd fd) (fun e => e.fd) fd (match_fd_iff fd)
        wait.fd_list).mp h, rfl, ?_, ?_⟩ <;>
    · unfold ofi_wait_del_fd
      rw [h]
  | some e =>
    right
    have hmem : fd ∈ fd_keys wait := by
      by_contra hn
      have := (find_none_iff_key (ofi_wait_match_fd fd) (fun e => e.fd) fd (match_fd_iff fd)
        wait.fd_list).mpr hn
      rw [h] at this
      cases this
    by_cases hr : e.ref = 1
    · right
      have hr0 : ¬ ((fd_entry_dec e).ref ≠ 0) :=
        not_not.mpr ((dec32_eq_zero_iff e.ref).mpr hr)
      refine ⟨e, rfl, hr, hmem, ?_, ?_⟩
      · unfold ofi_wait_del_fd
        rw [h]
        simp only []
        rw [if_neg hr0]
      · unfold ofi_wait_del_fd
        rw [h]
        simp only []
        rw [if_neg hr0, remove_update_first_match]
        intro x
        simp [ofi_wait_match_fd, fd_entry_dec]
    · left
      have hr0 : (fd_entry_dec e).ref ≠ 0 :=
        (dec32_ne_zero_iff e.ref).mpr (by omega)
      refine ⟨e, rfl, hr, hmem, ?_, ?_⟩ <;>
      · unfold ofi_wait_del_fd
        rw [h]
        simp only []
        rw [if_pos hr0]

theorem fd_keys_update (wait : util_wait_fd) (fd : Int) (f : ofi_wait_fd_entry → ofi_wait_fd_entry)
    (hf : ∀ x, (f x).fd = x.fd) :
    fd_keys { wait with fd_list := update_first_match (ofi_wait_match_fd fd) f wait.fd_list } =
      fd_keys wait := by
  unfold fd_keys
  exact map_update_first_match _ f (fun e => e.fd) hf wait.fd_list

theorem fd_keys_remove (wait : util_wait_fd) (fd : Int) (n : Nat) :
    fd_keys { wait with fd_list := remove_first_match (ofi_wait_match_fd fd) wait.fd_list,
                        change_index := n } = (fd_keys wait).erase fd := by
  unfold fd_keys
  exact map_remove_first_match _ (fun e => e.fd) fd (match_fd_iff fd) wait.fd_list

/-- C21. Under `ofi_wait_add_fd` and `ofi_wait_del_fd` the change counter never
goes down: it goes up by exactly 1 when the call changes the sequence of
registered descriptors and stays as it is otherwise. The sequence changes in
two cases only: an add of a descriptor that was not registered returns 0 (the
new entry, with refcount 1, is put at the tail), or a remove finds an entry
whose refcount is 1 (the entry is unlinked). An add of a registered
descriptor and a remove from an entry with another refcount only move that
refcount, and a call that fails leaves the whole wait object as it was. -/
theorem change_index_structural {S : Type} (env : Env S) (wait : util_wait_fd) (w : World S) :
    (∀ (fd : Int) (events wait_try arg context : Nat),
      (ofi_wait_add_fd env wait fd events wait_try arg context w).2.1.change_index =
        wait.change_index +
          (if fd_keys (ofi_wait_add_fd env wait fd events wait_try arg context w).2.1 =
              fd_keys wait then 0 else 1) ∧
      (fd_keys (ofi_wait_add_fd env wait fd events wait_try arg context w).2.1 ≠ fd_keys wait ↔
        fd ∉ fd_keys wait ∧
          (ofi_wait_add_fd env wait fd events wait_try arg context w).1 = 0) ∧
      (fd ∉ fd_keys wait →
        (ofi_wait_add_fd env wait fd events wait_try arg context w).1 = 0 →
        (ofi_wait_add_fd env wait fd events wait_try arg context w).2.1.fd_list =
          wait.fd_list ++ [{ fd := fd, wait_try := wait_try, arg := arg, ref := 1 }]) ∧
      (fd ∈ fd_keys wait →
        (ofi_wait_add_fd env wait fd events wait_try arg context w).2.1.fd_list =
          update_first_match (ofi_wait_match_fd fd) fd_entry_inc wait.fd_list) ∧
      ((ofi_wait_add_fd env wait fd events wait_try arg context w).1 ≠ 0 →
        (ofi_wait_add_fd env wait fd events wait_try arg context w).2.1 = wait)) ∧
    (∀ fd : Int,
      (ofi_wait_del_fd env wait fd w).2.1.change_index =
        wait.change_index +
          (if fd_keys (ofi_wait_del_fd env wait fd w).2.1 = fd_keys wait then 0 else 1) ∧
      (fd_keys (ofi_wait_del_fd env wait fd w).2.1 ≠ fd_keys wait ↔
        ∃ e, dlist_find_first_match (ofi_wait_match_fd fd) wait.fd_list = some e ∧ e.ref = 1) ∧
      (∀ e, dlist_find_first_match (ofi_wait_match_fd fd) wait.fd_list = some e → e.ref = 1 →
        (ofi_wait_del_fd env wait fd w).2.1.fd_list =
          remove_first_match (ofi_wait_match_fd fd) wait.fd_list) ∧
      (∀ e, dlist_find_first_match (ofi_wait_match_fd fd) wait.fd_list = some e → e.ref ≠ 1 →
        (ofi_wait_del_fd env wait fd w).2.1.fd_list =
          update_first_match (ofi_wait_match_fd fd) fd_entry_dec wait.fd_list) ∧
      ((ofi_wait_del_fd env wait fd w).1 ≠ 0 → (ofi_wait_del_fd env wait fd w).2.1 = wait)) := by
  constructor
  · intro fd events wait_try arg context
    rcases add_fd_paths env wait fd events wait_try arg context w with
      ⟨hmem, hret, hobj⟩ | ⟨hmem, hret, hobj⟩ | ⟨hmem, hret, hobj⟩
    · have hk := fd_keys_update wait fd fd_entry_inc (fun x => rfl)
      rw [hobj, hret]
      refine ⟨by simp [hk], ?_, fun h => absurd hmem h, fun _ => rfl, fun h => absurd rfl h⟩
      simp [hk, hmem]
    · rw [hobj]
      refine ⟨by simp, ?_, fun _ h => absurd h hret, fun h => absurd h hmem, fun _ => rfl⟩
      simp [hret]
    · have hk : fd_keys { wait with
          fd_list := wait.fd_list ++ [{ fd := fd, wait_try := wait_try, arg := arg, ref := 1 }],
          change_index := wait.change_index + 1 } ≠ fd_keys wait := by
        unfold fd_keys
        simp only [List.map_append, List.map_cons, List.map_nil]
        exact keys_append_ne _ _
      rw [hobj, hret]
      refine ⟨by simp [hk], ?_, fun _ _ => rfl, fun h => absurd h hmem, fun h => absurd rfl h⟩
      simp [hk, hmem]
  · intro fd
    rcases del_fd_paths env wait fd w with
      ⟨hmem, hfind, hret, hobj⟩ | ⟨e, hfind, href, hmem, hret, hobj⟩ |
        ⟨e, hfind, href, hmem, hret, hobj⟩
    · rw [hobj, hfind]
      refine ⟨by simp, by simp, fun e h => (by cases h), fun e h => (by cases h), fun _ => rfl⟩
    · have hk := fd_keys_update wait fd fd_entry_dec (fun x => rfl)
      rw [hobj, hret, hfind]
      refine ⟨by simp [hk], ?_, ?_, fun _ _ _ => rfl, fun h => absurd rfl h⟩
      · simp [hk, href]
      · intro e2 h2 hr2
        cases h2
        exact absurd hr2 href
    · have hk : fd_keys { wait with
          fd_list := remove_first_match (ofi_wait_match_fd fd) wait.fd_list,
          change_index := wait.change_index + 1 } ≠ fd_keys wait := by
        rw [fd_keys_remove]
        exact keys_erase_ne _ _ hmem
      rw [hobj, hret, hfind]
      refine ⟨by simp [hk], ?_, fun _ _ _ => rfl, ?_, fun h => absurd rfl h⟩
      · simp [hk, href]
      · intro e2 h2 hr2
        cases h2
        exact absurd href hr2

/-! ## Well-formed registries -/

theorem fid_keys_update (wait : util_wait) (fid : Nat)
    (f : ofi_wait_fid_entry → ofi_wait_fid_entry) (hf : ∀ x, (f x).fid = x.fid) :
    fid_keys { wait with fid_list := update_first_match (ofi_wait_match_fid fid) f wait.fid_list } =
      fid_keys wait := by
  unfold fid_keys
  exact map_update_first_match _ f (fun e => e.fid) hf wait.fid_list

theorem fid_keys_remove (wait : util_wait) (fid : Nat) :
    fid_keys { wait with fid_list := remove_first_match (ofi_wait_match_fid fid) wait.fid_list } =
      (fid_keys wait).erase fid := by
  unfold fid_keys
  exact map_remove_first_match _ (fun e => e.fid) fid (match_fid_iff fid) wait.fid_list

theorem fid_mem_keys_of_find (wait : util_wait) (fid : Nat) (e : ofi_wait_fid_entry)
    (h : dlist_find_first_match (ofi_wait_match_fid fid) wait.fid_list = some e) :
    fid ∈ fid_keys wait := by
  by_contra hn
  have := (find_none_iff_key (ofi_wait_match_fid fid) (fun e => e.fid) fid (match_fid_iff fid)
    wait.fid_list).mpr hn
  rw [h] at this
  cases this

/-- The three outcomes of `ofi_wait_add_fid`. -/
theorem add_fid_paths {S : Type} (env : Env S) (wait : util_wait) (fid events wait_try : Nat)
    (w : World S) :
    (∃ e, dlist_find_first_match (ofi_wait_match_fid fid) wait.fid_list = some e ∧
      (ofi_wait_add_fid env wait fid events wait_try w).1 = 0 ∧
      (ofi_wait_add_fid env wait fid events wait_try w).2.1 =
        { wait with fid_list :=
            update_first_match (ofi_wait_match_fid fid) fid_entry_inc wait.fid_list }) ∨
    (fid ∉ fid_keys wait ∧
      (ofi_wait_add_fid env wait fid events wait_try w).1 ≠ 0 ∧
      (ofi_wait_add_fid env wait fid events wait_try w).2.1 = wait) ∨
    (fid ∉ fid_keys wait ∧
      (ofi_wait_add_fid env wait fid events wait_try w).1 = 0 ∧
      (ofi_wait_add_fid env wait fid events wait_try w).2.1 =
        { wait with fid_list := wait.fid_list ++
            [{ fid := fid, wait_try := wait_try, events := events, ref := 1 }] }) := by
  cases h : dlist_find_first_match (ofi_wait_match_fid fid) wait.fid_list with
  | some e =>
    left
    refine ⟨e, rfl, ?_, ?_⟩ <;> rw [add_fid_found env wait fid events wait_try w e h]
  | none =>
    right
    have hmem : fid ∉ fid_keys wait :=
      (find_none_iff_key (ofi_wait_match_fid fid) (fun e => e.fid) fid (match_fid_iff fid)
        wait.fid_list).mp h
    by_cases hc : (env.calloc w.st).1 = false
    · left
      rw [add_fid_nomem env wait fid events wait_try w h hc]
      exact ⟨hmem, by simp [FI_ENOMEM], rfl⟩
    · have hc1 : (env.calloc w.st).1 = true := by simpa using hc
      by_cases hk : wait.wait_obj = FI_WAIT_FD ∨ wait.wait_obj = FI_WAIT_POLLFD
      · rw [add_fid_new_fd env wait fid events wait_try w h hc1 hk]
        by_cases hr : (ofi_wait_add_fds env wait
            { fid := fid, wait_try := wait_try, events := events, ref := 1 }
            { w with st := (env.calloc w.st).2 }).1 ≠ 0
        · left
          rw [if_pos hr]
          exact ⟨hmem, hr, rfl⟩
        · right
          rw [if_neg hr]
          exact ⟨hmem, rfl, rfl⟩
      · right
        rw [add_fid_new_plain env wait fid events wait_try w h hc1 hk]
        exact ⟨hmem, rfl, rfl⟩

/-- The four outcomes of `ofi_wait_del_fid`. -/
theorem del_fid_paths {S : Type} (env : Env S) (wait : util_wait) (fid : Nat) (w : World S) :
    (fid ∉ fid_keys wait ∧ (ofi_wait_del_fid env wait fid w).1 = -FI_EINVAL ∧
      (ofi_wait_del_fid env wait fid w).2.1 = wait) ∨
    (∃ e, dlist_find_first_match (ofi_wait_match_fid fid) wait.fid_list = some e ∧ e.ref ≠ 1 ∧
      (ofi_wait_del_fid env wait fid w).1 = 0 ∧
      (ofi_wait_del_fid env wait fid w).2.1 =
        { wait with fid_list :=
            update_first_match (ofi_wait_match_fid fid) fid_entry_dec wait.fid_list }) ∨
    (∃ e, dlist_find_first_match (ofi_wait_match_fid fid) wait.fid_list = some e ∧ e.ref = 1 ∧
      (ofi_wait_del_fid env wait fid w).1 ≠ 0 ∧
      (ofi_wait_del_fid env wait fid w).2.1 = wait) ∨
    (∃ e, dlist_find_first_match (ofi_wait_match_fid fid) wait.fid_list = some e ∧ e.ref = 1 ∧
      (ofi_wait_del_fid env wait fid w).1 = 0 ∧
      (ofi_wait_del_fid env wait fid w).2.1 =
        { wait with fid_list := remove_first_match (ofi_wait_match_fid fid) wait.fid_list }) := by
  have hrem : remove_first_match (ofi_wait_match_fid fid)
      (update_first_match (ofi_wait_match_fid fid) fid_entry_dec wait.fid_list) =
      remove_first_match (ofi_wait_match_fid fid) wait.fid_list := by
    apply remove_update_first_match
    intro x
    simp [ofi_wait_match_fid, fid_entry_dec]
  cases h : dlist_find_first_match (ofi_wait_match_fid fid) wait.fid_list with
  | none =>
    left
    rw [del_fid_absent env wait fid w h]
    exact ⟨(find_none_iff_key (ofi_wait_match_fid fid) (fun e => e.fid) fid (match_fid_iff fid)
        wait.fid_list).mp h, rfl, rfl⟩
  | some e =>
    right
    by_cases href : e.ref = 1
    · right
      have hr0 : e.ref - 1 = 0 := by omega
      by_cases hk : wait.wait_obj = FI_WAIT_FD ∨ wait.wait_obj = FI_WAIT_POLLFD
      · rw [del_fid_last_fd env wait fid w e h hr0 hk]
        by_cases hr : (ofi_wait_del_fds env wait (fid_entry_dec e) w).1 ≠ 0
        · left
          rw [if_pos hr, update_inc_dec fid wait.fid_list (fun e2 he2 => by
            rw [h] at he2
            cases he2
            rw [href]
            decide)]
          exact ⟨e, rfl, href, hr, rfl⟩
        · right
          rw [if_neg hr, hrem]
          exact ⟨e, rfl, href, rfl, rfl⟩
      · right
        rw [del_fid_last_plain env wait fid w e h hr0 hk, hrem]
        exact ⟨e, rfl, href, rfl, rfl⟩
    · left
      have hr0 : e.ref - 1 ≠ 0 := by omega
      rw [del_fid_shared env wait fid w e h hr0]
      exact ⟨e, rfl, href, rfl, rfl⟩

theorem wf_unchanged {α β : Type} [DecidableEq β] (key : α → β) (ref : α → Int) (l : List α)
    (n : Int) (hnd : (l.map key).Nodup) (hge : ∀ e ∈ l, 1 ≤ ref e) (hle : ∀ e ∈ l, ref e ≤ n) :
    (l.map key).Nodup ∧ (∀ e ∈ l, 1 ≤ ref e) ∧ (∀ e ∈ l, ref e ≤ n + 1) ∧
      order_kept (l.map key) (l.map key) :=
  ⟨hnd, hge, fun e he => by have := hle e he; omega, Or.inl rfl⟩

theorem wf_after_update {α β : Type} [DecidableEq β] (key : α → β) (ref : α → Int)
    (p : α → Bool) (f : α → α) (l : List α) (e0 : α) (n : Int)
    (hfind : dlist_find_first_match p l = some e0) (hkey : ∀ x, key (f x) = key x)
    (hnd : (l.map key).Nodup) (hge : ∀ e ∈ l, 1 ≤ ref e) (hle : ∀ e ∈ l, ref e ≤ n)
    (hf1 : 1 ≤ ref (f e0)) (hf2 : ref (f e0) ≤ n + 1) :
    ((update_first_match p f l).map key).Nodup ∧
      (∀ e ∈ update_first_match p f l, 1 ≤ ref e) ∧
      (∀ e ∈ update_first_match p f l, ref e ≤ n + 1) ∧
      order_kept (l.map key) ((update_first_match p f l).map key) := by
  have hk := map_update_first_match p f key hkey l
  refine ⟨by rw [hk]; exact hnd, ?_, ?_, Or.inl hk⟩
  · intro e he
    rcases mem_update_first_match p f l e0 e hfind he with h | h
    · exact hge e h
    · rw [h]; exact hf1
  · intro e he
    rcases mem_update_first_match p f l e0 e hfind he with h | h
    · have := hle e h; omega
    · rw [h]; exact hf2

theorem wf_after_append {α β : Type} [DecidableEq β] (key : α → β) (ref : α → Int)
    (l : List α) (e0 : α) (n : Int) (hn : 0 ≤ n) (hnew : key e0 ∉ l.map key)
    (href : ref e0 = 1)
    (hnd : (l.map key).Nodup) (hge : ∀ e ∈ l, 1 ≤ ref e) (hle : ∀ e ∈ l, ref e ≤ n) :
    ((l ++ [e0]).map key).Nodup ∧ (∀ e ∈ l ++ [e0], 1 ≤ ref e) ∧
      (∀ e ∈ l ++ [e0], ref e ≤ n + 1) ∧ order_kept (l.map key) ((l ++ [e0]).map key) := by
  have hmap : (l ++ [e0]).map key = l.map key ++ [key e0] := by simp
  refine ⟨?_, ?_, ?_, Or.inr (Or.inl ⟨key e0, hnew, hmap⟩)⟩
  · rw [hmap, List.nodup_append]
    refine ⟨hnd, List.nodup_singleton _, ?_⟩
    intro a ha hb
    rw [List.mem_singleton] at hb
    rw [hb] at ha
    exact hnew ha
  · intro e he
    rcases List.mem_append.mp he with h | h
    · exact hge e h
    · rw [List.mem_singleton] at h
      rw [h, href]
  · intro e he
    rcases List.mem_append.mp he with h | h
    · have := hle e h; omega
    · rw [List.mem_singleton] at h
      rw [h, href]; omega

theorem wf_after_remove {α β : Type} [DecidableEq β] (key : α → β) (ref : α → Int)
    (p : α → Bool) (k : β) (hp : ∀ x, p x = true ↔ key x = k) (l : List α) (n : Int)
    (hmem : k ∈ l.map key)
    (hnd : (l.map key).Nodup) (hge : ∀ e ∈ l, 1 ≤ ref e) (hle : ∀ e ∈ l, ref e ≤ n) :
    ((remove_first_match p l).map key).Nodup ∧
      (∀ e ∈ remove_first_match p l, 1 ≤ ref e) ∧
      (∀ e ∈ remove_first_match p l, ref e ≤ n + 1) ∧
      order_kept (l.map key) ((remove_first_match p l).map key) := by
  have hk := map_remove_first_match p key k hp l
  refine ⟨by rw [hk]; exact hnd.erase k, ?_, ?_, Or.inr (Or.inr ⟨k, hmem, hk⟩)⟩
  · intro e he
    exact hge e (mem_remove_first_match p l e he)
  · intro e he
    have := hle e (mem_remove_first_match p l e he)
    omega

theorem nodup_append_new {β : Type} (l : List β) (k : β) (hnd : l.Nodup) (hnew : k ∉ l) :
    (l ++ [k]).Nodup := by
  rw [List.nodup_append]
  refine ⟨hnd, List.nodup_singleton _, ?_⟩
  intro a ha hb
  rw [List.mem_singleton] at hb
  rw [hb] at ha
  exact hnew ha

/-- One call of `ofi_wait_add_fid` or `ofi_wait_del_fid`, whatever the
refcounts are, lists no fid twice and leaves the sequence of fids alone, puts
one new fid at the tail or takes one fid out. -/
theorem fid_keys_step {S : Type} (env : Env S) (wait : util_wait) (w : World S)
    (hnd : (fid_keys wait).Nodup) :
    (∀ fid events wait_try : Nat,
      (fid_keys (ofi_wait_add_fid env wait fid events wait_try w).2.1).Nodup ∧
      order_kept (fid_keys wait) (fid_keys (ofi_wait_add_fid env wait fid events wait_try w).2.1)) ∧
    (∀ fid : Nat,
      (fid_keys (ofi_wait_del_fid env wait fid w).2.1).Nodup ∧
      order_kept (fid_keys wait) (fid_keys (ofi_wait_del_fid env wait fid w).2.1)) := by
  constructor
  · intro fid events wait_try
    rcases add_fid_paths env wait fid events wait_try w with
      ⟨e, hfind, _, hobj⟩ | ⟨_, _, hobj⟩ | ⟨hmem, _, hobj⟩
    · rw [hobj, fid_keys_update wait fid fid_entry_inc (fun x => rfl)]
      exact ⟨hnd, Or.inl rfl⟩
    · rw [hobj]
      exact ⟨hnd, Or.inl rfl⟩
    · rw [hobj]
      have hk : fid_keys { wait with fid_list := wait.fid_list ++
          [{ fid := fid, wait_try := wait_try, events := events, ref := 1 }] } =
          fid_keys wait ++ [fid] := by
        simp [fid_keys]
      rw [hk]
      exact ⟨nodup_append_new _ _ hnd hmem, Or.inr (Or.inl ⟨fid, hmem, rfl⟩)⟩
  · intro fid
    rcases del_fid_paths env wait fid w with
      ⟨_, _, hobj⟩ | ⟨e, hfind, href, _, hobj⟩ | ⟨e, _, _, _, hobj⟩ | ⟨e, hfind, _, _, hobj⟩
    · rw [hobj]
      exact ⟨hnd, Or.inl rfl⟩
    · rw [hobj, fid_keys_update wait fid fid_entry_dec (fun x => rfl)]
      exact ⟨hnd, Or.inl rfl⟩
    · rw [hobj]
      exact ⟨hnd, Or.inl rfl⟩
    · rw [hobj, fid_keys_remove]
      exact ⟨hnd.erase fid, Or.inr (Or.inr ⟨fid, fid_mem_keys_of_find wait fid e hfind, rfl⟩)⟩

/-- One call of `ofi_wait_add_fd` or `ofi_wait_del_fd`, whatever the refcounts
are, lists no descriptor twice, leaves the sequence of descriptors alone, puts
one new descriptor at the tail or takes one out, and does not touch the fid
registry. -/
theorem fd_keys_step {S : Type} (env : Env S) (wait : util_wait_fd) (w : World S)
    (hnd : (fd_keys wait).Nodup) :
    (∀ (fd : Int) (events wait_try arg context : Nat),
      (fd_keys (ofi_wait_add_fd env wait fd events wait_try arg context w).2.1).Nodup ∧
      order_kept (fd_keys wait)
        (fd_keys (ofi_wait_add_fd env wait fd events wait_try arg context w).2.1) ∧
      (ofi_wait_add_fd env wait fd events wait_try arg context w).2.1.util_wait =
        wait.util_wait) ∧
    (∀ fd : Int,
      (fd_keys (ofi_wait_del_fd env wait fd w).2.1).Nodup ∧
      order_kept (fd_keys wait) (fd_keys (ofi_wait_del_fd env wait fd w).2.1) ∧
      (ofi_wait_del_fd env wait fd w).2.1.util_wait = wait.util_wait) := by
  constructor
  · intro fd events wait_try arg context
    rcases add_fd_paths env wait fd events wait_try arg context w with
      ⟨hmem, _, hobj⟩ | ⟨_, _, hobj⟩ | ⟨hmem, _, hobj⟩
    · rw [hobj, fd_keys_update wait fd fd_entry_inc (fun x => rfl)]
      exact ⟨hnd, Or.inl rfl, rfl⟩
    · rw [hobj]
      exact ⟨hnd, Or.inl rfl, rfl⟩
    · rw [hobj]
      have hk : fd_keys { wait with
          fd_list := wait.fd_list ++ [{ fd := fd, wait_try := wait_try, arg := arg, ref := 1 }],
          change_index := wait.change_index + 1 } = fd_keys wait ++ [fd] := by
        simp [fd_keys]
      rw [hk]
      exact ⟨nodup_append_new _ _ hnd hmem, Or.inr (Or.inl ⟨fd, hmem, rfl⟩), rfl⟩
  · intro fd
    rcases del_fd_paths env wait fd w with
      ⟨_, _, _, hobj⟩ | ⟨e, hfind, href, _, _, hobj⟩ | ⟨e, hfind, _, hmem, _, hobj⟩
    · rw [hobj]
      exact ⟨hnd, Or.inl rfl, rfl⟩
    · rw [hobj, fd_keys_update wait fd fd_entry_dec (fun x => rfl)]
      exact ⟨hnd, Or.inl rfl, rfl⟩
    · rw [hobj, fd_keys_remove]
      exact ⟨hnd.erase fd, Or.inr (Or.inr ⟨fd, hmem, rfl⟩), rfl⟩

/-- One registration call of any of the four kinds, whatever it returns and
whatever the refcounts are, lists no key twice and keeps the order of the
keys. -/
theorem reg_keys_step {S : Type} (env : Env S) (op : reg_op) (wait : util_wait_fd) (w : World S)
    (hnd : keys_nodup wait) :
    keys_nodup (run_reg_op env op wait w).2.1 ∧
    order_kept (fid_keys wait.util_wait) (fid_keys (run_reg_op env op wait w).2.1.util_wait) ∧
    order_kept (fd_keys wait) (fd_keys (run_reg_op env op wait w).2.1) := by
  rcases hnd with ⟨hnd1, hnd2⟩
  cases op with
  | add_fid fid events wait_try =>
    have h := (fid_keys_step env wait.util_wait w hnd1).1 fid events wait_try
    exact ⟨⟨h.1, hnd2⟩, h.2, Or.inl rfl⟩
  | del_fid fid =>
    have h := (fid_keys_step env wait.util_wait w hnd1).2 fid
    exact ⟨⟨h.1, hnd2⟩, h.2, Or.inl rfl⟩
  | add_fd fd events wait_try arg context =>
    have h := (fd_keys_step env wait w hnd2).1 fd events wait_try arg context
    simp only [run_reg_op]
    rw [keys_nodup, h.2.2]
    exact ⟨⟨hnd1, h.1⟩, Or.inl rfl, h.2.1⟩
  | del_fd fd =>
    have h := (fd_keys_step env wait w hnd2).2 fd
    simp only [run_reg_op]
    rw [keys_nodup, h.2.2]
    exact ⟨⟨hnd1, h.1⟩, Or.inl rfl, h.2.1⟩

theorem reg_states_head {S : Type} (env : Env S) (ops : List reg_op) (wait : util_wait_fd)
    (w : World S) : (reg_states env ops wait w).head? = some wait := by
  cases ops <;> rfl

theorem reg_states_length {S : Type} (env : Env S) (ops : List reg_op) :
    ∀ (wait : util_wait_fd) (w : World S), (reg_states env ops wait w).length = ops.length + 1 := by
  induction ops with
  | nil => intro wait w; rfl
  | cons op ops ih =>
    intro wait w
    simp [reg_states, ih]

/-- Along any sequence of registration calls that starts with no key listed
twice, no state lists a key twice and every call keeps the order of the keys,
whatever the calls return and whatever the refcounts are. -/
theorem reg_states_keys {S : Type} (env : Env S) (ops : List reg_op) :
    ∀ (wait : util_wait_fd) (w : World S), keys_nodup wait →
      (∀ s ∈ reg_states env ops wait w, keys_nodup s) ∧
      List.Chain' (fun a b : util_wait_fd =>
          order_kept (fid_keys a.util_wait) (fid_keys b.util_wait) ∧
          order_kept (fd_keys a) (fd_keys b))
        (reg_states env ops wait w) := by
  induction ops with
  | nil =>
    intro wait w hnd
    refine ⟨?_, by simp [reg_states]⟩
    intro s hs
    simp [reg_states] at hs
    rw [hs]
    exact hnd
  | cons op ops ih =>
    intro wait w hnd
    have hstep := reg_keys_step env op wait w hnd
    have hrec := ih (run_reg_op env op wait w).2.1 (run_reg_op env op wait w).2.2 hstep.1
    constructor
    · intro s hs
      simp only [reg_states, List.mem_cons] at hs
      rcases hs with hs | hs
      · rw [hs]
        exact hnd
      · exact hrec.1 s hs
    · simp only [reg_states]
      rw [List.chain'_cons']
      refine ⟨?_, hrec.2⟩
      intro y hy
      rw [reg_states_head] at hy
      cases hy
      exact hstep.2

/-- One call of `ofi_wait_add_fid` or `ofi_wait_del_fid` keeps the fid registry
well formed, an add provided that it does not find its fid with a refcount of
`INT32_MAX`. This holds for a wait object of any kind, so for the registry of
a yield wait object as well. -/
theorem fid_step_wf {S : Type} (env : Env S) (wait : util_wait) (w : World S) (n : Int)
    (hn : 0 ≤ n) (hnd : (fid_keys wait).Nodup) (hge : ∀ e ∈ wait.fid_list, 1 ≤ e.ref)
    (hle : ∀ e ∈ wait.fid_list, e.ref ≤ n) :
    (∀ fid events wait_try : Nat,
      (∀ e ∈ wait.fid_list, e.fid = fid → e.ref ≠ INT32_MAX) →
      (fid_keys (ofi_wait_add_fid env wait fid events wait_try w).2.1).Nodup ∧
      (∀ e ∈ (ofi_wait_add_fid env wait fid events wait_try w).2.1.fid_list, 1 ≤ e.ref) ∧
      (∀ e ∈ (ofi_wait_add_fid env wait fid events wait_try w).2.1.fid_list, e.ref ≤ n + 1) ∧
      order_kept (fid_keys wait) (fid_keys (ofi_wait_add_fid env wait fid events wait_try w).2.1)) ∧
    (∀ fid : Nat,
      (fid_keys (ofi_wait_del_fid env wait fid w).2.1).Nodup ∧
      (∀ e ∈ (ofi_wait_del_fid env wait fid w).2.1.fid_list, 1 ≤ e.ref) ∧
      (∀ e ∈ (ofi_wait_del_fid env wait fid w).2.1.fid_list, e.ref ≤ n + 1) ∧
      order_kept (fid_keys wait) (fid_keys (ofi_wait_del_fid env wait fid w).2.1)) := by
  constructor
  · intro fid events wait_try hnw
    rcases add_fid_paths env wait fid events wait_try w with
      ⟨e, hfind, _, hobj⟩ | ⟨_, _, hobj⟩ | ⟨hmem, _, hobj⟩
    · rw [hobj]
      have hmem := find_some_mem _ _ e hfind
      have he := hge e hmem.1
      have he2 := hle e hmem.1
      have hne : e.ref ≠ INT32_MAX := hnw e hmem.1 ((match_fid_iff fid e).mp hmem.2)
      exact wf_after_update (fun e : ofi_wait_fid_entry => e.fid) (fun e => e.ref) _ fid_entry_inc wait.fid_list e n
        hfind (fun x => rfl) hnd hge hle
        (by simp only [fid_entry_inc, ofi_atomic_inc32, if_neg hne]; omega)
        (by simp only [fid_entry_inc, ofi_atomic_inc32, if_neg hne]; omega)
    · rw [hobj]
      exact wf_unchanged (fun e : ofi_wait_fid_entry => e.fid) (fun e => e.ref) wait.fid_list n hnd hge hle
    · rw [hobj]
      exact wf_after_append (fun e : ofi_wait_fid_entry => e.fid) (fun e => e.ref) wait.fid_list _ n hn hmem rfl
        hnd hge hle
  · intro fid
    rcases del_fid_paths env wait fid w with
      ⟨_, _, hobj⟩ | ⟨e, hfind, href, _, hobj⟩ | ⟨e, _, _, _, hobj⟩ | ⟨e, hfind, _, _, hobj⟩
    · rw [hobj]
      exact wf_unchanged (fun e : ofi_wait_fid_entry => e.fid) (fun e => e.ref) wait.fid_list n hnd hge hle
    · rw [hobj]
      have he := hge e (find_some_mem _ _ e hfind).1
      have he2 := hle e (find_some_mem _ _ e hfind).1
      have hne : e.ref ≠ INT32_MIN := by unfold INT32_MIN; omega
      exact wf_after_update (fun e : ofi_wait_fid_entry => e.fid) (fun e => e.ref) _ fid_entry_dec wait.fid_list e n
        hfind (fun x => rfl) hnd hge hle
        (by simp only [fid_entry_dec, ofi_atomic_dec32, if_neg hne]; omega)
        (by simp only [fid_entry_dec, ofi_atomic_dec32, if_neg hne]; omega)
    · rw [hobj]
      exact wf_unchanged (fun e : ofi_wait_fid_entry => e.fid) (fun e => e.ref) wait.fid_list n hnd hge hle
    · rw [hobj]
      exact wf_after_remove (fun e : ofi_wait_fid_entry => e.fid) (fun e => e.ref) _ fid (match_fid_iff fid)
        wait.fid_list n (fid_mem_keys_of_find wait fid e hfind) hnd hge hle

/-- One call of `ofi_wait_add_fd` or `ofi_wait_del_fd` keeps the descriptor
registry well formed, an add provided that it does not find its descriptor
with a refcount of `INT32_MAX`, and does not touch the fid registry. -/
theorem fd_step_wf {S : Type} (env : Env S) (wait : util_wait_fd) (w : World S) (n : Int)
    (hn : 0 ≤ n) (hnd : (fd_keys wait).Nodup) (hge : ∀ e ∈ wait.fd_list, 1 ≤ e.ref)
    (hle : ∀ e ∈ wait.fd_list, e.ref ≤ n) :
    (∀ (fd : Int) (events wait_try arg context : Nat),
      (∀ e ∈ wait.fd_list, e.fd = fd → e.ref ≠ INT32_MAX) →
      (fd_keys (ofi_wait_add_fd env wait fd events wait_try arg context w).2.1).Nodup ∧
      (∀ e ∈ (ofi_wait_add_fd env wait fd events wait_try arg context w).2.1.fd_list,
        1 ≤ e.ref) ∧
      (∀ e ∈ (ofi_wait_add_fd env wait fd events wait_try arg context w).2.1.fd_list,
        e.ref ≤ n + 1) ∧
      order_kept (fd_keys wait)
        (fd_keys (ofi_wait_add_fd env wait fd events wait_try arg context w).2.1) ∧
      (ofi_wait_add_fd env wait fd events wait_try arg context w).2.1.util_wait =
        wait.util_wait) ∧
    (∀ fd : Int,
      (fd_keys (ofi_wait_del_fd env wait fd w).2.1).Nodup ∧
      (∀ e ∈ (ofi_wait_del_fd env wait fd w).2.1.fd_list, 1 ≤ e.ref) ∧
      (∀ e ∈ (ofi_wait_del_fd env wait fd w).2.1.fd_list, e.ref ≤ n + 1) ∧
      order_kept (fd_keys wait) (fd_keys (ofi_wait_del_fd env wait fd w).2.1) ∧
      (ofi_wait_del_fd env wait fd w).2.1.util_wait = wait.util_wait) := by
  constructor
  · intro fd events wait_try arg context hnw
    rcases add_fd_paths env wait fd events wait_try arg context w with
      ⟨hmem, _, hobj⟩ | ⟨_, _, hobj⟩ | ⟨hmem, _, hobj⟩
    · rw [hobj]
      cases hfind : dlist_find_first_match (ofi_wait_match_fd fd) wait.fd_list with
      | none =>
        exact absurd hmem ((find_none_iff_key (ofi_wait_match_fd fd) (fun e => e.fd) fd
          (match_fd_iff fd) wait.fd_list).mp hfind)
      | some e =>
        have hm := find_some_mem _ _ e hfind
        have he := hge e hm.1
        have he2 := hle e hm.1
        have hne : e.ref ≠ INT32_MAX := hnw e hm.1 ((match_fd_iff fd e).mp hm.2)
        have := wf_after_update (fun e : ofi_wait_fd_entry => e.fd) (fun e => e.ref) _ fd_entry_inc wait.fd_list e n
          hfind (fun x => rfl) hnd hge hle
          (by simp only [fd_entry_inc, ofi_atomic_inc32, if_neg hne]; omega)
          (by simp only [fd_entry_inc, ofi_atomic_inc32, if_neg hne]; omega)
        exact ⟨this.1, this.2.1, this.2.2.1, this.2.2.2, rfl⟩
    · rw [hobj]
      have := wf_unchanged (fun e : ofi_wait_fd_entry => e.fd) (fun e => e.ref) wait.fd_list n hnd hge hle
      exact ⟨this.1, this.2.1, this.2.2.1, this.2.2.2, rfl⟩
    · rw [hobj]
      have := wf_after_append (fun e : ofi_wait_fd_entry => e.fd) (fun e => e.ref) wait.fd_list
        { fd := fd, wait_try := wait_try, arg := arg, ref := 1 } n hn hmem rfl hnd hge hle
      exact ⟨this.1, this.2.1, this.2.2.1, this.2.2.2, rfl⟩
  · intro fd
    rcases del_fd_paths env wait fd w with
      ⟨_, _, _, hobj⟩ | ⟨e, hfind, href, _, _, hobj⟩ | ⟨e, hfind, _, hmem, _, hobj⟩
    · rw [hobj]
      have := wf_unchanged (fun e : ofi_wait_fd_entry => e.fd) (fun e => e.ref) wait.fd_list n hnd hge hle
      exact ⟨this.1, this.2.1, this.2.2.1, this.2.2.2, rfl⟩
    · rw [hobj]
      have he := hge e (find_some_mem _ _ e hfind).1
      have he2 := hle e (find_some_mem _ _ e hfind).1
      have hne : e.ref ≠ INT32_MIN := by unfold INT32_MIN; omega
      have := wf_after_update (fun e : ofi_wait_fd_entry => e.fd) (fun e => e.ref) _ fd_entry_dec wait.fd_list e n
        hfind (fun x => rfl) hnd hge hle
        (by simp only [fd_entry_dec, ofi_atomic_dec32, if_neg hne]; omega)
        (by simp only [fd_entry_dec, ofi_atomic_dec32, if_neg hne]; omega)
      exact ⟨this.1, this.2.1, this.2.2.1, this.2.2.2, rfl⟩
    · rw [hobj]
      have := wf_after_remove (fun e : ofi_wait_fd_entry => e.fd) (fun e => e.ref) _ fd (match_fd_iff fd)
        wait.fd_list n hmem hnd hge hle
      exact ⟨this.1, this.2.1, this.2.2.1, this.2.2.2, rfl⟩

/-- One registration call of any of the four kinds that does not wrap a
refcount around keeps both registries well formed, raises no refcount by more
than 1 and keeps the order of the keys. -/
theorem reg_step_wf {S : Type} (env : Env S) (op : reg_op) (wait : util_wait_fd) (w : World S)
    (n : Int) (hn : 0 ≤ n) (hwf : registry_wf wait) (hle : refs_at_most wait n)
    (hnw : ¬ op_wraps op wait) :
    registry_wf (run_reg_op env op wait w).2.1 ∧
    refs_at_most (run_reg_op env op wait w).2.1 (n + 1) := by
  rcases hwf with ⟨hnd1, hnd2, hge1, hge2⟩
  rcases hle with ⟨hle1, hle2⟩
  have hle2' : ∀ e ∈ wait.fd_list, e.ref ≤ n + 1 := fun e he => by
    have := hle2 e he
    omega
  have hle1' : ∀ e ∈ wait.util_wait.fid_list, e.ref ≤ n + 1 := fun e he => by
    have := hle1 e he
    omega
  cases op with
  | add_fid fid events wait_try =>
    have h := (fid_step_wf env wait.util_wait w n hn hnd1 hge1 hle1).1 fid events wait_try
      (fun e he hk hr => hnw ⟨e, he, hk, hr⟩)
    exact ⟨⟨h.1, hnd2, h.2.1, hge2⟩, ⟨h.2.2.1, hle2'⟩⟩
  | del_fid fid =>
    have h := (fid_step_wf env wait.util_wait w n hn hnd1 hge1 hle1).2 fid
    exact ⟨⟨h.1, hnd2, h.2.1, hge2⟩, ⟨h.2.2.1, hle2'⟩⟩
  | add_fd fd events wait_try arg context =>
    have h := (fd_step_wf env wait w n hn hnd2 hge2 hle2).1 fd events wait_try arg context
      (fun e he hk hr => hnw ⟨e, he, hk, hr⟩)
    simp only [run_reg_op]
    rw [registry_wf, refs_at_most, h.2.2.2.2]
    exact ⟨⟨hnd1, h.1, hge1, h.2.1⟩, ⟨hle1', h.2.2.1⟩⟩
  | del_fd fd =>
    have h := (fd_step_wf env wait w n hn hnd2 hge2 hle2).2 fd
    simp only [run_reg_op]
    rw [registry_wf, refs_at_most, h.2.2.2.2]
    exact ⟨⟨hnd1, h.1, hge1, h.2.1⟩, ⟨hle1', h.2.2.1⟩⟩

/-- Along a sequence of registration calls none of which wraps a refcount
around, from well-formed registries, every state is well formed and the
refcounts grow by at most 1 per call. -/
theorem reg_states_wf {S : Type} (env : Env S) (ops : List reg_op) :
    ∀ (wait : util_wait_fd) (w : World S) (n : Int), 0 ≤ n → registry_wf wait →
      refs_at_most wait n → wrap_free env ops wait w →
      ∀ (i : Nat) (s : util_wait_fd), (reg_states env ops wait w)[i]? = some s →
        registry_wf s ∧ refs_at_most s (n + i) := by
  induction ops with
  | nil =>
    intro wait w n hn hwf hle _ i s hs
    cases i with
    | zero =>
      simp [reg_states] at hs
      subst hs
      exact ⟨hwf, by simpa using hle⟩
    | succ j => simp [reg_states] at hs
  | cons op ops ih =>
    intro wait w n hn hwf hle hfree i s hs
    have hstep := reg_step_wf env op wait w n hn hwf hle hfree.1
    have hrec := ih (run_reg_op env op wait w).2.1 (run_reg_op env op wait w).2.2 (n + 1)
      (by omega) hstep.1 hstep.2 hfree.2
    cases i with
    | zero =>
      simp [reg_states] at hs
      subst hs
      exact ⟨hwf, by simpa using hle⟩
    | succ j =>
      simp only [reg_states, List.getElem?_cons_succ] at hs
      have := hrec j s hs
      refine ⟨this.1, ?_⟩
      have hcast : n + ((j + 1 : Nat) : Int) = n + 1 + (j : Int) := by push_cast; ring
      rw [hcast]
      exact this.2

/-- A sequence of registration calls that is too short to bring a refcount to
`INT32_MAX` wraps no refcount around. -/
theorem short_wrap_free {S : Type} (env : Env S) (ops : List reg_op) :
    ∀ (wait : util_wait_fd) (w : World S) (n : Int), 0 ≤ n → registry_wf wait →
      refs_at_most wait n → n + (ops.length : Int) ≤ INT32_MAX →
      wrap_free env ops wait w := by
  induction ops with
  | nil =>
    intro wait w n _ _ _ _
    trivial
  | cons op ops ih =>
    intro wait w n hn hwf hle hshort
    have hlen : ((op :: ops).length : Int) = (ops.length : Int) + 1 := by simp
    rw [hlen] at hshort
    have hnw : ¬ op_wraps op wait := by
      cases op with
      | add_fid fid events wait_try =>
        rintro ⟨e, he, _, hr⟩
        have := hle.1 e he
        omega
      | del_fid fid => exact fun h => h
      | add_fd fd events wait_try arg context =>
        rintro ⟨e, he, _, hr⟩
        have := hle.2 e he
        omega
      | del_fd fd => exact fun h => h
    have hstep := reg_step_wf env op wait w n hn hwf hle hnw
    exact ⟨hnw, ih _ _ (n + 1) (by omega) hstep.1 hstep.2 (by omega)⟩

/-- The last state of a sequence of calls is the last state of the calls after
the first. -/
theorem reg_states_getLast_cons {S : Type} (env : Env S) (op : reg_op) (ops : List reg_op)
    (wait : util_wait_fd) (w : World S) :
    (reg_states env (op :: ops) wait w).getLast? =
      (reg_states env ops (run_reg_op env op wait w).2.1 (run_reg_op env op wait w).2.2).getLast? := by
  simp only [reg_states]
  cases h : reg_states env ops (run_reg_op env op wait w).2.1 (run_reg_op env op wait w).2.2 with
  | nil =>
    have := reg_states_length env ops (run_reg_op env op wait w).2.1 (run_reg_op env op wait w).2.2
    rw [h] at this
    simp at this
  | cons x xs => exact List.getLast?_cons_cons

/-- Adds of a descriptor that is the only one listed, with a refcount of
`wrap32 r`: after `n` further adds the refcount is `wrap32 (r + n)`. -/
theorem reg_states_shared_adds {S : Type} (env : Env S) (fd : Int)
    (events wait_try arg context : Nat) (wt a : Nat) :
    ∀ (n : Nat) (wait : util_wait_fd) (w : World S) (r : Int),
      wait.fd_list = [{ fd := fd, wait_try := wt, arg := a, ref := wrap32 r }] →
      (reg_states env (List.replicate n (reg_op.add_fd fd events wait_try arg context))
          wait w).getLast? =
        some { wait with
               fd_list := [{ fd := fd, wait_try := wt, arg := a, ref := wrap32 (r + n) }] } := by
  intro n
  induction n with
  | zero =>
    intro wait w r hl
    simp only [List.replicate, reg_states, List.getLast?_singleton]
    congr 1
    rcases wait with ⟨u, l, c⟩
    simp only at hl
    simp [hl]
  | succ n ih =>
    intro wait w r hl
    rw [List.replicate_succ, reg_states_getLast_cons]
    have hmem : fd ∈ fd_keys wait := by simp [fd_keys, hl]
    rcases add_fd_paths env wait fd events wait_try arg context w with
      ⟨_, _, hobj⟩ | ⟨hno, _, _⟩ | ⟨hno, _, _⟩
    · have hobj2 : (run_reg_op env (reg_op.add_fd fd events wait_try arg context) wait w).2.1 =
          { wait with
            fd_list := [{ fd := fd, wait_try := wt, arg := a, ref := wrap32 (r + 1) }] } := by
        simp only [run_reg_op]
        rw [hobj, hl]
        simp [update_first_match, ofi_wait_match_fd, fd_entry_inc, inc32_wrap32]
      rw [hobj2, ih _ _ (r + 1) rfl]
      have hr : r + 1 + (n : Int) = r + ((n + 1 : Nat) : Int) := by push_cast; omega
      rw [hr]
    · exact absurd hmem hno
    · exact absurd hmem hno

/-- C22, counterexample. On the wait object that `ofi_wait_fd_open` hands out
under `sample_env`, `2 ^ 31` calls of `ofi_wait_add_fd` for descriptor 5: the
first call lists the descriptor with refcount 1, each further call increments
the 32-bit refcount, and the last increment wraps `INT32_MAX` around to
`INT32_MIN`: the entry is listed with refcount `-2147483648`. So it is not the
case that after any sequence of registration calls every entry's refcount is
at least 1. -/
theorem registry_refcount_wrap_counterexample :
    ofi_wait_fd_open sample_env sample_open_env { ref := 1 }
      { wait_obj := FI_WAIT_FD, flags := 0 } sample_world =
        (0, some fresh_wait_fd, { ref := 2 }, fresh_world) ∧
    (reg_states sample_env
        (reg_op.add_fd 5 1 0 9 0 :: List.replicate 2147483647 (reg_op.add_fd 5 1 0 9 0))
        fresh_wait_fd fresh_world).getLast? =
      some { fresh_wait_fd with
             fd_list := [{ fd := 5, wait_try := 0, arg := 9, ref := -2147483648 }],
             change_index := 1 } ∧
    ¬ (∀ ops : List reg_op, ∀ s ∈ reg_states sample_env ops fresh_wait_fd fresh_world,
        registry_wf s) := by
  have h1 : run_reg_op sample_env (reg_op.add_fd 5 1 0 9 0) fresh_wait_fd fresh_world =
      (0, { fresh_wait_fd with
            fd_list := [{ fd := 5, wait_try := 0, arg := 9, ref := wrap32 1 }],
            change_index := 1 },
        { st := [4, 4, 5], trace := [Event.epoll_add 4 1 40 0, Event.epoll_add 5 1 0 0] }) := by
    decide
  have hwrap : wrap32 (1 + ((2147483647 : Nat) : Int)) = -2147483648 := by decide
  have hlast : (reg_states sample_env
        (reg_op.add_fd 5 1 0 9 0 :: List.replicate 2147483647 (reg_op.add_fd 5 1 0 9 0))
        fresh_wait_fd fresh_world).getLast? =
      some { fresh_wait_fd with
             fd_list := [{ fd := 5, wait_try := 0, arg := 9, ref := -2147483648 }],
             change_index := 1 } := by
    rw [reg_states_getLast_cons, h1]
    simp only []
    rw [reg_states_shared_adds sample_env 5 1 0 9 0 0 9 2147483647 _ _ 1 rfl, hwrap]
  refine ⟨by decide, hlast, ?_⟩
  intro hall
  have hwf := hall _ _ (List.mem_of_getLast?_eq_some hlast)
  have := hwf.2.2.2 { fd := 5, wait_try := 0, arg := 9, ref := -2147483648 }
    (List.mem_singleton.mpr rfl)
  exact absurd this (by decide)

/-- C22, amended. Starting from the wait object that a successful
`ofi_wait_fd_open` hands out, after any sequence of calls of
`ofi_wait_add_fid`, `ofi_wait_del_fid`, `ofi_wait_add_fd` and
`ofi_wait_del_fd`, whatever each of them returns: there is one state per call
made; in every state no fid and no descriptor is listed twice; and every call
leaves the sequence of fids and the sequence of descriptors as it was, or puts
one new key at the tail, or takes one key out, so the entries that remain keep
their order of insertion. Every entry's refcount is at least 1 in every state
provided that no add of the sequence finds its key listed with a refcount of
`INT32_MAX`, where the 32-bit increment wraps around; no sequence of at most
`2 ^ 31 - 1` calls has such an add, and in such a sequence no refcount exceeds
the number of calls made so far. -/
theorem registry_wf_invariant {S : Type} (env : Env S) (oenv : OpenEnv S) (fabric : util_fabric)
    (attr : fi_wait_attr) (w0 : World S) (wait0 : util_wait_fd) (fabric1 : util_fabric)
    (w1 : World S)
    (hopen : ofi_wait_fd_open env oenv fabric attr w0 = (0, some wait0, fabric1, w1))
    (ops : List reg_op) :
    (reg_states env ops wait0 w1).length = ops.length + 1 ∧
    (∀ s ∈ reg_states env ops wait0 w1, keys_nodup s) ∧
    List.Chain' (fun a b : util_wait_fd =>
        order_kept (fid_keys a.util_wait) (fid_keys b.util_wait) ∧
        order_kept (fd_keys a) (fd_keys b))
      (reg_states env ops wait0 w1) ∧
    (wrap_free env ops wait0 w1 →
      ∀ s ∈ reg_states env ops wait0 w1, registry_wf s) ∧
    ((ops.length : Int) ≤ INT32_MAX →
      wrap_free env ops wait0 w1 ∧
      ∀ (i : Nat) (s : util_wait_fd), (reg_states env ops wait0 w1)[i]? = some s →
        refs_at_most s i) := by
  have h0 : (ofi_wait_fd_open env oenv fabric attr w0).1 = 0 := by rw [hopen]
  have hs := fd_open_success env oenv fabric attr w0 h0
  have hinit := (wait_init_spec oenv fabric attr zeroed_util_wait
    { w0 with st := (env.calloc w0.st).2 }).1 hs.2.1
  have hsome := hs.2.2.1
  rw [hopen] at hsome
  have hw := Option.some.inj hsome
  have hfid : wait0.util_wait.fid_list = [] := by rw [hw]; exact hinit.2.2.2.1
  have hfd : wait0.fd_list = [] := by rw [hw]
  have hwf : registry_wf wait0 := by
    simp [registry_wf, fid_keys, fd_keys, hfid, hfd]
  have hle : refs_at_most wait0 0 := by
    simp [refs_at_most, hfid, hfd]
  have hk := reg_states_keys env ops wait0 w1 ⟨hwf.1, hwf.2.1⟩
  refine ⟨reg_states_length env ops wait0 w1, hk.1, hk.2, ?_, ?_⟩
  · intro hfree s hs
    obtain ⟨i, hi⟩ := List.mem_iff_getElem?.mp hs
    exact (reg_states_wf env ops wait0 w1 0 (le_refl 0) hwf hle hfree i s hi).1
  · intro hshort
    have hfree := short_wrap_free env ops wait0 w1 0 (le_refl 0) hwf hle (by omega)
    refine ⟨hfree, ?_⟩
    intro i s hi
    have := (reg_states_wf env ops wait0 w1 0 (le_refl 0) hwf hle hfree i s hi).2
    simpa using this

/-- Witness for C22: eight calls on a freshly opened `FI_WAIT_FD` object under
`sample_env`. -/
theorem registry_wf_invariant_witness :
    ofi_wait_fd_open sample_env sample_open_env { ref := 1 }
      { wait_obj := FI_WAIT_FD, flags := 0 } sample_world =
        (0, some fresh_wait_fd, { ref := 2 }, fresh_world) ∧
    (reg_states sample_env sample_reg_ops fresh_wait_fd fresh_world).length =
      sample_reg_ops.length + 1 ∧
    (∀ s ∈ reg_states sample_env sample_reg_ops fresh_wait_fd fresh_world, keys_nodup s) ∧
    List.Chain' (fun a b : util_wait_fd =>
        order_kept (fid_keys a.util_wait) (fid_keys b.util_wait) ∧
        order_kept (fd_keys a) (fd_keys b))
      (reg_states sample_env sample_reg_ops fresh_wait_fd fresh_world) ∧
    wrap_free sample_env sample_reg_ops fresh_wait_fd fresh_world ∧
    (∀ s ∈ reg_states sample_env sample_reg_ops fresh_wait_fd fresh_world, registry_wf s) ∧
    (∀ (i : Nat) (s : util_wait_fd),
      (reg_states sample_env sample_reg_ops fresh_wait_fd fresh_world)[i]? = some s →
      refs_at_most s i) :=
  have h := registry_wf_invariant sample_env sample_open_env { ref := 1 }
     { wait_obj := FI_WAIT_FD, flags := 0 } sample_world fresh_wait_fd { ref := 2 } fresh_world
     (by decide) sample_reg_ops
  ⟨by decide, h.1, h.2.1, h.2.2.1, (h.2.2.2.2 (by decide)).1,
    h.2.2.2.1 (h.2.2.2.2 (by decide)).1, (h.2.2.2.2 (by decide)).2⟩

/-- The fids, the descriptors with their refcounts and the change counter after
each call of `sample_reg_ops`. -/
theorem sample_reg_states :
    (reg_states sample_env sample_reg_ops fresh_wait_fd fresh_world).map
        (fun s => (fid_keys s.util_wait, s.fd_list.map (fun e => (e.fd, e.ref)), s.change_index)) =
      [([], [], 0), ([], [(5, 1)], 1), ([3], [(5, 1)], 1), ([3], [(5, 2)], 1),
       ([3], [(5, 1)], 1), ([3], [(5, 1), (7, 1)], 2), ([3], [(7, 1)], 3), ([], [(7, 1)], 3),
       ([], [(7, 1)], 3)] := by
  decide

theorem fid_states_head {S : Type} (env : Env S) (ops : List (Nat × fid_op)) (wait : util_wait)
    (w : World S) : (fid_states env ops wait w).head? = some wait := by
  cases ops <;> rfl

/-- Along a sequence of fid registrations and removals on a `util_wait` of any
kind that starts from a well-formed fid registry and is too short to bring a
refcount to `INT32_MAX`, every state is well formed, the refcounts grow by at
most 1 per call, and every call keeps the order of the fids. -/
theorem fid_states_wf {S : Type} (env : Env S) (ops : List (Nat × fid_op)) :
    ∀ (wait : util_wait) (w : World S) (n : Int), 0 ≤ n → (fid_keys wait).Nodup →
      (∀ e ∈ wait.fid_list, 1 ≤ e.ref) → (∀ e ∈ wait.fid_list, e.ref ≤ n) →
      n + (ops.length : Int) ≤ INT32_MAX →
      (∀ (i : Nat) (s : util_wait), (fid_states env ops wait w)[i]? = some s →
        (fid_keys s).Nodup ∧ (∀ e ∈ s.fid_list, 1 ≤ e.ref) ∧ (∀ e ∈ s.fid_list, e.ref ≤ n + i)) ∧
      List.Chain' (fun a b : util_wait => order_kept (fid_keys a) (fid_keys b))
        (fid_states env ops wait w) := by
  induction ops with
  | nil =>
    intro wait w n hn hnd hge hle _
    refine ⟨?_, by simp [fid_states]⟩
    intro i s hs
    cases i with
    | zero =>
      simp [fid_states] at hs
      subst hs
      exact ⟨hnd, hge, by simpa using hle⟩
    | succ j => simp [fid_states] at hs
  | cons op ops ih =>
    intro wait w n hn hnd hge hle hshort
    have hlen : ((op :: ops).length : Int) = (ops.length : Int) + 1 := by simp
    rw [hlen] at hshort
    have hnw : ∀ e ∈ wait.fid_list, e.fid = op.1 → e.ref ≠ INT32_MAX := fun e he _ hr => by
      have := hle e he
      omega
    have hstep : (fid_keys (run_fid_op env op.1 op.2 wait w).2.1).Nodup ∧
        (∀ e ∈ (run_fid_op env op.1 op.2 wait w).2.1.fid_list, 1 ≤ e.ref) ∧
        (∀ e ∈ (run_fid_op env op.1 op.2 wait w).2.1.fid_list, e.ref ≤ n + 1) ∧
        order_kept (fid_keys wait) (fid_keys (run_fid_op env op.1 op.2 wait w).2.1) := by
      rcases op with ⟨fid, o⟩
      cases o with
      | add events wait_try =>
        exact (fid_step_wf env wait w n hn hnd hge hle).1 fid events wait_try hnw
      | del => exact (fid_step_wf env wait w n hn hnd hge hle).2 fid
    have hrec := ih (run_fid_op env op.1 op.2 wait w).2.1 (run_fid_op env op.1 op.2 wait w).2.2
      (n + 1) (by omega) hstep.1 hstep.2.1 hstep.2.2.1 (by omega)
    constructor
    · intro i s hs
      cases i with
      | zero =>
        simp [fid_states] at hs
        subst hs
        exact ⟨hnd, hge, by simpa using hle⟩
      | succ j =>
        simp only [fid_states, List.getElem?_cons_succ] at hs
        have := hrec.1 j s hs
        refine ⟨this.1, this.2.1, ?_⟩
        have hcast : n + ((j + 1 : Nat) : Int) = n + 1 + (j : Int) := by push_cast; ring
        rw [hcast]
        exact this.2.2
    · simp only [fid_states]
      rw [List.chain'_cons']
      refine ⟨?_, hrec.2⟩
      intro y hy
      rw [fid_states_head] at hy
      cases hy
      exact hstep.2.2.2

/-- The fid registry of a yield wait object: starting from the object that a
successful `ofi_wait_yield_open` hands out, after a sequence of at most
`2 ^ 31 - 1` calls of `ofi_wait_add_fid` and `ofi_wait_del_fid` no fid is
listed twice, every refcount is at least 1 and at most the number of calls
made, and every call keeps the order of the fids. -/
theorem yield_registry_wf {S : Type} (env : Env S) (oenv : OpenEnv S) (fabric : util_fabric)
    (attr : fi_wait_attr) (w0 : World S) (wait0 : util_wait_yield) (attr1 : fi_wait_attr)
    (fabric1 : util_fabric) (w1 : World S)
    (hopen : ofi_wait_yield_open env oenv fabric attr w0 = (0, some wait0, attr1, fabric1, w1))
    (ops : List (Nat × fid_op)) (hshort : (ops.length : Int) ≤ INT32_MAX) :
    (∀ (i : Nat) (s : util_wait), (fid_states env ops wait0.util_wait w1)[i]? = some s →
      (fid_keys s).Nodup ∧ (∀ e ∈ s.fid_list, 1 ≤ e.ref) ∧ (∀ e ∈ s.fid_list, e.ref ≤ i)) ∧
    List.Chain' (fun a b : util_wait => order_kept (fid_keys a) (fid_keys b))
      (fid_states env ops wait0.util_wait w1) := by
  have h0 : (ofi_wait_yield_open env oenv fabric attr w0).1 = 0 := by rw [hopen]
  have hs := yield_open_success env oenv fabric attr w0 h0
  have hinit := (wait_init_spec oenv fabric { attr with wait_obj := FI_WAIT_YIELD }
    zeroed_util_wait { w0 with st := (env.calloc w0.st).2 }).1 hs.1
  have hsome := hs.2.1
  rw [hopen] at hsome
  have hw := Option.some.inj hsome
  have hfid : wait0.util_wait.fid_list = [] := by rw [hw]; exact hinit.2.2.2.1
  have h := fid_states_wf env ops wait0.util_wait w1 0 (le_refl 0)
    (by simp [fid_keys, hfid]) (by simp [hfid]) (by simp [hfid]) (by omega)
  refine ⟨?_, h.2⟩
  intro i s hs
  have := h.1 i s hs
  exact ⟨this.1, this.2.1, by simpa using this.2.2⟩

/-- Along any sequence of registration calls the change counter never goes
down, and one call raises it by 1 at most. -/
theorem change_index_monotone {S : Type} (env : Env S) (ops : List reg_op) :
    ∀ (wait : util_wait_fd) (w : World S),
      List.Chain' (fun a b : util_wait_fd =>
          a.change_index ≤ b.change_index ∧ b.change_index ≤ a.change_index + 1)
        (reg_states env ops wait w) := by
  induction ops with
  | nil => intro wait w; simp [reg_states]
  | cons op ops ih =>
    intro wait w
    simp only [reg_states]
    rw [List.chain'_cons']
    refine ⟨?_, ih _ _⟩
    intro y hy
    rw [reg_states_head] at hy
    cases hy
    cases op with
    | add_fid fid events wait_try => simp [run_reg_op]
    | del_fid fid => simp [run_reg_op]
    | add_fd fd events wait_try arg context =>
      simp only [run_reg_op]
      rcases add_fd_paths env wait fd events wait_try arg context w with
        ⟨_, _, hobj⟩ | ⟨_, _, hobj⟩ | ⟨_, _, hobj⟩ <;> rw [hobj] <;> simp
    | del_fd fd =>
      simp only [run_reg_op]
      rcases del_fd_paths env wait fd w with
        ⟨_, _, _, hobj⟩ | ⟨e, _, _, _, _, hobj⟩ | ⟨e, _, _, _, _, hobj⟩ <;> rw [hobj] <;> simp

/-! ## The yield wait object: a callback returns a code -/

/-- While the signal flag is clear, `k` passes without a non-zero code use up
`k` units of fuel and leave the loop where it started, in the world
`idle_passes` computes. -/
theorem yield_run_after_idle {S : Type} (env : Env S) (wait : util_wait_yield) (timeout : Int)
    (hs : wait.signal = 0) (k : Nat) :
    ∀ (w wk : World S), idle_passes env wait.util_wait.fid_list k w = some wk →
      ∀ fuel : Nat, util_wait_yield_run env wait timeout (fuel + k) w =
        util_wait_yield_run env wait timeout fuel wk := by
  induction k with
  | zero =>
    intro w wk h fuel
    simp only [idle_passes, Option.some.injEq] at h
    rw [h]
    rfl
  | succ k ih =>
    intro w wk h fuel
    simp only [idle_passes] at h
    rw [← try_fid_entries_eq] at h
    rcases hx : try_fid_entries env wait.util_wait.fid_list w with ⟨o, w1⟩
    rw [hx] at h
    cases o with
    | some ret => simp at h
    | none =>
      simp only at h
      have hstep : util_wait_yield_run env wait timeout (fuel + (k + 1)) w =
          util_wait_yield_run env wait timeout (fuel + k)
            { w1 with st := env.pthread_yield w1.st } := by
        rw [show fuel + (k + 1) = (fuel + k) + 1 from rfl]
        conv_lhs => unfold util_wait_yield_run
        simp [hs, hx]
      rw [hstep]
      exact ih _ wk h fuel

/-- C23. On a yield wait object whose signal flag is clear: when, after `k`
passes in which every callback returned 0, a pass comes in which the
callbacks of the entries `pre` return 0 and the callback of the next entry `e`
returns a code `r` other than 0 (`-FI_EAGAIN` included), then
`util_wait_yield_run`, given fuel for more than `k` passes, returns `r`; the
log of that pass is the callbacks of `pre` in list order followed by the call
for `e`, so no entry after `e` is called; and the wait object, its signal
flag included, is as before. -/
theorem yield_run_first_error {S : Type} (env : Env S) (wait : util_wait_yield) (timeout : Int)
    (k : Nat) (w wk wp : World S) (pre post : List ofi_wait_fid_entry) (e : ofi_wait_fid_entry)
    (r : Int)
    (hs : wait.signal = 0)
    (hidle : idle_passes env wait.util_wait.fid_list k w = some wk)
    (hl : wait.util_wait.fid_list = pre ++ e :: post)
    (hpre : try_callbacks env (pre.map (fun x => (x.wait_try, x.fid))) wk = (none, wp))
    (hr : (env.wait_try e.wait_try e.fid wp.st).1 = r) (hne : r ≠ 0) :
    wp.trace = wk.trace ++ pre.map (fun x => ev_ok (x.wait_try, x.fid)) ∧
    ∀ fuel : Nat, k < fuel →
      util_wait_yield_run env wait timeout fuel w =
        (some r, wait,
          { st := (env.wait_try e.wait_try e.fid wp.st).2,
            trace := wp.trace ++ [Event.wait_try e.wait_try e.fid r] }) := by
  constructor
  · rcases try_callbacks_spec env (pre.map (fun x => (x.wait_try, x.fid))) wk with
      ⟨_, h2⟩ | ⟨_, _, _, _, _, _, h1, _⟩
    · rw [hpre] at h2
      simpa using h2
    · rw [hpre] at h1
      cases h1
  · intro fuel hk
    obtain ⟨f, rfl⟩ : ∃ f, fuel = (f + 1) + k := ⟨fuel - k - 1, by omega⟩
    rw [yield_run_after_idle env wait timeout hs k w wk hidle (f + 1)]
    have htry : try_fid_entries env wait.util_wait.fid_list wk =
        (some r, { st := (env.wait_try e.wait_try e.fid wp.st).2,
                   trace := wp.trace ++ [Event.wait_try e.wait_try e.fid r] }) := by
      have hne1 : r ≠ FI_SUCCESS := hne
      rw [try_fid_entries_eq, hl, List.map_append, try_callbacks_append, hpre]
      simp [try_callbacks, call_wait_try, hne1, hr]
    conv_lhs => unfold util_wait_yield_run
    simp [hs, htry]

/-- Witness for C23: two passes without a code, then the callback of fid 4
returns `-FI_EAGAIN`; the callback of fid 5 is not called in that pass. -/
theorem yield_run_first_error_witness :
    util_wait_yield_run late_ready_env sample_wait_yield 0 3 sample_world =
      (some (-FI_EAGAIN), sample_wait_yield,
        { st := [4, 0, 0],
          trace := idle_pass_log ++ idle_pass_log ++
            [Event.wait_try 0 3 0, Event.wait_try 1 4 (-FI_EAGAIN)] }) :=
  (yield_run_first_error late_ready_env sample_wait_yield 0 2 sample_world
    { st := [4, 0, 0], trace := idle_pass_log ++ idle_pass_log }
    { st := [4, 0, 0], trace := idle_pass_log ++ idle_pass_log ++ [Event.wait_try 0 3 0] }
    [{ fid := 3, wait_try := 0, events := 1, ref := 1 }]
    [{ fid := 5, wait_try := 2, events := 1, ref := 1 }]
    { fid := 4, wait_try := 1, events := 1, ref := 1 } (-FI_EAGAIN)
    rfl (by decide) rfl (by decide) (by decide) (by decide)).2 3 (by decide)

/-! ## The tag mask that `psmx_reserve_tag_bits` returns -/

/-- The second block of `psmx_reserve_tag_bits` and its epilogue, entered with
`reserved_bits = rb1` and `ret_caps = rc1`. -/
theorem reserve_rma_block (c : psmx_consts) (env : psmx_env_t) (caps max_tag_value rb1 rc1 : Nat) :
    (caps ≠ 0 ∧ (int_to_u64 rc1 &&& c.FI_RMA) ≠ 0 ∧ env.tagged_rma ≠ 0 ∧
      ¬ max_tag_value < c.PSMX_RMA_BIT ∧
      (match (if (int_to_u64 rc1 &&& c.FI_RMA) ≠ 0 ∧ env.tagged_rma ≠ 0 then
          if max_tag_value < c.PSMX_RMA_BIT then
            some (u64_to_int (int_to_u64 rb1 ||| c.PSMX_RMA_BIT), rc1)
          else if caps ≠ 0 then none
          else some (rb1, u64_to_int (int_to_u64 rc1 &&& not_u64 c.FI_RMA))
        else some (rb1, rc1) : Option (Nat × Nat)) with
      | none => ((-1 : Int), caps, max_tag_value)
      | some (reserved_bits, ret_caps) =>
        (0, ret_caps, int_to_u64 (not_int (reserved_bits ||| shl_int reserved_bits 1)))) =
        (-1, caps, max_tag_value)) ∨
    (∃ (rma : Bool) (rc : Nat),
      (rma = true ↔ ((int_to_u64 rc1 &&& c.FI_RMA) ≠ 0 ∧ env.tagged_rma ≠ 0) ∧
        max_tag_value < c.PSMX_RMA_BIT) ∧
      (caps ≠ 0 → rc = rc1) ∧
      (∀ i, rc.testBit i = true → rc1.testBit i = true) ∧
      (match (if (int_to_u64 rc1 &&& c.FI_RMA) ≠ 0 ∧ env.tagged_rma ≠ 0 then
          if max_tag_value < c.PSMX_RMA_BIT then
            some (u64_to_int (int_to_u64 rb1 ||| c.PSMX_RMA_BIT), rc1)
          else if caps ≠ 0 then none
          else some (rb1, u64_to_int (int_to_u64 rc1 &&& not_u64 c.FI_RMA))
        else some (rb1, rc1) : Option (Nat × Nat)) with
      | none => ((-1 : Int), caps, max_tag_value)
      | some (reserved_bits, ret_caps) =>
        (0, ret_caps, int_to_u64 (not_int (reserved_bits ||| shl_int reserved_bits 1)))) =
        (0, rc, int_to_u64 (not_int
          ((if rma then u64_to_int (int_to_u64 rb1 ||| c.PSMX_RMA_BIT) else rb1) |||
            shl_int (if rma then u64_to_int (int_to_u64 rb1 ||| c.PSMX_RMA_BIT) else rb1) 1)))) := by
  by_cases h : (int_to_u64 rc1 &&& c.FI_RMA) ≠ 0 ∧ env.tagged_rma ≠ 0
  · by_cases hlt : max_tag_value < c.PSMX_RMA_BIT
    · right
      refine ⟨true, rc1, by simp [h, hlt], fun _ => rfl, fun i hi => hi, ?_⟩
      rw [if_pos h, if_pos hlt]
      rfl
    · by_cases hc : caps ≠ 0
      · left
        refine ⟨hc, h.1, h.2, hlt, ?_⟩
        rw [if_pos h, if_neg hlt, if_pos hc]
      · right
        refine ⟨false, u64_to_int (int_to_u64 rc1 &&& not_u64 c.FI_RMA), by simp [hlt],
          fun h0 => absurd h0 hc, ?_, ?_⟩
        · intro i hi
          by_cases h32 : i < 32
          · rw [clear_bits_testBit rc1 c.FI_RMA i h32] at hi
            simp only [Bool.and_eq_true] at hi
            exact hi.1
          · exfalso
            have hlt32 : u64_to_int (int_to_u64 rc1 &&& not_u64 c.FI_RMA) < 2 ^ i :=
              lt_of_lt_of_le (Nat.mod_lt _ (by norm_num))
                (Nat.pow_le_pow_right (by norm_num) (by omega))
            rw [Nat.testBit_lt_two_pow hlt32] at hi
            cases hi
        · rw [if_pos h, if_neg hlt, if_neg hc]
          rfl
  · right
    refine ⟨false, rc1, by simp [h], fun _ => rfl, fun i hi => hi, ?_⟩
    rw [if_neg h]
    rfl

/-- The outcomes of `psmx_reserve_tag_bits`: it returns -1 and leaves its
arguments alone, which takes a non-zero `*caps`; or it returns 0 with the
capabilities kept (`*caps` non-zero) or narrowed from `PSMX_CAPS` (`*caps`
zero) and the mask computed from the `int reserved_bits`. -/
theorem reserve_cases (c : psmx_consts) (env : psmx_env_t) (caps max_tag_value : Nat) :
    (caps ≠ 0 ∧ psmx_reserve_tag_bits c env caps max_tag_value = (-1, caps, max_tag_value)) ∨
    (∃ rc : Nat, (caps ≠ 0 → rc = caps) ∧
      (caps = 0 → ∀ i, rc.testBit i = true → c.PSMX_CAPS.testBit i = true) ∧
      psmx_reserve_tag_bits c env caps max_tag_value =
        (0, rc, int_to_u64 (not_int
          (int_reserved_bits c (msg_bit_reserved c env caps max_tag_value)
              (rma_bit_reserved c env caps max_tag_value) |||
            shl_int (int_reserved_bits c (msg_bit_reserved c env caps max_tag_value)
              (rma_bit_reserved c env caps max_tag_value)) 1)))) := by
  have hcapsbit : ∀ i, (u64_to_int c.PSMX_CAPS).testBit i = true → c.PSMX_CAPS.testBit i = true := by
    intro i hi
    unfold u64_to_int at hi
    rw [Nat.testBit_mod_two_pow] at hi
    simp only [Bool.and_eq_true] at hi
    exact hi.2
  have hrc0 : ∀ i, caps = 0 →
      (if caps ≠ 0 then caps else u64_to_int c.PSMX_CAPS).testBit i = true →
      c.PSMX_CAPS.testBit i = true := by
    intro i h0 hi
    rw [if_neg (not_not.mpr h0)] at hi
    exact hcapsbit i hi
  -- the conclusion, given what the second block is entered with
  have hfin : ∀ (msg : Bool) (rb1 rc1 : Nat),
      msg_bit_reserved c env caps max_tag_value = msg →
      caps_after_msg c env caps max_tag_value = rc1 →
      rb1 = (if msg then u64_to_int (int_to_u64 0 ||| c.PSMX_MSG_BIT) else 0) →
      (caps ≠ 0 → rc1 = caps) →
      (caps = 0 → ∀ i, rc1.testBit i = true → c.PSMX_CAPS.testBit i = true) →
      (caps ≠ 0 ∧
        (match (if (int_to_u64 rc1 &&& c.FI_RMA) ≠ 0 ∧ env.tagged_rma ≠ 0 then
            if max_tag_value < c.PSMX_RMA_BIT then
              some (u64_to_int (int_to_u64 rb1 ||| c.PSMX_RMA_BIT), rc1)
            else if caps ≠ 0 then none
            else some (rb1, u64_to_int (int_to_u64 rc1 &&& not_u64 c.FI_RMA))
          else some (rb1, rc1) : Option (Nat × Nat)) with
        | none => ((-1 : Int), caps, max_tag_value)
        | some (reserved_bits, ret_caps) =>
          (0, ret_caps, int_to_u64 (not_int (reserved_bits ||| shl_int reserved_bits 1)))) =
          (-1, caps, max_tag_value)) ∨
      (∃ rc : Nat, (caps ≠ 0 → rc = caps) ∧
        (caps = 0 → ∀ i, rc.testBit i = true → c.PSMX_CAPS.testBit i = true) ∧
        (match (if (int_to_u64 rc1 &&& c.FI_RMA) ≠ 0 ∧ env.tagged_rma ≠ 0 then
            if max_tag_value < c.PSMX_RMA_BIT then
              some (u64_to_int (int_to_u64 rb1 ||| c.PSMX_RMA_BIT), rc1)
            else if caps ≠ 0 then none
            else some (rb1, u64_to_int (int_to_u64 rc1 &&& not_u64 c.FI_RMA))
          else some (rb1, rc1) : Option (Nat × Nat)) with
        | none => ((-1 : Int), caps, max_tag_value)
        | some (reserved_bits, ret_caps) =>
          (0, ret_caps, int_to_u64 (not_int (reserved_bits ||| shl_int reserved_bits 1)))) =
          (0, rc, int_to_u64 (not_int
            (int_reserved_bits c (msg_bit_reserved c env caps max_tag_value)
                (rma_bit_reserved c env caps max_tag_value) |||
              shl_int (int_reserved_bits c (msg_bit_reserved c env caps max_tag_value)
                (rma_bit_reserved c env caps max_tag_value)) 1)))) := by
    intro msg rb1 rc1 hmsg hafter hrb1 hkeep hsub
    rcases reserve_rma_block c env caps max_tag_value rb1 rc1 with
      ⟨hc, _, _, _, heq⟩ | ⟨rma, rc, hiff, hrc, hbits, heq⟩
    · exact Or.inl ⟨hc, heq⟩
    · right
      have hrma : rma_bit_reserved c env caps max_tag_value = rma := by
        unfold rma_bit_reserved
        rw [hafter]
        cases rma with
        | true => exact decide_eq_true (hiff.mp rfl)
        | false =>
          apply decide_eq_false
          intro hcon
          have := hiff.mpr hcon
          cases this
      refine ⟨rc, fun h => (hrc h).trans (hkeep h), fun h0 i hi => hsub h0 i (hbits i hi), ?_⟩
      rw [hmsg, hrma]
      unfold int_reserved_bits
      simp only []
      rw [← hrb1]
      exact heq
  by_cases hm : (int_to_u64 (if caps ≠ 0 then caps else u64_to_int c.PSMX_CAPS) &&& c.FI_MSG) ≠ 0 ∧
      env.am_msg = 0
  · by_cases hlt : max_tag_value < c.PSMX_MSG_BIT
    · have h := hfin true (u64_to_int (int_to_u64 0 ||| c.PSMX_MSG_BIT))
        (if caps ≠ 0 then caps else u64_to_int c.PSMX_CAPS)
        (by unfold msg_bit_reserved; exact decide_eq_true ⟨hm, hlt⟩)
        (by unfold caps_after_msg; rw [if_neg (fun h => h.2.1 hlt)])
        rfl (fun hc => if_pos hc) (fun h0 i hi => hrc0 i h0 hi)
      unfold psmx_reserve_tag_bits
      simp only []
      rw [if_pos hm, if_pos hlt]
      exact h
    · by_cases hc : caps ≠ 0
      · left
        refine ⟨hc, ?_⟩
        unfold psmx_reserve_tag_bits
        simp only []
        rw [if_pos hm, if_neg hlt, if_pos hc]
      · have hc0 : caps = 0 := not_not.mp hc
        have h := hfin false 0
          (u64_to_int (int_to_u64 (u64_to_int c.PSMX_CAPS) &&& not_u64 c.FI_MSG))
          (by unfold msg_bit_reserved; exact decide_eq_false (fun h => hlt h.2))
          (by unfold caps_after_msg; rw [if_pos ⟨hm, hlt, hc0⟩])
          rfl (fun h => absurd h hc)
          (fun _ i hi => by
            by_cases h32 : i < 32
            · rw [clear_bits_testBit _ c.FI_MSG i h32] at hi
              simp only [Bool.and_eq_true] at hi
              exact hcapsbit i hi.1
            · exfalso
              have hlt32 : u64_to_int (int_to_u64 (u64_to_int c.PSMX_CAPS) &&& not_u64 c.FI_MSG)
                  < 2 ^ i :=
                lt_of_lt_of_le (Nat.mod_lt _ (by norm_num))
                  (Nat.pow_le_pow_right (by norm_num) (by omega))
              rw [Nat.testBit_lt_two_pow hlt32] at hi
              cases hi)
        unfold psmx_reserve_tag_bits
        simp only []
        rw [if_pos hm, if_neg hlt, if_neg hc]
        simp only [hc0, ne_eq, not_true_eq_false, if_false] at h ⊢
        exact h
  · have h := hfin false 0 (if caps ≠ 0 then caps else u64_to_int c.PSMX_CAPS)
      (by unfold msg_bit_reserved; exact decide_eq_false (fun h => hm h.1))
      (by unfold caps_after_msg; rw [if_neg (fun h => hm h.1)])
      rfl (fun hc => if_pos hc) (fun h0 i hi => hrc0 i h0 hi)
    unfold psmx_reserve_tag_bits
    simp only []
    rw [if_neg hm]
    exact h

theorem xor_ones_eq_sub (n x : Nat) (hx : x < 2 ^ n) : (2 ^ n - 1) ^^^ x = 2 ^ n - 1 - x := by
  apply Nat.eq_of_testBit_eq
  intro i
  have h : 2 ^ n - 1 - x = 2 ^ n - (x + 1) := by omega
  rw [h, Nat.testBit_xor, Nat.testBit_two_pow_sub_one, Nat.testBit_two_pow_sub_succ hx]
  by_cases hi : i < n
  · simp [hi]
  · have hlt : x < 2 ^ i := lt_of_lt_of_le hx (Nat.pow_le_pow_right (by norm_num) (by omega))
    simp [hi, Nat.testBit_lt_two_pow hlt]

/-- The statement `*max_tag_value = ~reserved_bits` for an `int` whose sign bit
is clear: the conversion to `uint64_t` extends the sign of the complement, so
the result is the 64-bit complement. -/
theorem not_int_sign_extended (x : Nat) (hx : x < 2 ^ 31) :
    int_to_u64 (not_int x) = not_u64 x := by
  unfold not_int not_u64
  rw [xor_ones_eq_sub 32 x (by omega), xor_ones_eq_sub 64 x (by omega)]
  unfold int_to_u64
  split <;> omega

/-- When both reserved bits lie above the 32 bits of an `int`, every call that
succeeds returns the all-ones mask, whatever it decided to reserve. -/
theorem reserve_mask_high_bits (c : psmx_consts) (env : psmx_env_t) (caps max_tag_value : Nat)
    (hmsg : c.PSMX_MSG_BIT % 2 ^ 32 = 0) (hrma : c.PSMX_RMA_BIT % 2 ^ 32 = 0)
    (hok : (psmx_reserve_tag_bits c env caps max_tag_value).1 = 0) :
    (psmx_reserve_tag_bits c env caps max_tag_value).2.2 = 2 ^ 64 - 1 := by
  have hz : int_to_u64 0 = 0 := by decide
  have h1 : u64_to_int (int_to_u64 0 ||| c.PSMX_MSG_BIT) = 0 := by
    rw [hz, Nat.zero_or]; exact hmsg
  have h2 : u64_to_int (int_to_u64 0 ||| c.PSMX_RMA_BIT) = 0 := by
    rw [hz, Nat.zero_or]; exact hrma
  have hrb : ∀ msg rma : Bool, int_reserved_bits c msg rma = 0 := by
    intro msg rma
    cases msg <;> cases rma <;> simp [int_reserved_bits, h1, h2]
  rcases reserve_cases c env caps max_tag_value with ⟨_, hfail⟩ | ⟨rc, _, _, heq⟩
  · rw [hfail] at hok
    simp at hok
  · rw [heq, hrb]
    show int_to_u64 (not_int (0 ||| shl_int 0 1)) = 2 ^ 64 - 1
    decide

/-- When both reserved bits lie below bit 30, so that the doubled reservation
fits below the sign bit of an `int`, every call that succeeds returns the
64-bit complement of `r | (r << 1)` for the union `r` of the bits it decided
to reserve. -/
theorem reserve_mask_low_bits (c : psmx_consts) (env : psmx_env_t) (caps max_tag_value : Nat)
    (hmsg : c.PSMX_MSG_BIT < 2 ^ 30) (hrma : c.PSMX_RMA_BIT < 2 ^ 30)
    (hok : (psmx_reserve_tag_bits c env caps max_tag_value).1 = 0) :
    (psmx_reserve_tag_bits c env caps max_tag_value).2.2 =
      spec_tag_mask (decided_bits c env caps max_tag_value) := by
  have hz : int_to_u64 0 = 0 := by decide
  have hid : ∀ x : Nat, x < 2 ^ 30 → int_to_u64 x = x := by
    intro x hx
    unfold int_to_u64
    rw [if_pos (by omega)]
  have hmod : ∀ x : Nat, x < 2 ^ 30 → u64_to_int x = x := by
    intro x hx
    unfold u64_to_int
    exact Nat.mod_eq_of_lt (by omega)
  have hrb : ∀ msg rma : Bool, int_reserved_bits c msg rma =
      (if msg then c.PSMX_MSG_BIT else 0) ||| (if rma then c.PSMX_RMA_BIT else 0) := by
    intro msg rma
    have h1 : u64_to_int (int_to_u64 0 ||| c.PSMX_MSG_BIT) = c.PSMX_MSG_BIT := by
      rw [hz, Nat.zero_or]; exact hmod _ hmsg
    cases msg <;> cases rma
    · simp [int_reserved_bits]
    · simp only [int_reserved_bits, Bool.false_eq_true, if_false, if_true, hz]
      rw [hmod _ (Nat.or_lt_two_pow (by norm_num) hrma)]
    · simp [int_reserved_bits, h1]
    · simp only [int_reserved_bits, if_true, h1]
      rw [hid _ hmsg, hmod _ (Nat.or_lt_two_pow hmsg hrma)]
  have hsmall : decided_bits c env caps max_tag_value < 2 ^ 30 := by
    unfold decided_bits
    apply Nat.or_lt_two_pow
    · split <;> omega
    · split <;> omega
  rcases reserve_cases c env caps max_tag_value with ⟨_, hfail⟩ | ⟨rc, _, _, heq⟩
  · rw [hfail] at hok
    simp at hok
  · rw [heq, hrb]
    show int_to_u64 (not_int (decided_bits c env caps max_tag_value |||
      shl_int (decided_bits c env caps max_tag_value) 1)) = _
    generalize decided_bits c env caps max_tag_value = r at hsmall
    have hshift : r <<< 1 < 2 ^ 31 := by
      rw [Nat.shiftLeft_eq]; omega
    have hshl : shl_int r 1 = r <<< 1 := by
      unfold shl_int
      exact Nat.mod_eq_of_lt (by omega)
    have hx : r ||| r <<< 1 < 2 ^ 31 := Nat.or_lt_two_pow (by omega) hshift
    rw [hshl, not_int_sign_extended _ hx]
    unfold spec_tag_mask
    rw [Nat.mod_eq_of_lt (by omega)]

/-- C24, evaluated with the reserved bits at positions 63 and 62: FI_MSG and
FI_RMA asked for, `am_msg` off, tagged-RMA acceleration on, max tag value 0.
The call returns 0 and decides to reserve both bits, for which the mask is to
be the complement of bits 62 and 63, `2 ^ 62 - 1`; the mask it returns is all
ones, with both reserved bits still set. -/
theorem reserve_mask_keeps_reserved_bits :
    psmx_reserve_tag_bits sample_consts tagged_rma_env
        (sample_consts.FI_MSG ||| sample_consts.FI_RMA) 0 =
      (0, sample_consts.FI_MSG ||| sample_consts.FI_RMA, 2 ^ 64 - 1) ∧
    decided_bits sample_consts tagged_rma_env (sample_consts.FI_MSG ||| sample_consts.FI_RMA) 0 =
      sample_consts.PSMX_MSG_BIT ||| sample_consts.PSMX_RMA_BIT ∧
    spec_tag_mask (sample_consts.PSMX_MSG_BIT ||| sample_consts.PSMX_RMA_BIT) = 2 ^ 62 - 1 ∧
    (2 ^ 64 - 1 : Nat) ≠ 2 ^ 62 - 1 ∧
    (2 ^ 64 - 1 : Nat) &&& sample_consts.PSMX_MSG_BIT ≠ 0 ∧
    (2 ^ 64 - 1 : Nat) &&& sample_consts.PSMX_RMA_BIT ≠ 0 := by
  decide

/-- With the reserved bits at positions 20 and 21 the same call returns the
complement of bits 20, 21 and 22. -/
theorem reserve_mask_low_bits_example :
    psmx_reserve_tag_bits low_bit_consts tagged_rma_env
        (low_bit_consts.FI_MSG ||| low_bit_consts.FI_RMA) 0 =
      (0, low_bit_consts.FI_MSG ||| low_bit_consts.FI_RMA,
        2 ^ 64 - 1 - (2 ^ 20 + 2 ^ 21 + 2 ^ 22)) ∧
    spec_tag_mask (decided_bits low_bit_consts tagged_rma_env
        (low_bit_consts.FI_MSG ||| low_bit_consts.FI_RMA) 0) =
      2 ^ 64 - 1 - (2 ^ 20 + 2 ^ 21 + 2 ^ 22) := by
  decide

/-! ## The capabilities that `psmx_reserve_tag_bits` returns -/

/-- C25. For every input, `psmx_reserve_tag_bits` returns 0 or -1. It returns
-1 only when `*caps` is non-zero, and then leaves `*caps` and
`*max_tag_value` as they were. When it returns 0 and `*caps` was non-zero,
`*caps` is unchanged; when it returns 0 and `*caps` was zero, every
capability bit it returns is a bit of `PSMX_CAPS`. -/
theorem reserve_only_narrows (c : psmx_consts) (env : psmx_env_t) (caps max_tag_value : Nat) :
    ((psmx_reserve_tag_bits c env caps max_tag_value).1 = 0 ∨
      (psmx_reserve_tag_bits c env caps max_tag_value).1 = -1) ∧
    ((psmx_reserve_tag_bits c env caps max_tag_value).1 ≠ 0 →
      caps ≠ 0 ∧ (psmx_reserve_tag_bits c env caps max_tag_value).2 = (caps, max_tag_value)) ∧
    ((psmx_reserve_tag_bits c env caps max_tag_value).1 = 0 → caps ≠ 0 →
      (psmx_reserve_tag_bits c env caps max_tag_value).2.1 = caps) ∧
    ((psmx_reserve_tag_bits c env caps max_tag_value).1 = 0 → caps = 0 →
      (∀ i, (psmx_reserve_tag_bits c env caps max_tag_value).2.1.testBit i = true →
        c.PSMX_CAPS.testBit i = true) ∧
      (psmx_reserve_tag_bits c env caps max_tag_value).2.1 &&& c.PSMX_CAPS =
        (psmx_reserve_tag_bits c env caps max_tag_value).2.1) := by
  rcases reserve_cases c env caps max_tag_value with ⟨hc, hfail⟩ | ⟨rc, hkeep, hsub, heq⟩
  · rw [hfail]
    refine ⟨Or.inr rfl, fun _ => ⟨hc, rfl⟩, fun h => ?_, fun h => ?_⟩
    · simp at h
    · simp at h
  · rw [heq]
    refine ⟨Or.inl rfl, fun h => absurd rfl h, fun _ hc => hkeep hc, fun _ h0 => ⟨hsub h0, ?_⟩⟩
    apply Nat.eq_of_testBit_eq
    intro i
    rw [Nat.testBit_and]
    cases hb : rc.testBit i with
    | false => simp
    | true => simp [hsub h0 i hb]

/-- The capabilities returned under the sample constants with every tag bit in
use: no request and an explicit request for FI_RMA, with tagged-RMA
acceleration off and on. -/
theorem reserve_only_narrows_examples :
    psmx_reserve_tag_bits sample_consts default_psmx_env 0 (2 ^ 64 - 1) =
      (0, sample_consts.PSMX_CAPS - sample_consts.FI_MSG, 2 ^ 64 - 1) ∧
    psmx_reserve_tag_bits sample_consts default_psmx_env sample_consts.FI_RMA (2 ^ 64 - 1) =
      (0, sample_consts.FI_RMA, 2 ^ 64 - 1) ∧
    psmx_reserve_tag_bits sample_consts tagged_rma_env sample_consts.FI_RMA (2 ^ 64 - 1) =
      (-1, sample_consts.FI_RMA, 2 ^ 64 - 1) ∧
    psmx_reserve_tag_bits sample_consts tagged_rma_env 0 (2 ^ 64 - 1) =
      (0, sample_consts.PSMX_CAPS - sample_consts.FI_MSG - sample_consts.FI_RMA, 2 ^ 64 - 1) := by
  decide

/-! ## The try step and the poll set -/

theorem try_callbacks_none_of_all_ok {S : Type} (env : Env S) (l : List (Nat × Nat))
    (hall : ∀ c ∈ l, ∀ s, (env.wait_try c.1 c.2 s).1 = FI_SUCCESS) :
    ∀ w : World S, (try_callbacks env l w).1 = none := by
  induction l with
  | nil => intro w; rfl
  | cons c cs ih =>
    intro w
    have hc : (call_wait_try env c.1 c.2 w).1 = FI_SUCCESS :=
      hall c (List.mem_cons_self c cs) w.st
    simp only [try_callbacks, hc, ne_eq, not_true_eq_false, if_false]
    exact ih (fun d hd => hall d (List.mem_cons_of_mem c hd)) _

theorem try_callbacks_some_of_failing {S : Type} (env : Env S) (l : List (Nat × Nat))
    (c : Nat × Nat) (hc : c ∈ l) (hfail : ∀ s, (env.wait_try c.1 c.2 s).1 ≠ FI_SUCCESS) :
    ∀ w : World S, (try_callbacks env l w).1 ≠ none := by
  induction l with
  | nil => cases hc
  | cons d ds ih =>
    intro w
    by_cases hd : (call_wait_try env d.1 d.2 w).1 ≠ FI_SUCCESS
    · simp [try_callbacks, hd]
    · have hd0 : (call_wait_try env d.1 d.2 w).1 = FI_SUCCESS := not_not.mp hd
      simp only [try_callbacks, hd0, ne_eq, not_true_eq_false, if_false]
      rcases List.mem_cons.mp hc with h | h
      · exfalso
        rw [h] at hfail
        exact hfail w.st hd0
      · exact ih h _

/-- The two outcomes of `util_wait_fd_try`, with the value returned in each. -/
theorem fd_try_outcomes {S : Type} (env : Env S) (wait : util_wait_fd) (w : World S) :
    ((try_callbacks env (try_order wait) { w with st := env.fd_signal_reset w.st }).1 = none ∧
      ∃ pr, (util_wait_fd_try env wait w).2.trace =
          w.trace ++ ((try_order wait).map ev_ok ++ [Event.fi_poll pr]) ∧
        (util_wait_fd_try env wait w).1 =
          (if pr > 0 then -FI_EAGAIN else if pr = -FI_EAGAIN then FI_SUCCESS else pr)) ∨
    (∃ pre c post ret, try_order wait = pre ++ c :: post ∧ ret ≠ FI_SUCCESS ∧
      (try_callbacks env (try_order wait) { w with st := env.fd_signal_reset w.st }).1 =
        some ret ∧
      (util_wait_fd_try env wait w).1 = ret ∧
      (util_wait_fd_try env wait w).2.trace =
        w.trace ++ (pre.map ev_ok ++ [Event.wait_try c.1 c.2 ret])) := by
  rw [util_wait_fd_try_eq]
  rcases try_callbacks_spec env (try_order wait) { w with st := env.fd_signal_reset w.st } with
    ⟨h1, h2⟩ | ⟨pre, c, post, ret, hl, hne, h1, h2⟩
  · left
    refine ⟨h1, ?_⟩
    rcases h : try_callbacks env (try_order wait) { w with st := env.fd_signal_reset w.st } with
      ⟨o, w1⟩
    rw [h] at h1 h2
    simp only at h1 h2
    subst h1
    refine ⟨(env.fi_poll w1.st).1, ?_, ?_⟩
    · simp [call_fi_poll, h2]
    · simp [call_fi_poll]
  · right
    refine ⟨pre, c, post, ret, hl, hne, h1, ?_⟩
    rcases h : try_callbacks env (try_order wait) { w with st := env.fd_signal_reset w.st } with
      ⟨o, w1⟩
    rw [h] at h1 h2
    simp only at h1 h2
    subst h1
    exact ⟨rfl, by simpa using h2⟩

/-- C26. When every registered callback returns `FI_SUCCESS`,
`util_wait_fd_try` calls every callback in order and then `fi_poll` once, and
its return value follows what `fi_poll` returned: `-FI_EAGAIN` for a positive
count, `FI_SUCCESS` for `-FI_EAGAIN`, and the value itself otherwise. When a
callback returns another code, that call is the last entry of the log, its
code is the return value and `fi_poll` is not called; this is the case
whenever a registered callback never returns `FI_SUCCESS`. -/
theorem fd_try_poll_decides {S : Type} (env : Env S) (wait : util_wait_fd) (w : World S) :
    ((∀ c ∈ try_order wait, ∀ s, (env.wait_try c.1 c.2 s).1 = FI_SUCCESS) →
      ∃ pr, (util_wait_fd_try env wait w).2.trace =
          w.trace ++ ((try_order wait).map ev_ok ++ [Event.fi_poll pr]) ∧
        (0 < pr → (util_wait_fd_try env wait w).1 = -FI_EAGAIN) ∧
        (pr = -FI_EAGAIN → (util_wait_fd_try env wait w).1 = FI_SUCCESS) ∧
        (¬ 0 < pr → pr ≠ -FI_EAGAIN → (util_wait_fd_try env wait w).1 = pr)) ∧
    (∀ e ∈ (util_wait_fd_try env wait w).2.trace.drop w.trace.length, is_failed_try e = true →
      (util_wait_fd_try env wait w).2.trace.getLast? = some e ∧
      (∀ e2 ∈ (util_wait_fd_try env wait w).2.trace.drop w.trace.length, is_fi_poll e2 = false) ∧
      (∃ f a, e = Event.wait_try f a (util_wait_fd_try env wait w).1)) ∧
    ((∃ c ∈ try_order wait, ∀ s, (env.wait_try c.1 c.2 s).1 ≠ FI_SUCCESS) →
      (util_wait_fd_try env wait w).1 ≠ FI_SUCCESS ∧
      (∀ e2 ∈ (util_wait_fd_try env wait w).2.trace.drop w.trace.length,
        is_fi_poll e2 = false)) := by
  refine ⟨?_, ?_, ?_⟩
  · intro hall
    have hnone := try_callbacks_none_of_all_ok env (try_order wait) hall
      { w with st := env.fd_signal_reset w.st }
    rcases fd_try_outcomes env wait w with ⟨_, pr, htr, hret⟩ | ⟨_, _, _, ret, _, _, hsome, _⟩
    · refine ⟨pr, htr, ?_, ?_, ?_⟩
      · intro hpos
        rw [hret, if_pos hpos]
      · intro heq
        have hnp : ¬ pr > 0 := by rw [heq]; decide
        rw [hret, if_neg hnp, if_pos heq]
      · intro hnp hne
        rw [hret, if_neg hnp, if_neg hne]
    · rw [hnone] at hsome
      cases hsome
  · intro e he hfail
    rcases fd_try_outcomes env wait w with ⟨_, pr, htr, _⟩ | ⟨pre, c, post, ret, _, hne, _, hret, htr⟩
    · exfalso
      rw [htr, List.drop_left] at he
      rcases List.mem_append.mp he with h | h
      · rcases List.mem_map.mp h with ⟨d, _, hd⟩
        rw [← hd] at hfail
        simp [is_failed_try, ev_ok] at hfail
      · rw [List.mem_singleton] at h
        rw [h] at hfail
        simp [is_failed_try] at hfail
    · rw [htr, List.drop_left] at he ⊢
      have hlast : e = Event.wait_try c.1 c.2 ret := by
        rcases List.mem_append.mp he with h | h
        · exfalso
          rcases List.mem_map.mp h with ⟨d, _, hd⟩
          rw [← hd] at hfail
          simp [is_failed_try, ev_ok] at hfail
        · exact List.mem_singleton.mp h
      refine ⟨?_, ?_, ⟨c.1, c.2, by rw [hlast, hret]⟩⟩
      · rw [hlast, ← List.append_assoc, List.getLast?_append]
        simp
      · intro e2 he2
        rcases List.mem_append.mp he2 with h | h
        · rcases List.mem_map.mp h with ⟨d, _, hd⟩
          rw [← hd]
          rfl
        · rw [List.mem_singleton] at h
          rw [h]
          rfl
  · rintro ⟨c, hc, hfail⟩
    have hsome := try_callbacks_some_of_failing env (try_order wait) c hc hfail
      { w with st := env.fd_signal_reset w.st }
    rcases fd_try_outcomes env wait w with ⟨hnone, _⟩ | ⟨pre, d, post, ret, _, hne, _, hret, htr⟩
    · exact absurd hnone hsome
    · refine ⟨by rw [hret]; exact hne, ?_⟩
      rw [htr, List.drop_left]
      intro e2 he2
      rcases List.mem_append.mp he2 with h | h
      · rcases List.mem_map.mp h with ⟨x, _, hx⟩
        rw [← hx]
        rfl
      · rw [List.mem_singleton] at h
        rw [h]
        rfl

/-- Witness for C26: a poll set that reports two events behind callbacks that
all return `FI_SUCCESS`, and a wait object whose first callback fails. -/
theorem fd_try_poll_decides_witness :
    (∃ pr, (util_wait_fd_try (polling_env 2) idle_wait_fd sample_world).2.trace =
        sample_world.trace ++ ((try_order idle_wait_fd).map ev_ok ++ [Event.fi_poll pr]) ∧
      (0 < pr → (util_wait_fd_try (polling_env 2) idle_wait_fd sample_world).1 = -FI_EAGAIN) ∧
      (pr = -FI_EAGAIN →
        (util_wait_fd_try (polling_env 2) idle_wait_fd sample_world).1 = FI_SUCCESS) ∧
      (¬ 0 < pr → pr ≠ -FI_EAGAIN →
        (util_wait_fd_try (polling_env 2) idle_wait_fd sample_world).1 = pr)) ∧
    ((util_wait_fd_try sample_env failing_then_ready_wait_fd sample_world).1 ≠ FI_SUCCESS ∧
      (∀ e2 ∈ (util_wait_fd_try sample_env failing_then_ready_wait_fd sample_world).2.trace.drop
          sample_world.trace.length, is_fi_poll e2 = false)) :=
  ⟨(fd_try_poll_decides (polling_env 2) idle_wait_fd sample_world).1
     (fun c hc s => by
       have h : c = (0, 9) ∨ c = (0, 3) := by simpa [try_order, idle_wait_fd] using hc
       rcases h with rfl | rfl <;> rfl),
   (fd_try_poll_decides sample_env failing_then_ready_wait_fd sample_world).2.2
     ⟨(2, 9), by decide, fun s => (by show (-FI_EINVAL : Int) ≠ FI_SUCCESS; decide)⟩⟩

/-- The four values of `fi_poll` and a failing callback, evaluated. -/
theorem fd_try_poll_examples :
    util_wait_fd_try (polling_env 2) idle_wait_fd sample_world =
      (-FI_EAGAIN, { st := [4], trace :=
        [Event.wait_try 0 9 0, Event.wait_try 0 3 0, Event.fi_poll 2] }) ∧
    util_wait_fd_try (polling_env (-FI_EAGAIN)) idle_wait_fd sample_world =
      (FI_SUCCESS, { st := [4], trace :=
        [Event.wait_try 0 9 0, Event.wait_try 0 3 0, Event.fi_poll (-FI_EAGAIN)] }) ∧
    util_wait_fd_try (polling_env 0) idle_wait_fd sample_world =
      (0, { st := [4], trace :=
        [Event.wait_try 0 9 0, Event.wait_try 0 3 0, Event.fi_poll 0] }) ∧
    util_wait_fd_try (polling_env (-FI_EINVAL)) idle_wait_fd sample_world =
      (-FI_EINVAL, { st := [4], trace :=
        [Event.wait_try 0 9 0, Event.wait_try 0 3 0, Event.fi_poll (-FI_EINVAL)] }) ∧
    util_wait_fd_try (polling_env 2) failing_then_ready_wait_fd sample_world =
      (-FI_EINVAL, { st := [4], trace := [Event.wait_try 2 9 (-FI_EINVAL)] }) := by
  decide

/-! ## Operation flags in the descriptor of `psmx_getinfo` -/

/-- Whenever `psmx_getinfo` succeeds on hints that carry both `tx_attr` and
`rx_attr`, both directions of the returned descriptor carry the transmit
flags of the hints; the receive flags of the hints are not read. -/
theorem getinfo_flags_from_tx (c : psmx_consts) (env : psmx_env_t) (ext : psmx_ext)
    (node : Option String) (flags : Nat) (hints : fi_info) (tx : fi_tx_attr) (rx : fi_rx_attr)
    (htx : hints.tx_attr = some tx) (hrx : hints.rx_attr = some rx)
    (hok : (psmx_getinfo c env ext node flags (some hints)).map Prod.fst = some 0) :
    returned_op_flags (psmx_getinfo c env ext node flags (some hints)) =
      some (0, some tx.op_flags, some tx.op_flags) := by
  unfold psmx_getinfo at hok ⊢
  simp only [htx, hrx] at hok ⊢
  split_ifs at hok ⊢ <;> first | rfl | (simp [FI_ENODATA, FI_ENOMEM] at hok)

/-- C27, evaluated on hints that pass every check and carry the transmit flags
`2 ^ 16` and the receive flags `2 ^ 17`: `psmx_getinfo` returns 0 and the
descriptor's `rx_attr->op_flags` is `2 ^ 16`, the transmit flags of the
hints; with transmit flags 0 the receive flags come back as 0. -/
theorem getinfo_rx_flags_not_echoed :
    psmx_hints_rejected sample_consts (flag_hints sample_consts (2 ^ 16) (2 ^ 17)) = false ∧
    returned_op_flags (psmx_getinfo sample_consts default_psmx_env sample_ext none 0
        (some (flag_hints sample_consts (2 ^ 16) (2 ^ 17)))) =
      some (0, some (2 ^ 16), some (2 ^ 16)) ∧
    returned_op_flags (psmx_getinfo sample_consts default_psmx_env sample_ext none 0
        (some (flag_hints sample_consts 0 (2 ^ 17)))) =
      some (0, some 0, some 0) ∧
    (2 ^ 16 : Nat) ≠ 2 ^ 17 := by
  decide

end Libfabric
